import Mathlib

/-!
SBF linker target: relocation patching and ABI-flag merging.

A shallow embedding of `lld/ELF/Arch/SBF.cpp`.  A patch site `uint8_t *loc` is a byte
buffer together with an index into it; `uint64_t` values are natural numbers with the
wrap-around arithmetic written out; `error(...)` appends a diagnostic to the list of
reported errors and lets the function run on, as the linker's error handler does.
-/

namespace SBFLinker

set_option autoImplicit false

/-- One byte of an output section (`uint8_t`). -/
abbrev Byte := Fin 256

/-- Relocation type number (`RelType`, a `uint32_t` in the linker). -/
abbrev RelType := Nat

/-- Relocation type codes used by `SBF.cpp`.  Their numeric values are declared in
`llvm/BinaryFormat/ELFRelocs/SBF.def`, which is not part of the sources at hand, so they
are taken as a parameter.  The five codes that label the `switch` in `getRelExpr` and in
`relocate` are pairwise distinct: a `switch` with a repeated case label does not compile. -/
structure RelocCodes where
  R_SBF_64_64 : RelType
  R_SBF_64_ABS64 : RelType
  R_SBF_64_ABS32 : RelType
  R_SBF_64_NODYLD32 : RelType
  R_SBF_64_RELATIVE : RelType
  R_SBF_64_32 : RelType
  caseLabelsDistinct :
    [R_SBF_64_32, R_SBF_64_ABS32, R_SBF_64_NODYLD32, R_SBF_64_ABS64, R_SBF_64_64].Nodup

/-- The code table of the SBF ELF ABI, used to evaluate the embedding on concrete inputs. -/
def sbfRelocCodes : RelocCodes where
  R_SBF_64_64 := 1
  R_SBF_64_ABS64 := 2
  R_SBF_64_ABS32 := 3
  R_SBF_64_NODYLD32 := 4
  R_SBF_64_RELATIVE := 8
  R_SBF_64_32 := 10
  caseLabelsDistinct := by decide

/-- The relocation expressions `getRelExpr` can return (`RelExpr`). -/
inductive RelExpr where
  | R_NONE
  | R_ABS
  | R_PC
  deriving DecidableEq, Repr

/-- Diagnostics reported through `error(...)` in `SBF.cpp`. -/
inductive Diag where
  /-- `error(getErrorLocation(loc) + "unrecognized reloc " + toString(type))` -/
  | unrecognizedReloc (type : RelType)
  /-- `error("can not link object files with incompatible flags")` -/
  | incompatibleFlags
  deriving DecidableEq, Repr

/-- The fields of `TargetInfo` that the `SBF` constructor sets. -/
structure TargetInfo where
  relativeRel : RelType
  symbolicRel : RelType
  defaultCommonPageSize : Nat
  defaultMaxPageSize : Nat
  defaultImageBase : Nat
  deriving DecidableEq, Repr

/-- `SBF::SBF()`. -/
def SBF (K : RelocCodes) : TargetInfo where
  relativeRel := K.R_SBF_64_RELATIVE
  symbolicRel := K.R_SBF_64_64
  defaultCommonPageSize := 8
  defaultMaxPageSize := 8
  defaultImageBase := 0

/-! ## Byte-level helpers -/

/-- Truncation of an integer to `uint8_t`. -/
def toByte (n : Nat) : Byte := Fin.ofNat n

/-- The byte stored at index `i` of a buffer, as a number. -/
def byteAt (buf : List Byte) (i : Nat) : Nat := (buf.getD i 0).val

/-- Modelled from the spec: `llvm::support::endian::read32le` of `llvm/Support/Endian.h`
(not among the sources): the little-endian 32-bit field at `p`. -/
def read32le (buf : List Byte) (p : Nat) : Nat :=
  byteAt buf p + 2 ^ 8 * byteAt buf (p + 1) + 2 ^ 16 * byteAt buf (p + 2)
    + 2 ^ 24 * byteAt buf (p + 3)

/-- Modelled from the spec: `llvm::support::endian::read64le` of `llvm/Support/Endian.h`
(not among the sources): the little-endian 64-bit field at `p`. -/
def read64le (buf : List Byte) (p : Nat) : Nat :=
  read32le buf p + 2 ^ 32 * read32le buf (p + 4)

/-- Modelled from the spec: `llvm::support::endian::write32le` of `llvm/Support/Endian.h`
(not among the sources): stores the `uint32_t` value `v` as four bytes, least significant
first, at `p`. -/
def write32le (buf : List Byte) (p : Nat) (v : Nat) : List Byte :=
  (((buf.set p (toByte v)).set (p + 1) (toByte (v / 2 ^ 8))).set (p + 2)
    (toByte (v / 2 ^ 16))).set (p + 3) (toByte (v / 2 ^ 24))

/-- Modelled from the spec: `llvm::support::endian::write64le` of `llvm/Support/Endian.h`
(not among the sources): stores the `uint64_t` value `v` as eight bytes, least significant
first, at `p`. -/
def write64le (buf : List Byte) (p : Nat) (v : Nat) : List Byte :=
  write32le (write32le buf p (v % 2 ^ 32)) (p + 4) (v / 2 ^ 32 % 2 ^ 32)

/-- Reinterpretation of a 64-bit pattern as `int64_t`. -/
def toInt64 (x : Nat) : Int :=
  if x % 2 ^ 64 < 2 ^ 63 then (x % 2 ^ 64 : Nat) else ((x % 2 ^ 64 : Nat) : Int) - 2 ^ 64

/-- Modelled from the spec: `llvm::SignExtend64<B>` of `llvm/Support/MathExtras.h` (not
among the sources), `int64_t(x << (64 - B)) >> (64 - B)`: shift the low `B` bits to the
top of the word, then shift back arithmetically. -/
def SignExtend64 (B : Nat) (x : Nat) : Int :=
  toInt64 (x * 2 ^ (64 - B)) / 2 ^ (64 - B)

/-! ## The target hooks of `SBF.cpp` -/

/-- `SBF::getRelExpr`: the relocation expression for a type, with the errors reported. -/
def getRelExpr (K : RelocCodes) (type : RelType) : RelExpr × List Diag :=
  if type = K.R_SBF_64_32 then (RelExpr.R_PC, [])
  else if type = K.R_SBF_64_ABS32 ∨ type = K.R_SBF_64_NODYLD32 ∨ type = K.R_SBF_64_ABS64
      ∨ type = K.R_SBF_64_64 then (RelExpr.R_ABS, [])
  else (RelExpr.R_NONE, [Diag.unrecognizedReloc type])

/-- `SBF::getDynRel`. -/
def getDynRel (K : RelocCodes) (type : RelType) : RelType :=
  if type = K.R_SBF_64_ABS64 then K.R_SBF_64_64 else type

/-- `SBF::getImplicitAddend`, reading the buffer at index `loc`. -/
def getImplicitAddend (K : RelocCodes) (buf : List Byte) (loc : Nat) (type : RelType) : Int :=
  if type = K.R_SBF_64_ABS32 then SignExtend64 32 (read32le buf loc) else 0

/-- `SBF::relocate`: the patched buffer and the errors reported.  `val` is a `uint64_t`;
the subtraction wraps modulo `2 ^ 64` and the argument of `write32le` is converted to
`uint32_t`. -/
def relocate (K : RelocCodes) (buf : List Byte) (loc : Nat) (type : RelType) (val : Nat) :
    List Byte × List Diag :=
  if type = K.R_SBF_64_32 then
    (write32le buf (loc + 4) ((((val + 2 ^ 64 - 8) % 2 ^ 64 / 8) &&& 0xFFFFFFFF) % 2 ^ 32), [])
  else if type = K.R_SBF_64_ABS32 ∨ type = K.R_SBF_64_NODYLD32 then
    (write32le buf loc ((val &&& 0xFFFFFFFF) % 2 ^ 32), [])
  else if type = K.R_SBF_64_64 then
    (write32le (write32le buf (loc + 4) ((val &&& 0xFFFFFFFF) % 2 ^ 32)) (loc + 8 + 4)
      ((val >>> 32) % 2 ^ 32), [])
  else if type = K.R_SBF_64_ABS64 then
    (write64le buf loc val, [])
  else (buf, [Diag.unrecognizedReloc type])

/-- An input object file, reduced to the `e_flags` word of its ELF header. -/
structure InputFile where
  e_flags : Nat
  deriving DecidableEq, Repr

/-- `getEFlags`: the header flag word, read through the big- or little-endian view of the
file according to `config->ekind`. -/
def getEFlags (ekindBE : Bool) (file : InputFile) : Nat :=
  if ekindBE then file.e_flags else file.e_flags

/-- One iteration of the loop of `SBF::calcEFlags` on the state `(ret, errors)`. -/
def calcEFlagsStep (ekindBE : Bool) (st : Nat × List Diag) (f : InputFile) : Nat × List Diag :=
  let flags := getEFlags ekindBE f
  if st.1 = 0 then (flags, st.2)
  else if st.1 ≠ flags then (st.1, st.2 ++ [Diag.incompatibleFlags])
  else st

/-- `SBF::calcEFlags` over `ctx.objectFiles`: the returned flag word and the errors
reported. -/
def calcEFlags (ekindBE : Bool) (objectFiles : List InputFile) : Nat × List Diag :=
  objectFiles.foldl (calcEFlagsStep ekindBE) (0, [])

/-- The relocation types named by the case labels of `getRelExpr` and `relocate`. -/
def recognisedTypes (K : RelocCodes) : List RelType :=
  [K.R_SBF_64_32, K.R_SBF_64_ABS32, K.R_SBF_64_NODYLD32, K.R_SBF_64_64, K.R_SBF_64_ABS64]

end SBFLinker

/-!
SBF instruction-selection lowering: a shallow embedding of
`llvm/lib/Target/SBF/SBFISelLowering.cpp`.  Selection-DAG values are terms, a token chain
is the list of the chained nodes in the order in which they were emitted, `fail(...)`
appends a diagnostic, and a result of `none` stands for an aborted lowering
(`report_fatal_error`, `llvm_unreachable` or a failed `assert`).
-/

namespace SBFLowering

set_option autoImplicit false

/-- The integer machine value types the lowering deals with (`MVT`). -/
inductive MVT where
  | i8
  | i16
  | i32
  | i64
  deriving DecidableEq, Repr

/-- `MVT::getFixedSizeInBits`. -/
def MVT.getFixedSizeInBits : MVT → Nat
  | .i8 => 8
  | .i16 => 16
  | .i32 => 32
  | .i64 => 64

/-- `EVT::bitsGT`. -/
def MVT.bitsGT (a b : MVT) : Bool := decide (b.getFixedSizeInBits < a.getFixedSizeInBits)

/-- Physical registers: the 64-bit registers `R0 .. R10` and their 32-bit views
`W0 .. W10`. -/
inductive Register where
  | R (n : Nat)
  | W (n : Nat)
  deriving DecidableEq, Repr

/-- The subtarget features the lowering consults. -/
structure Subtarget where
  HasDynamicFrames : Bool
  HasAlu32 : Bool
  HasJmpExt : Bool
  deriving DecidableEq, Repr

/-- `CallingConv::ID`, as far as the lowering distinguishes it. -/
inductive CallingConv where
  | C
  | Fast
  | Other (id : Nat)
  deriving DecidableEq, Repr

/-- Diagnostics reported through `fail(DL, DAG, Msg)`. -/
inductive LoweringDiag where
  /-- `"Functions with VarArgs are not supported"` -/
  | VarArgsNotSupported
  /-- `"Only a single return supported"` -/
  | OnlySingleReturn
  deriving DecidableEq, Repr

/-- The outcome of a lowering hook: the diagnostics reported, and the value returned
unless the lowering was aborted. -/
structure Lowered (α : Type) where
  Diags : List LoweringDiag
  Result : Option α

/-- `ISD::ArgFlagsTy`: the extension attributes of an argument. -/
structure ArgFlagsTy where
  IsSExt : Bool
  IsZExt : Bool
  deriving DecidableEq, Repr

/-- `ISD::InputArg` and `ISD::OutputArg`: the type and flags of one argument or result. -/
structure ISDArg where
  VT : MVT
  Flags : ArgFlagsTy
  deriving DecidableEq, Repr

/-- `CCValAssign::LocInfo`. -/
inductive LocInfo where
  | Full
  | SExt
  | ZExt
  | AExt
  | BCvt
  deriving DecidableEq, Repr

/-- Where `CCValAssign` places a value: a register, a stack offset, or a pending
location. -/
inductive ArgLoc where
  | Reg (r : Register)
  | Mem (Offset : Nat)
  | Pending (n : Nat)
  deriving DecidableEq, Repr

/-- `CCValAssign`. -/
structure CCValAssign where
  ValNo : Nat
  ValVT : MVT
  LocVT : MVT
  Loc : ArgLoc
  HTP : LocInfo
  deriving DecidableEq, Repr

/-- `CCValAssign::isRegLoc`. -/
def CCValAssign.isRegLoc (VA : CCValAssign) : Bool :=
  match VA.Loc with
  | .Reg _ => true
  | _ => false

/-- `CCValAssign::isMemLoc`. -/
def CCValAssign.isMemLoc (VA : CCValAssign) : Bool :=
  match VA.Loc with
  | .Mem _ => true
  | _ => false

/-- `CCState`: the number of argument registers handed out, the stack bytes handed out
and the locations assigned so far. -/
structure CCState where
  NumRegsUsed : Nat
  StackSize : Nat
  Locs : List CCValAssign
  deriving DecidableEq, Repr

/-- A calling-convention assignment function (`CCAssignFn`). -/
abbrev CCAssignFn := Nat → MVT → ArgFlagsTy → CCState → CCState

/-- Modelled from the spec: the extension recorded when a table promotes a narrow
argument (`CCPromoteToType`): sign or zero extension as the argument is flagged, any
extension otherwise. -/
def promotedLocInfo (Flags : ArgFlagsTy) : LocInfo :=
  if Flags.IsSExt then LocInfo.SExt else if Flags.IsZExt then LocInfo.ZExt else LocInfo.AExt

/-- Modelled from the spec: the table-generated assignment functions of
`SBFGenCallingConv.inc` (not among the sources).  Parameters are taken in order; while
fewer than `NumRegs` registers are in use the value goes to the next unused
class-appropriate register (the 32-bit class when ALU32 is enabled and the value is
32-bit, the 64-bit class otherwise, narrower values being promoted first); once the
registers are exhausted it goes to the next 8-byte stack slot. -/
def CC_SBF (NumRegs : Nat) (Alu32 : Bool) : CCAssignFn := fun ValNo ValVT Flags State =>
  let LocVT : MVT :=
    if Alu32 then (if ValVT = MVT.i8 ∨ ValVT = MVT.i16 then MVT.i32 else ValVT) else MVT.i64
  let Info : LocInfo := if LocVT = ValVT then LocInfo.Full else promotedLocInfo Flags
  if State.NumRegsUsed < NumRegs then
    let Reg : Register :=
      if LocVT = MVT.i32 then Register.W (State.NumRegsUsed + 1)
      else Register.R (State.NumRegsUsed + 1)
    { NumRegsUsed := State.NumRegsUsed + 1
      StackSize := State.StackSize
      Locs := State.Locs ++ [⟨ValNo, ValVT, LocVT, ArgLoc.Reg Reg, Info⟩] }
  else
    { NumRegsUsed := State.NumRegsUsed
      StackSize := State.StackSize + 8
      Locs := State.Locs ++ [⟨ValNo, ValVT, LocVT, ArgLoc.Mem State.StackSize, Info⟩] }

/-- Modelled from the spec: `CC_SBF64`, up to five arguments in `R1 .. R5`. -/
def CC_SBF64 : CCAssignFn := CC_SBF 5 false

/-- Modelled from the spec: `CC_SBF32`, the ALU32 variant of `CC_SBF64`. -/
def CC_SBF32 : CCAssignFn := CC_SBF 5 true

/-- Modelled from the spec: `CC_SBF64_X`, up to four arguments in `R1 .. R4`, the
others on the stack. -/
def CC_SBF64_X : CCAssignFn := CC_SBF 4 false

/-- Modelled from the spec: `CC_SBF32_X`, the ALU32 variant of `CC_SBF64_X`. -/
def CC_SBF32_X : CCAssignFn := CC_SBF 4 true

/-- The loop of `CCState::AnalyzeFormalArguments` / `AnalyzeCallOperands` from argument
number `i` on: each argument is handed to the assignment function in turn. -/
def analyzeFrom (Fn : CCAssignFn) : Nat → List ISDArg → CCState → CCState
  | _, [], State => State
  | i, Arg :: rest, State => analyzeFrom Fn (i + 1) rest (Fn i Arg.VT Arg.Flags State)

/-- `CCState::AnalyzeFormalArguments`, on a fresh `CCState`. -/
def AnalyzeFormalArguments (Ins : List ISDArg) (Fn : CCAssignFn) : CCState :=
  analyzeFrom Fn 0 Ins ⟨0, 0, []⟩

/-- `CCState::AnalyzeCallOperands`, on a fresh `CCState`. -/
def AnalyzeCallOperands (Outs : List ISDArg) (Fn : CCAssignFn) : CCState :=
  analyzeFrom Fn 0 Outs ⟨0, 0, []⟩

/-- `SBFTargetLowering::MaxArgs`. -/
def MaxArgs : Nat := 5

/-- `SBFRegisterInfo::FrameLength`, as the `SBFTargetLowering` constructor sets it. -/
def FrameLength : Nat := 4096

/-- The argument analysis at the head of `LowerFormalArguments` (the `CCInfo` after the
`if` on the subtarget and on `Ins.size()`). -/
def LowerFormalArguments_CCInfo (ST : Subtarget) (Ins : List ISDArg) : CCState :=
  if !ST.HasDynamicFrames && decide (Ins.length > MaxArgs) then
    AnalyzeFormalArguments Ins (if ST.HasAlu32 then CC_SBF32_X else CC_SBF64_X)
  else
    AnalyzeFormalArguments Ins (if ST.HasAlu32 then CC_SBF32 else CC_SBF64)

/-- The argument analysis at the head of `LowerCall` (the `CCInfo` after the `if` on
`Outs.size()` and on the subtarget). -/
def LowerCall_CCInfo (ST : Subtarget) (Outs : List ISDArg) : CCState :=
  if Outs.length > MaxArgs then
    if ST.HasDynamicFrames then
      AnalyzeCallOperands Outs (if ST.HasAlu32 then CC_SBF32 else CC_SBF64)
    else
      AnalyzeCallOperands Outs (if ST.HasAlu32 then CC_SBF32_X else CC_SBF64_X)
  else
    AnalyzeCallOperands Outs (if ST.HasAlu32 then CC_SBF32 else CC_SBF64)

/-- The number of register locations in a list of assignments. -/
def regCount (Locs : List CCValAssign) : Nat := (Locs.filter CCValAssign.isRegLoc).length

/-- The stack offsets of the memory locations of a list of assignments, in list order. -/
def memOffsets (Locs : List CCValAssign) : List Nat :=
  Locs.filterMap fun VA =>
    match VA.Loc with
    | .Mem Offset => some Offset
    | _ => none

/-! ## Selection-DAG values and chains -/

/-- `ISD::CondCode`. -/
inductive CondCode where
  | SETFALSE | SETOEQ | SETOGT | SETOGE | SETOLT | SETOLE | SETONE | SETO
  | SETUO | SETUEQ | SETUGT | SETUGE | SETULT | SETULE | SETUNE | SETTRUE
  | SETFALSE2 | SETEQ | SETGT | SETGE | SETLT | SETLE | SETNE | SETTRUE2
  deriving DecidableEq, Repr

/-- One-operand generic nodes the lowering builds. -/
inductive UnaryOp where
  | SIGN_EXTEND
  | ZERO_EXTEND
  | ANY_EXTEND
  | TRUNCATE
  | AssertSext (From : MVT)
  | AssertZext (From : MVT)
  deriving DecidableEq, Repr

/-- Two-operand generic nodes the lowering builds. -/
inductive BinaryOp where
  | ADD | SUB | AND | OR | XOR | SMIN | UMIN | SMAX | UMAX
  deriving DecidableEq, Repr

/-- A selection-DAG value (`SDValue`), as a term. -/
inductive SDValue where
  /-- a value computed elsewhere in the DAG that is not a constant node -/
  | Leaf (Id : Nat) (VT : MVT)
  /-- `ConstantSDNode` -/
  | Constant (Val : Nat) (VT : MVT)
  /-- `DAG.getCopyFromReg` -/
  | CopyFromReg (Reg : Register) (VT : MVT)
  /-- `DAG.getFrameIndex` of a fixed stack object -/
  | FrameIndex (FI : Nat) (VT : MVT)
  | Unary (Opc : UnaryOp) (VT : MVT) (Op : SDValue)
  | Binary (Opc : BinaryOp) (VT : MVT) (A B : SDValue)
  /-- `DAG.getSelectCC(DL, LHS, RHS, True, False, CC)` -/
  | SELECT_CC (VT : MVT) (LHS RHS True False : SDValue) (CC : CondCode)
  /-- `DAG.getLoad` (`MemVT = VT`) and `DAG.getExtLoad(ISD::EXTLOAD, ...)` -/
  | Load (VT MemVT : MVT) (Ptr : SDValue)
  deriving DecidableEq, Repr

/-- `SDValue::getValueType`. -/
def SDValue.getValueType : SDValue → MVT
  | .Leaf _ VT => VT
  | .Constant _ VT => VT
  | .CopyFromReg _ VT => VT
  | .FrameIndex _ VT => VT
  | .Unary _ VT _ => VT
  | .Binary _ VT _ _ => VT
  | .SELECT_CC VT _ _ _ _ _ => VT
  | .Load VT _ _ => VT

/-- `isIntOrFPConstant`. -/
def isIntOrFPConstant : SDValue → Bool
  | .Constant _ _ => true
  | _ => false

/-- The pointer type of the target (`getPointerTy`): pointers are 64-bit. -/
def PtrVT : MVT := MVT.i64

/-- The callee operand of a call. -/
inductive Callee where
  | GlobalAddress (Global : Nat) (Offset : Int)
  | ExternalSymbol (Symbol : Nat)
  | TargetGlobalAddress (Global : Nat) (Offset : Int)
  | TargetExternalSymbol (Symbol : Nat)
  | Value (V : SDValue)
  deriving DecidableEq, Repr

/-- A node on a token chain.  `GlueIn` tells whether the node takes the glue result of
the node before it as an operand. -/
inductive ChainNode where
  | CALLSEQ_START (NumBytes : Nat)
  /-- `DAG.getStore` of `Val` to the fixed object `FI`, created with `Size` and `Offset` -/
  | Store (Val : SDValue) (FI : Nat) (Size : Nat) (Offset : Int)
  | CopyToReg (Reg : Register) (Val : SDValue) (GlueIn : Bool)
  /-- `SBFISD::CALL` with its register operands -/
  | CALL (Target : Callee) (Regs : List Register) (GlueIn : Bool)
  | CALLSEQ_END (NumBytes : Nat)
  | CopyFromReg (Reg : Register) (VT : MVT)
  /-- `SBFISD::RET_GLUE` with its register operands -/
  | RET_GLUE (Regs : List Register) (GlueIn : Bool)
  deriving DecidableEq, Repr

/-- The return-value assignment tables `RetCC_SBF32` and `RetCC_SBF64` of
`SBFGenCallingConv.inc` (not among the sources), as run by `CCState::AnalyzeReturn` and
`CCState::AnalyzeCallResult`: the locations of the values, or `none` when a value cannot
be assigned (a fatal error).  They are a parameter of the lowering. -/
structure RetTables where
  RetCC_SBF32 : List ISDArg → Option (List CCValAssign)
  RetCC_SBF64 : List ISDArg → Option (List CCValAssign)

/-! ## `LowerFormalArguments` -/

/-- What `LowerFormalArguments` produces besides the chain: the incoming values, the
fixed stack objects created (size, offset) and the physical registers made live-in. -/
structure FormalArguments where
  InVals : List SDValue
  FixedObjects : List (Nat × Int)
  LiveIns : List Register
  deriving DecidableEq, Repr

/-- The walk of `LowerFormalArguments` over `ArgLocs`, after `Acc`. -/
def lowerFormalArgLocs (ST : Subtarget) :
    List CCValAssign → FormalArguments → Option FormalArguments
  | [], Acc => some Acc
  | VA :: rest, Acc =>
    match VA.Loc with
    | .Reg LocReg =>
      -- Argument passed in registers
      let RegVT := VA.LocVT
      if RegVT = MVT.i32 ∨ RegVT = MVT.i64 then
        let ArgValue := SDValue.CopyFromReg LocReg RegVT
        let ArgValue :=
          if VA.HTP = LocInfo.SExt then SDValue.Unary (UnaryOp.AssertSext VA.ValVT) RegVT ArgValue
          else if VA.HTP = LocInfo.ZExt then
            SDValue.Unary (UnaryOp.AssertZext VA.ValVT) RegVT ArgValue
          else ArgValue
        let ArgValue :=
          if VA.HTP ≠ LocInfo.Full then SDValue.Unary UnaryOp.TRUNCATE VA.ValVT ArgValue
          else ArgValue
        lowerFormalArgLocs ST rest
          { Acc with InVals := Acc.InVals ++ [ArgValue], LiveIns := Acc.LiveIns ++ [LocReg] }
      else none
    | .Mem LocMemOffset =>
      -- Argument passed via stack
      let LocVT := VA.LocVT
      if ST.HasDynamicFrames then
        let Size := PtrVT.getFixedSizeInBits / 8
        let Offset : Int := -((LocMemOffset + Size : Nat) : Int)
        let FrameIndex := Acc.FixedObjects.length
        let SDV := SDValue.Load LocVT LocVT (SDValue.FrameIndex FrameIndex PtrVT)
        lowerFormalArgLocs ST rest
          { Acc with InVals := Acc.InVals ++ [SDV]
                     FixedObjects := Acc.FixedObjects ++ [(Size, Offset)] }
      else
        let Offset : Nat := (((FrameLength : Int) - (LocMemOffset : Int)) % 2 ^ 32).toNat
        let Const := SDValue.Constant Offset MVT.i64
        let SDV := SDValue.CopyFromReg (Register.R 5) PtrVT
        let SDV := SDValue.Binary BinaryOp.SUB PtrVT SDV Const
        let SDV := SDValue.Load LocVT LocVT SDV
        lowerFormalArgLocs ST rest
          { Acc with InVals := Acc.InVals ++ [SDV], LiveIns := Acc.LiveIns ++ [Register.R 5] }
    | .Pending _ => none

/-- `SBFTargetLowering::LowerFormalArguments`. -/
def LowerFormalArguments (ST : Subtarget) (CallConv : CallingConv) (IsVarArg : Bool)
    (Ins : List ISDArg) : Lowered FormalArguments :=
  match CallConv with
  | .Other _ => ⟨[], none⟩
  | _ =>
    let ArgLocs := (LowerFormalArguments_CCInfo ST Ins).Locs
    match lowerFormalArgLocs ST ArgLocs ⟨[], [], []⟩ with
    | none => ⟨[], none⟩
    | some Args =>
      ⟨if IsVarArg then [LoweringDiag.VarArgsNotSupported] else [], some Args⟩

/-! ## `LowerCallResult`, `LowerReturn` and `LowerCall` -/

/-- The loop of `LowerCallResult` over `RVLocs`: one `CopyFromReg` per result, chained,
and the values pushed on `InVals`. -/
def copyResults : List CCValAssign → Option (List ChainNode × List SDValue)
  | [] => some ([], [])
  | Val :: rest =>
    match Val.Loc with
    | .Reg LocReg =>
      (copyResults rest).map fun r =>
        (ChainNode.CopyFromReg LocReg Val.ValVT :: r.1,
          SDValue.CopyFromReg LocReg Val.ValVT :: r.2)
    | _ => none

/-- `SBFTargetLowering::LowerCallResult`: the nodes appended to the chain and the values
pushed on `InVals`. -/
def LowerCallResult (T : RetTables) (ST : Subtarget) (Ins : List ISDArg) :
    Lowered (List ChainNode × List SDValue) :=
  if Ins.length > 1 then
    -- fail(DL, DAG, "Only a single return supported"); assert(false);
    ⟨[LoweringDiag.OnlySingleReturn], none⟩
  else
    match (if ST.HasAlu32 then T.RetCC_SBF32 else T.RetCC_SBF64) Ins with
    | none => ⟨[], none⟩
    | some RVLocs => ⟨[], copyResults RVLocs⟩

/-- The loop of `LowerReturn` over `RVLocs`: one glued `CopyToReg` per value, and the
register operands of the return node. -/
def copyReturnValues : List CCValAssign → List SDValue → Bool →
    Option (List ChainNode × List Register)
  | [], _, _ => some ([], [])
  | _ :: _, [], _ => none
  | VA :: rest, OutVal :: vals, Flag =>
    match VA.Loc with
    | .Reg LocReg =>
      (copyReturnValues rest vals true).map fun r =>
        (ChainNode.CopyToReg LocReg OutVal Flag :: r.1, LocReg :: r.2)
    | _ => none

/-- `SBFTargetLowering::LowerReturn`: the chain it builds, ending in `SBFISD::RET_GLUE`. -/
def LowerReturn (T : RetTables) (ST : Subtarget) (Outs : List ISDArg)
    (OutVals : List SDValue) : Lowered (List ChainNode) :=
  if Outs.length > 1 then
    -- fail(DL, DAG, "Only a single return supported"); assert(false);
    ⟨[LoweringDiag.OnlySingleReturn], none⟩
  else
    match (if ST.HasAlu32 then T.RetCC_SBF32 else T.RetCC_SBF64) Outs with
    | none => ⟨[], none⟩
    | some RVLocs =>
      ⟨[], (copyReturnValues RVLocs OutVals false).map fun r =>
        r.1 ++ [ChainNode.RET_GLUE r.2 (decide (r.1 ≠ []))]⟩

/-- `TargetLowering::CallLoweringInfo`, the fields `LowerCall` reads. -/
structure CallLoweringInfo where
  Outs : List ISDArg
  OutVals : List SDValue
  Ins : List ISDArg
  Target : Callee
  CallConv : CallingConv
  IsVarArg : Bool

/-- The state of the first walk of `LowerCall` over the argument locations when it stops:
the index `i` it stopped at, `HasStackArgs` and `RegsToPass`. -/
structure RegWalk where
  i : Nat
  HasStackArgs : Bool
  RegsToPass : List (Register × SDValue)
  deriving DecidableEq, Repr

/-- The `switch (VA.getLocInfo())` of `LowerCall`: promote the value if needed. -/
def promoteArg (VA : CCValAssign) (Arg : SDValue) : Option SDValue :=
  match VA.HTP with
  | .Full => some Arg
  | .SExt => some (SDValue.Unary UnaryOp.SIGN_EXTEND VA.LocVT Arg)
  | .ZExt => some (SDValue.Unary UnaryOp.ZERO_EXTEND VA.LocVT Arg)
  | .AExt => some (SDValue.Unary UnaryOp.ANY_EXTEND VA.LocVT Arg)
  | .BCvt => none

/-- The first loop of `LowerCall` ("Walk arg assignments") over `ArgLocs[i]` and
`OutVals[i]`: register arguments are collected until the first stack argument. -/
def walkArgs : List CCValAssign → List SDValue → Option RegWalk
  | [], _ => some ⟨0, false, []⟩
  | _ :: _, [] => none
  | VA :: rest, OutVal :: vals =>
    match promoteArg VA OutVal with
    | none => none
    | some Arg =>
      match VA.Loc with
      | .Mem _ => some ⟨0, true, []⟩
      | .Reg LocReg =>
        (walkArgs rest vals).map fun w =>
          ⟨w.i + 1, w.HasStackArgs, (LocReg, Arg) :: w.RegsToPass⟩
      | .Pending _ => none

/-- The second loop of `LowerCall` over the stack arguments, given in the order in which
the loop visits them (from the last location down): one fixed object and one chained
store each; `FI` is the number of fixed objects created before. -/
def storeStackArgs (ST : Subtarget) : List (CCValAssign × SDValue) → Nat →
    Option (List ChainNode)
  | [], _ => some []
  | (VA, Arg) :: rest, FI =>
    match VA.Loc with
    | .Mem LocMemOffset =>
      let Size := VA.LocVT.getFixedSizeInBits / 8
      let Offset : Int :=
        if ST.HasDynamicFrames then (LocMemOffset : Int) + (Size : Int) else (LocMemOffset : Int)
      (storeStackArgs ST rest (FI + 1)).map fun Stores =>
        ChainNode.Store Arg FI Size Offset :: Stores
    | _ => none

/-- The copies of the outgoing register arguments: the first takes the glue `InGlue`,
each later one the glue of the copy before it. -/
def copyRegsToPass : List (Register × SDValue) → Bool → List ChainNode
  | [], _ => []
  | Reg :: rest, InGlue => ChainNode.CopyToReg Reg.1 Reg.2 InGlue :: copyRegsToPass rest true

/-- The callee operand of the call node: global addresses and external symbols become
target nodes. -/
def targetCallee : Callee → Callee
  | .GlobalAddress G Offset => Callee.TargetGlobalAddress G Offset
  | .ExternalSymbol S => Callee.TargetExternalSymbol S
  | C => C

/-- `LowerCall` from `CCInfo.getStackSize()` up to the `CALLSEQ_END` node, for the
argument locations `ArgLocs`: the chain built.  `FramePtr` is the frame register of the
caller (`getFrameRegister`). -/
def LowerCall_chain (ST : Subtarget) (FramePtr : Register) (CLI : CallLoweringInfo)
    (ArgLocs : List CCValAssign) (NumBytes : Nat) : Option (List ChainNode) :=
  match walkArgs ArgLocs CLI.OutVals with
  | none => none
  | some W =>
    let Stores : Option (List ChainNode) :=
      if W.HasStackArgs then
        if ArgLocs.length ≤ CLI.OutVals.length then
          storeStackArgs ST ((ArgLocs.zip CLI.OutVals).drop W.i).reverse 0
        else none
      else some []
    match Stores with
    | none => none
    | some Stores =>
      let PassFrame := W.HasStackArgs && !ST.HasDynamicFrames
      let FrameCopy : List ChainNode :=
        if PassFrame then
          [ChainNode.CopyToReg (Register.R 5) (SDValue.CopyFromReg FramePtr PtrVT) false]
        else []
      let RegCopies := copyRegsToPass W.RegsToPass PassFrame
      let Ops : List Register :=
        W.RegsToPass.map Prod.fst ++ (if PassFrame then [Register.R 5] else [])
      let InGlue : Bool := PassFrame || decide (W.RegsToPass ≠ [])
      some ([ChainNode.CALLSEQ_START NumBytes] ++ Stores ++ FrameCopy ++ RegCopies
        ++ [ChainNode.CALL (targetCallee CLI.Target) Ops InGlue,
            ChainNode.CALLSEQ_END NumBytes])

/-- `LowerCall` from `CCInfo.getStackSize()` on: the chain of `LowerCall_chain` followed
by the result copies of `LowerCallResult`, and `InVals`. -/
def LowerCall_emit (T : RetTables) (ST : Subtarget) (FramePtr : Register)
    (CLI : CallLoweringInfo) (ArgLocs : List CCValAssign) (NumBytes : Nat) :
    Lowered (List ChainNode × List SDValue) :=
  match LowerCall_chain ST FramePtr CLI ArgLocs NumBytes with
  | none => ⟨[], none⟩
  | some Chain =>
    let Res := LowerCallResult T ST CLI.Ins
    ⟨Res.Diags, Res.Result.map fun r => (Chain ++ r.1, r.2)⟩

/-- `SBFTargetLowering::LowerCall`. -/
def LowerCall (T : RetTables) (ST : Subtarget) (FramePtr : Register)
    (CLI : CallLoweringInfo) : Lowered (List ChainNode × List SDValue) :=
  match CLI.CallConv with
  | .Other _ => ⟨[], none⟩
  | _ =>
    let CCInfo := LowerCall_CCInfo ST CLI.Outs
    LowerCall_emit T ST FramePtr CLI CCInfo.Locs CCInfo.StackSize

/-- The values stored by the `Store` nodes of a chain, in chain order. -/
def storedValues (Chain : List ChainNode) : List SDValue :=
  Chain.filterMap fun N =>
    match N with
    | .Store Val _ _ _ => some Val
    | _ => none

/-! ## `NegateCC`, `LowerBR_CC` and `LowerSELECT_CC` -/

/-- Modelled from the spec: `ISD::getSetCCSwappedOperands` (SelectionDAG, not among the
sources): the condition that holds of `(Y, X)` exactly when the given one holds of
`(X, Y)`; the less-than and greater-than forms are mirrored, the others are kept. -/
def getSetCCSwappedOperands : CondCode → CondCode
  | .SETLT => .SETGT
  | .SETGT => .SETLT
  | .SETLE => .SETGE
  | .SETGE => .SETLE
  | .SETULT => .SETUGT
  | .SETUGT => .SETULT
  | .SETULE => .SETUGE
  | .SETUGE => .SETULE
  | .SETOLT => .SETOGT
  | .SETOGT => .SETOLT
  | .SETOLE => .SETOGE
  | .SETOGE => .SETOLE
  | CC => CC

/-- `NegateCC`: the operands and the condition code after the call. -/
def NegateCC (LHS RHS : SDValue) (CC : CondCode) : SDValue × SDValue × CondCode :=
  match CC with
  | .SETULT | .SETULE | .SETLT | .SETLE => (RHS, LHS, getSetCCSwappedOperands CC)
  | _ => (LHS, RHS, CC)

/-- The operands of an `ISD::BR_CC` node after the chain: condition, the two compared
values and the destination block. -/
structure BR_CC_Node where
  CC : CondCode
  LHS : SDValue
  RHS : SDValue
  Dest : Nat
  deriving DecidableEq, Repr

/-- `SBFTargetLowering::LowerBR_CC`: the operands of the `SBFISD::BR_CC` node built. -/
def LowerBR_CC (ST : Subtarget) (Op : BR_CC_Node) : BR_CC_Node :=
  let N : SDValue × SDValue × CondCode :=
    if !ST.HasJmpExt then NegateCC Op.LHS Op.RHS Op.CC else (Op.LHS, Op.RHS, Op.CC)
  let LHS := N.1
  let RHS := N.2.1
  let CC := N.2.2
  let IsSignedCmp : Bool :=
    decide (CC = CondCode.SETGT) || decide (CC = CondCode.SETGE)
      || decide (CC = CondCode.SETLT) || decide (CC = CondCode.SETLE)
  let Is32Num : Bool :=
    decide (LHS.getValueType = MVT.i32) || decide (RHS.getValueType = MVT.i32)
  if ST.HasAlu32 && Is32Num then
    if isIntOrFPConstant RHS || isIntOrFPConstant LHS then
      ⟨CC, SDValue.Unary UnaryOp.SIGN_EXTEND MVT.i64 LHS,
        SDValue.Unary UnaryOp.SIGN_EXTEND MVT.i64 RHS, Op.Dest⟩
    else if IsSignedCmp then
      ⟨CC, SDValue.Unary UnaryOp.SIGN_EXTEND MVT.i64 LHS,
        SDValue.Unary UnaryOp.SIGN_EXTEND MVT.i64 RHS, Op.Dest⟩
    else
      ⟨CC, SDValue.Unary UnaryOp.ZERO_EXTEND MVT.i64 LHS,
        SDValue.Unary UnaryOp.ZERO_EXTEND MVT.i64 RHS, Op.Dest⟩
  else ⟨CC, LHS, RHS, Op.Dest⟩

/-- The operands of an `ISD::SELECT_CC` node; in the `SBFISD::SELECT_CC` node built the
condition code is a constant of type `TargetCCVT`. -/
structure SELECT_CC_Node where
  LHS : SDValue
  RHS : SDValue
  TrueV : SDValue
  FalseV : SDValue
  CC : CondCode
  TargetCCVT : MVT
  deriving DecidableEq, Repr

/-- `SBFTargetLowering::LowerSELECT_CC`: the operands of the `SBFISD::SELECT_CC` node
built. -/
def LowerSELECT_CC (ST : Subtarget) (Op : SELECT_CC_Node) : SELECT_CC_Node :=
  let N : SDValue × SDValue × CondCode :=
    if !ST.HasJmpExt then NegateCC Op.LHS Op.RHS Op.CC else (Op.LHS, Op.RHS, Op.CC)
  ⟨N.1, N.2.1, Op.TrueV, Op.FalseV, N.2.2, N.1.getValueType⟩

/-! ## `LowerATOMICRMW` -/

/-- The opcodes of `AtomicSDNode`: the thirteen that `LowerATOMICRMW` handles, and
`ATOMIC_LOAD_CLR` standing for the others. -/
inductive AtomicOpcode where
  | ATOMIC_SWAP
  | ATOMIC_CMP_SWAP_WITH_SUCCESS
  | ATOMIC_CMP_SWAP
  | ATOMIC_LOAD_ADD
  | ATOMIC_LOAD_SUB
  | ATOMIC_LOAD_AND
  | ATOMIC_LOAD_NAND
  | ATOMIC_LOAD_OR
  | ATOMIC_LOAD_XOR
  | ATOMIC_LOAD_MIN
  | ATOMIC_LOAD_UMIN
  | ATOMIC_LOAD_MAX
  | ATOMIC_LOAD_UMAX
  | ATOMIC_LOAD_CLR
  deriving DecidableEq, Repr

/-- `AtomicSDNode`: opcode, base pointer, memory type, the two result types, and the
operands after the pointer (`getOperand(2)`, which is `getVal()` for the plain
read-modify-write nodes, and `getOperand(3)`). -/
structure AtomicSDNode where
  Opcode : AtomicOpcode
  BasePtr : SDValue
  MemoryVT : MVT
  ValueType0 : MVT
  ValueType1 : MVT
  Operand2 : SDValue
  Operand3 : SDValue
  deriving DecidableEq, Repr

/-- `AtomicSDNode::isCompareAndSwap`. -/
def AtomicSDNode.isCompareAndSwap (AN : AtomicSDNode) : Bool :=
  decide (AN.Opcode = AtomicOpcode.ATOMIC_CMP_SWAP)
    || decide (AN.Opcode = AtomicOpcode.ATOMIC_CMP_SWAP_WITH_SUCCESS)

/-- The width adjustment `LowerATOMICRMW` applies to `Cmp` and to `Val`: a value whose
type differs from `RetVT` is sign-extended when `RetVT` is wider and truncated
otherwise. -/
def matchRetVT (RetVT : MVT) (V : SDValue) : SDValue :=
  if V.getValueType ≠ RetVT then
    if RetVT.bitsGT V.getValueType then SDValue.Unary UnaryOp.SIGN_EXTEND RetVT V
    else SDValue.Unary UnaryOp.TRUNCATE RetVT V
  else V

/-- What `LowerATOMICRMW` builds: the value returned (`Ret`), the success flag for
`ATOMIC_CMP_SWAP_WITH_SUCCESS`, and the truncating store of `NewVal` to `Ptr` with memory
type `MemVT`. -/
structure AtomicLowering where
  Ret : SDValue
  RetFlag : Option SDValue
  NewVal : SDValue
  Ptr : SDValue
  MemVT : MVT
  deriving DecidableEq, Repr

/-- `DAG.getNOT`: exclusive or with the all-ones constant. -/
def getNOT (V : SDValue) (VT : MVT) : SDValue :=
  SDValue.Binary BinaryOp.XOR VT V (SDValue.Constant (2 ^ VT.getFixedSizeInBits - 1) VT)

/-- `DAG.getBoolConstant` under `ZeroOrOneBooleanContent`, which the constructor of
`SBFTargetLowering` selects. -/
def getBoolConstant (V : Bool) (VT : MVT) : SDValue :=
  SDValue.Constant (if V then 1 else 0) VT

/-- `DAG.getSelectCC`. -/
def getSelectCC (LHS RHS True False : SDValue) (Cond : CondCode) : SDValue :=
  SDValue.SELECT_CC True.getValueType LHS RHS True False Cond

/-- `SBFTargetLowering::LowerATOMICRMW`. -/
def LowerATOMICRMW (AN : AtomicSDNode) : Option AtomicLowering :=
  let Ptr := AN.BasePtr
  let MemVT := AN.MemoryVT
  let RetVT := AN.ValueType0
  -- Load the current value
  let Load := SDValue.Load RetVT MemVT Ptr
  let Cmp := matchRetVT RetVT AN.Operand2
  let Val := matchRetVT RetVT (if AN.isCompareAndSwap then AN.Operand3 else AN.Operand2)
  let ValVT := Val.getValueType
  let Built : Option (SDValue × Option SDValue) :=
    match AN.Opcode with
    | .ATOMIC_SWAP => some (Val, none)
    | .ATOMIC_CMP_SWAP_WITH_SUCCESS =>
      let RetFlagVT := AN.ValueType1
      some (getSelectCC Load Cmp Val Load CondCode.SETEQ,
        some (getSelectCC Load Cmp (getBoolConstant true RetFlagVT)
          (getBoolConstant false RetFlagVT) CondCode.SETEQ))
    | .ATOMIC_CMP_SWAP => some (getSelectCC Load Cmp Val Load CondCode.SETEQ, none)
    | .ATOMIC_LOAD_ADD => some (SDValue.Binary BinaryOp.ADD ValVT Load Val, none)
    | .ATOMIC_LOAD_SUB => some (SDValue.Binary BinaryOp.SUB ValVT Load Val, none)
    | .ATOMIC_LOAD_AND => some (SDValue.Binary BinaryOp.AND ValVT Load Val, none)
    | .ATOMIC_LOAD_NAND =>
      some (getNOT (SDValue.Binary BinaryOp.AND ValVT Load Val) ValVT, none)
    | .ATOMIC_LOAD_OR => some (SDValue.Binary BinaryOp.OR ValVT Load Val, none)
    | .ATOMIC_LOAD_XOR => some (SDValue.Binary BinaryOp.XOR ValVT Load Val, none)
    | .ATOMIC_LOAD_MIN => some (SDValue.Binary BinaryOp.SMIN ValVT Load Val, none)
    | .ATOMIC_LOAD_UMIN => some (SDValue.Binary BinaryOp.UMIN ValVT Load Val, none)
    | .ATOMIC_LOAD_MAX => some (SDValue.Binary BinaryOp.SMAX ValVT Load Val, none)
    | .ATOMIC_LOAD_UMAX => some (SDValue.Binary BinaryOp.UMAX ValVT Load Val, none)
    | .ATOMIC_LOAD_CLR => none
  Built.map fun b => ⟨Load, b.2, b.1, Ptr, MemVT⟩

/-! ## The meaning of the generic nodes -/

/-- The two's-complement reading of a `w`-bit pattern. -/
def toSigned (w : Nat) (x : Nat) : Int :=
  if x % 2 ^ w < 2 ^ (w - 1) then ((x % 2 ^ w : Nat) : Int) else ((x % 2 ^ w : Nat) : Int) - 2 ^ w

/-- The value of an integer condition code on two `w`-bit patterns; the floating-point
codes do not apply to integers and are read as false. -/
def evalCC (CC : CondCode) (w : Nat) (a b : Nat) : Bool :=
  match CC with
  | .SETEQ => decide (a = b)
  | .SETNE => decide (a ≠ b)
  | .SETLT => decide (toSigned w a < toSigned w b)
  | .SETLE => decide (toSigned w a ≤ toSigned w b)
  | .SETGT => decide (toSigned w b < toSigned w a)
  | .SETGE => decide (toSigned w b ≤ toSigned w a)
  | .SETULT => decide (a < b)
  | .SETULE => decide (a ≤ b)
  | .SETUGT => decide (b < a)
  | .SETUGE => decide (b ≤ a)
  | _ => false

/-- Modelled from the spec: the value computed by a DAG term, as a bit pattern of the
width of its type, following the meaning of the generic `ISD` nodes (`ISDOpcodes.h`, not
among the sources).  `atom` gives the values of the nodes the term does not determine:
leaves, register copies, frame addresses and loads, and the upper bits of an
any-extension. -/
def SDValue.eval (atom : SDValue → Nat) : SDValue → Nat
  | .Leaf Id VT => atom (.Leaf Id VT) % 2 ^ VT.getFixedSizeInBits
  | .Constant Val VT => Val % 2 ^ VT.getFixedSizeInBits
  | .CopyFromReg Reg VT => atom (.CopyFromReg Reg VT) % 2 ^ VT.getFixedSizeInBits
  | .FrameIndex FI VT => atom (.FrameIndex FI VT) % 2 ^ VT.getFixedSizeInBits
  | .Load VT MemVT Ptr => atom (.Load VT MemVT Ptr) % 2 ^ VT.getFixedSizeInBits
  | .Unary Opc VT Op =>
    let w := VT.getFixedSizeInBits
    let wOp := Op.getValueType.getFixedSizeInBits
    let x := Op.eval atom
    match Opc with
    | .SIGN_EXTEND => (toSigned wOp x % 2 ^ w).toNat
    | .ZERO_EXTEND => x % 2 ^ w
    | .ANY_EXTEND => (x + 2 ^ wOp * atom (.Unary Opc VT Op)) % 2 ^ w
    | .TRUNCATE => x % 2 ^ w
    | .AssertSext _ => x % 2 ^ w
    | .AssertZext _ => x % 2 ^ w
  | .Binary Opc VT A B =>
    let w := VT.getFixedSizeInBits
    let a := A.eval atom
    let b := B.eval atom
    match Opc with
    | .ADD => (a + b) % 2 ^ w
    | .SUB => (((a : Int) - (b : Int)) % 2 ^ w).toNat
    | .AND => (a &&& b) % 2 ^ w
    | .OR => (a ||| b) % 2 ^ w
    | .XOR => (a ^^^ b) % 2 ^ w
    | .SMIN => if toSigned w a ≤ toSigned w b then a % 2 ^ w else b % 2 ^ w
    | .UMIN => if a ≤ b then a % 2 ^ w else b % 2 ^ w
    | .SMAX => if toSigned w a ≤ toSigned w b then b % 2 ^ w else a % 2 ^ w
    | .UMAX => if a ≤ b then b % 2 ^ w else a % 2 ^ w
  | .SELECT_CC VT LHS RHS True False CC =>
    if evalCC CC LHS.getValueType.getFixedSizeInBits (LHS.eval atom) (RHS.eval atom) then
      True.eval atom % 2 ^ VT.getFixedSizeInBits
    else False.eval atom % 2 ^ VT.getFixedSizeInBits

/-- The new memory value the specification ascribes to each read-modify-write operation
on `w`-bit patterns, for the loaded value `L`, the operand `V` and, for the compare and
swap forms, the expected value `C`; `none` for an operation that is not handled. -/
def rmwNewValue (Opc : AtomicOpcode) (w L V C : Nat) : Option Nat :=
  match Opc with
  | .ATOMIC_SWAP => some V
  | .ATOMIC_CMP_SWAP_WITH_SUCCESS => some (if L = C then V else L)
  | .ATOMIC_CMP_SWAP => some (if L = C then V else L)
  | .ATOMIC_LOAD_ADD => some ((L + V) % 2 ^ w)
  | .ATOMIC_LOAD_SUB => some ((((L : Int) - (V : Int)) % 2 ^ w).toNat)
  | .ATOMIC_LOAD_AND => some (L &&& V)
  | .ATOMIC_LOAD_NAND => some (2 ^ w - 1 - (L &&& V))
  | .ATOMIC_LOAD_OR => some (L ||| V)
  | .ATOMIC_LOAD_XOR => some (L ^^^ V)
  | .ATOMIC_LOAD_MIN => some (if toSigned w L ≤ toSigned w V then L else V)
  | .ATOMIC_LOAD_UMIN => some (min L V)
  | .ATOMIC_LOAD_MAX => some (if toSigned w V ≤ toSigned w L then L else V)
  | .ATOMIC_LOAD_UMAX => some (max L V)
  | .ATOMIC_LOAD_CLR => none

/-! ## Predicates used to state the properties of the comparison lowering -/

/-- The four less-than condition codes that `NegateCC` rewrites. -/
def isLessThanCode (CC : CondCode) : Bool :=
  decide (CC = CondCode.SETLT) || decide (CC = CondCode.SETLE)
    || decide (CC = CondCode.SETULT) || decide (CC = CondCode.SETULE)

/-- The signed relational condition codes. -/
def isSignedCode (CC : CondCode) : Bool :=
  decide (CC = CondCode.SETGT) || decide (CC = CondCode.SETGE)
    || decide (CC = CondCode.SETLT) || decide (CC = CondCode.SETLE)

/-- The mirrored form the specification gives for a condition code: each less-than code
becomes the corresponding greater-than code, every other code is kept. -/
def mirroredCode : CondCode → CondCode
  | .SETLT => .SETGT
  | .SETLE => .SETGE
  | .SETULT => .SETUGT
  | .SETULE => .SETUGE
  | CC => CC

/-- The ways a compared operand is widened to 64 bits. -/
inductive Widening where
  | NoExtension
  | SignExtension
  | ZeroExtension
  deriving DecidableEq, Repr

/-- The operand after a widening. -/
def widen : Widening → SDValue → SDValue
  | .NoExtension, V => V
  | .SignExtension, V => SDValue.Unary UnaryOp.SIGN_EXTEND MVT.i64 V
  | .ZeroExtension, V => SDValue.Unary UnaryOp.ZERO_EXTEND MVT.i64 V

/-- The widening the specification prescribes for a comparison of `LHS` and `RHS` under
`CC`: none unless ALU32 is enabled and an operand is 32-bit; then sign extension when an
operand is a constant or the comparison is signed, zero extension otherwise. -/
def specWidening (Alu32 : Bool) (CC : CondCode) (LHS RHS : SDValue) : Widening :=
  if Alu32 = true ∧ (LHS.getValueType = MVT.i32 ∨ RHS.getValueType = MVT.i32) then
    if isIntOrFPConstant LHS = true ∨ isIntOrFPConstant RHS = true ∨ isSignedCode CC = true then
      Widening.SignExtension
    else Widening.ZeroExtension
  else Widening.NoExtension

/-! ## Constructor settings, inline-assembly constraints -/

/-- The limits of `TargetLoweringBase` on the inline expansion of memory functions that the
`SBFTargetLowering` constructor sets. -/
structure MemOpLimits where
  MaxStoresPerMemset : Nat
  MaxStoresPerMemsetOptSize : Nat
  MaxStoresPerMemcpy : Nat
  MaxStoresPerMemcpyOptSize : Nat
  MaxStoresPerMemmove : Nat
  MaxStoresPerMemmoveOptSize : Nat
  MaxLoadsPerMemcmp : Nat
  MaxLoadsPerMemcmpOptSize : Nat
  deriving DecidableEq, Repr

/-- The default of the option `sbf-expand-memcpy-in-order` (`cl::init(false)`). -/
def SBFExpandMemcpyInOrder_default : Bool := false

/-- The `if (SBFExpandMemcpyInOrder)` block of the `SBFTargetLowering` constructor:
the limits after it, from the limits `Base` before it.  `CommonMaxStores` is the value of
`SelectionDAGInfo->getCommonMaxStoresPerMemFunc()`, which is not among the sources. -/
def SBFTargetLowering_memLimits (SBFExpandMemcpyInOrder : Bool) (CommonMaxStores : Nat)
    (Base : MemOpLimits) : MemOpLimits :=
  if SBFExpandMemcpyInOrder then
    { Base with
      MaxStoresPerMemset := 0, MaxStoresPerMemsetOptSize := 0
      MaxStoresPerMemcpy := 0, MaxStoresPerMemcpyOptSize := 0
      MaxStoresPerMemmove := 0, MaxStoresPerMemmoveOptSize := 0
      MaxLoadsPerMemcmp := 0 }
  else
    { MaxStoresPerMemset := CommonMaxStores, MaxStoresPerMemsetOptSize := CommonMaxStores
      MaxStoresPerMemcpy := CommonMaxStores, MaxStoresPerMemcpyOptSize := CommonMaxStores
      MaxStoresPerMemmove := CommonMaxStores, MaxStoresPerMemmoveOptSize := CommonMaxStores
      MaxLoadsPerMemcmp := CommonMaxStores, MaxLoadsPerMemcmpOptSize := CommonMaxStores }

/-- The register classes of the target. -/
inductive RegClass where
  | GPR
  | GPR32
  deriving DecidableEq, Repr

/-- What `getRegForInlineAsmConstraint` returns: a pair made here, or the result of the
call to `TargetLowering::getRegForInlineAsmConstraint` (the generic handler, not among the
sources). -/
inductive ConstraintResult where
  | Pair (Reg : Nat) (RC : RegClass)
  | Generic
  deriving DecidableEq, Repr

/-- `SBFTargetLowering::getRegForInlineAsmConstraint`, on the characters of the
constraint. -/
def getRegForInlineAsmConstraint (HasAlu32 : Bool) (Constraint : List Char) :
    ConstraintResult :=
  match Constraint with
  | [c] =>
    if c = 'r' then ConstraintResult.Pair 0 RegClass.GPR
    else if c = 'w' then
      if HasAlu32 then ConstraintResult.Pair 0 RegClass.GPR32 else ConstraintResult.Generic
    else ConstraintResult.Generic
  | _ => ConstraintResult.Generic

/-- What `getConstraintType` returns: `C_RegisterClass`, or the result of the generic
`TargetLowering::getConstraintType`. -/
inductive ConstraintTypeResult where
  | C_RegisterClass
  | Generic
  deriving DecidableEq, Repr

/-- `SBFTargetLowering::getConstraintType`. -/
def getConstraintType (Constraint : List Char) : ConstraintTypeResult :=
  match Constraint with
  | [c] => if c = 'w' then ConstraintTypeResult.C_RegisterClass else ConstraintTypeResult.Generic
  | _ => ConstraintTypeResult.Generic

/-! ## Machine functions -/

/-- The conditions of the conditional jump instructions. -/
inductive JumpCond where
  | JSGT | JUGT | JSGE | JUGE | JEQ | JNE | JSLT | JULT | JSLE | JULE
  deriving DecidableEq, Repr

/-- Machine opcodes, as far as the lowering and the checking pass mention them. -/
inductive Opcode where
  | Select | Select_64_32 | Select_32 | Select_32_64
  | Select_Ri | Select_Ri_64_32 | Select_Ri_32 | Select_Ri_32_64
  | MEMCPY
  | ATOMIC_FENCE
  | MOV_32_64
  | MOV_32_64_no_sext
  | SLL_ri
  | SRA_ri
  | PHI
  /-- the register-register jumps `JSGT_rr`, ... -/
  | J_rr (Cond : JumpCond)
  /-- the register-immediate jumps `JSGT_ri`, ... -/
  | J_ri (Cond : JumpCond)
  | XADD32
  | XADD64
  | Other (n : Nat)
  deriving DecidableEq, Repr

/-- The `RegState` flags of a register operand that the lowering sets. -/
structure RegState where
  Define : Bool
  Dead : Bool
  EarlyClobber : Bool
  deriving DecidableEq, Repr

/-- A machine operand: a register with its flags, an immediate or a basic block. -/
inductive MachineOperand where
  | Reg (R : Nat) (Flags : RegState)
  | Imm (V : Int)
  | MBB (B : Nat)
  deriving DecidableEq, Repr

/-- A machine instruction. -/
structure MachineInstr where
  Opc : Opcode
  Operands : List MachineOperand
  deriving DecidableEq, Repr

/-- A machine basic block: its instructions and its successors, by block number. -/
structure MachineBasicBlock where
  Instrs : List MachineInstr
  Successors : List Nat
  deriving DecidableEq, Repr

/-- A machine function: the blocks by block number, the order of the blocks in the
function, and the register classes of the virtual registers created so far (virtual
register `i` is the `i`-th one created). -/
structure MachineFunction where
  Blocks : List MachineBasicBlock
  Layout : List Nat
  VirtRegs : List RegClass
  deriving DecidableEq, Repr

/-- The number of virtual registers of a function; `createVirtualRegister` returns it as
the next register. -/
def MachineFunction.NumVirtRegs (F : MachineFunction) : Nat := F.VirtRegs.length

/-- A use operand (`addReg(R)`). -/
def useReg (R : Nat) : MachineOperand := MachineOperand.Reg R ⟨false, false, false⟩

/-- A definition operand (the destination of `BuildMI(..., DestReg)`). -/
def defReg (R : Nat) : MachineOperand := MachineOperand.Reg R ⟨true, false, false⟩

/-- `MI.getOperand(i).getReg()`; `none` when the operand is missing or not a register. -/
def MachineInstr.getReg (MI : MachineInstr) (i : Nat) : Option Nat :=
  match MI.Operands[i]? with
  | some (.Reg R _) => some R
  | _ => none

/-- `MI.getOperand(i).getImm()`; `none` when the operand is missing or not an immediate. -/
def MachineInstr.getImm (MI : MachineInstr) (i : Nat) : Option Int :=
  match MI.Operands[i]? with
  | some (.Imm V) => some V
  | _ => none

/-! ## The pre-emission checking pass (`SBFMIChecking.cpp`) -/

/-- What a run of the pass leaves behind: the value returned, the errors signalled and
the function. -/
structure PassResult where
  Changed : Bool
  Errors : List String
  MF : MachineFunction
  deriving DecidableEq, Repr

/-- `SBFMIPreEmitChecking::runOnMachineFunction`: `initialize` only records the function
and the register information, and the pass returns `false`.  `Skip` is the value of
`skipFunction(MF.getFunction())`. -/
def runOnMachineFunction (Skip : Bool) (MF : MachineFunction) : PassResult :=
  if !Skip then
    -- initialize(MF); return false;
    ⟨false, [], MF⟩
  else ⟨false, [], MF⟩

/-- Whether an instruction reads register `R` (a register operand that is not a
definition). -/
def MachineInstr.usesReg (MI : MachineInstr) (R : Nat) : Bool :=
  MI.Operands.any fun O =>
    match O with
    | .Reg R2 Flags => decide (R2 = R) && !Flags.Define
    | _ => false

/-- The usage the header of `SBFMIChecking.cpp` calls illegal: some `XADD32` or `XADD64`
instruction of the function defines a register that an instruction of the function
reads. -/
def hasUsedXaddResult (MF : MachineFunction) : Bool :=
  let All := MF.Blocks.flatMap MachineBasicBlock.Instrs
  All.any fun X =>
    (decide (X.Opc = Opcode.XADD32) || decide (X.Opc = Opcode.XADD64)) &&
      match X.Operands.head? with
      | some (.Reg R Flags) => Flags.Define && All.any fun U => U.usesReg R
      | _ => false

/-! ## Custom insertion (`EmitInstrWithCustomInserter`) -/

/-- The numeric value of an `ISD::CondCode` enumerator, as it appears in the immediate
operand of a select pseudo-instruction. -/
def CondCode.toImm : CondCode → Int
  | .SETFALSE => 0 | .SETOEQ => 1 | .SETOGT => 2 | .SETOGE => 3
  | .SETOLT => 4 | .SETOLE => 5 | .SETONE => 6 | .SETO => 7
  | .SETUO => 8 | .SETUEQ => 9 | .SETUGT => 10 | .SETUGE => 11
  | .SETULT => 12 | .SETULE => 13 | .SETUNE => 14 | .SETTRUE => 15
  | .SETFALSE2 => 16 | .SETEQ => 17 | .SETGT => 18 | .SETGE => 19
  | .SETLT => 20 | .SETLE => 21 | .SETNE => 22 | .SETTRUE2 => 23

/-- How a custom insertion can end without a result. -/
inductive ExpandError where
  /-- `report_fatal_error("unimplemented select CondCode " + Twine(CC))` -/
  | UnimplementedSelectCondCode (CC : Int)
  /-- a failed assertion, among them the access to an operand of the wrong kind -/
  | AssertionFailed
  deriving DecidableEq, Repr

/-- What `EmitSubregExt` does: the instructions it builds at the end of the block, the
register it returns and the number of virtual registers afterwards. -/
structure SubregExt where
  Instrs : List MachineInstr
  Result : Nat
  NumVirtRegs : Nat
  deriving DecidableEq, Repr

/-- `SBFTargetLowering::EmitSubregExt`; `NumVirtRegs` is the number of virtual registers
before the call, so that `createVirtualRegister` returns `NumVirtRegs`, `NumVirtRegs + 1`,
and so on; every register it creates is of the class of `MVT::i64`, `GPR`. -/
def EmitSubregExt (HasExplicitSignExt : Bool) (NumVirtRegs : Nat) (Reg : Nat)
    (isSigned : Bool) : SubregExt :=
  if !isSigned then
    let MovOp := if HasExplicitSignExt then Opcode.MOV_32_64_no_sext else Opcode.MOV_32_64
    let PromotedReg0 := NumVirtRegs
    ⟨[⟨MovOp, [defReg PromotedReg0, useReg Reg]⟩], PromotedReg0, NumVirtRegs + 1⟩
  else
    let PromotedReg0 := NumVirtRegs
    let Mov : MachineInstr := ⟨Opcode.MOV_32_64, [defReg PromotedReg0, useReg Reg]⟩
    if HasExplicitSignExt then ⟨[Mov], PromotedReg0, NumVirtRegs + 1⟩
    else
      let PromotedReg1 := NumVirtRegs + 1
      let PromotedReg2 := NumVirtRegs + 2
      ⟨[Mov,
        ⟨Opcode.SLL_ri, [defReg PromotedReg1, useReg PromotedReg0, MachineOperand.Imm 32]⟩,
        ⟨Opcode.SRA_ri, [defReg PromotedReg2, useReg PromotedReg1, MachineOperand.Imm 32]⟩],
        PromotedReg2, NumVirtRegs + 3⟩

/-- Modelled from the spec: the 64-bit left shift by an immediate (`SLL_ri`), on bit
patterns. -/
def SLL64 (x n : Nat) : Nat := (x * 2 ^ n) % 2 ^ 64

/-- Modelled from the spec: the 64-bit arithmetic right shift by an immediate (`SRA_ri`),
on bit patterns. -/
def SRA64 (x n : Nat) : Nat := ((toSigned 64 x / 2 ^ n) % 2 ^ 64).toNat

/-- `isSelectRROp` of `EmitInstrWithCustomInserter`. -/
def isSelectRROp (Opc : Opcode) : Bool :=
  decide (Opc = Opcode.Select) || decide (Opc = Opcode.Select_64_32)
    || decide (Opc = Opcode.Select_32) || decide (Opc = Opcode.Select_32_64)

/-- `isSelectRIOp` of `EmitInstrWithCustomInserter`. -/
def isSelectRIOp (Opc : Opcode) : Bool :=
  decide (Opc = Opcode.Select_Ri) || decide (Opc = Opcode.Select_Ri_64_32)
    || decide (Opc = Opcode.Select_Ri_32) || decide (Opc = Opcode.Select_Ri_32_64)

/-- `is32BitCmp` of `EmitInstrWithCustomInserter`. -/
def is32BitCmp (Opc : Opcode) : Bool :=
  decide (Opc = Opcode.Select_32) || decide (Opc = Opcode.Select_32_64)
    || decide (Opc = Opcode.Select_Ri_32) || decide (Opc = Opcode.Select_Ri_32_64)

/-- `isSignedCmp` of `EmitInstrWithCustomInserter`, on the immediate `CC`. -/
def isSignedCmp (CC : Int) : Bool :=
  decide (CC = CondCode.SETGT.toImm) || decide (CC = CondCode.SETGE.toImm)
    || decide (CC = CondCode.SETLT.toImm) || decide (CC = CondCode.SETLE.toImm)

/-- One `SET_NEWCC(X, Y)` case: the `_rr` or the `_ri` jump. -/
def jumpOpcode (RR : Bool) (Cond : JumpCond) : Opcode :=
  if RR then Opcode.J_rr Cond else Opcode.J_ri Cond

/-- The `switch (CC)` of `EmitInstrWithCustomInserter` that picks the jump opcode. -/
def selectNewCC (RR : Bool) (CC : Int) : Except ExpandError Opcode :=
  if CC = CondCode.SETGT.toImm then .ok (jumpOpcode RR JumpCond.JSGT)
  else if CC = CondCode.SETUGT.toImm then .ok (jumpOpcode RR JumpCond.JUGT)
  else if CC = CondCode.SETGE.toImm then .ok (jumpOpcode RR JumpCond.JSGE)
  else if CC = CondCode.SETUGE.toImm then .ok (jumpOpcode RR JumpCond.JUGE)
  else if CC = CondCode.SETEQ.toImm then .ok (jumpOpcode RR JumpCond.JEQ)
  else if CC = CondCode.SETNE.toImm then .ok (jumpOpcode RR JumpCond.JNE)
  else if CC = CondCode.SETLT.toImm then .ok (jumpOpcode RR JumpCond.JSLT)
  else if CC = CondCode.SETULT.toImm then .ok (jumpOpcode RR JumpCond.JULT)
  else if CC = CondCode.SETLE.toImm then .ok (jumpOpcode RR JumpCond.JSLE)
  else if CC = CondCode.SETULE.toImm then .ok (jumpOpcode RR JumpCond.JULE)
  else .error (ExpandError.UnimplementedSelectCondCode CC)

/-- `isInt<32>`. -/
def isInt32 (V : Int) : Bool := decide (-(2 : Int) ^ 31 ≤ V) && decide (V < (2 : Int) ^ 31)

/-- The part of the select expansion that promotes the compared registers and builds the
conditional jump to `Copy1MBB` at the end of the block: the instructions built and the
number of virtual registers afterwards. -/
def emitSelectBranch (HasExplicitSignExt : Bool) (NumVirtRegs : Nat) (MI : MachineInstr)
    (CC : Int) (NewCC : Opcode) (Copy1MBB : Nat) : Option (List MachineInstr × Nat) :=
  match MI.getReg 1 with
  | none => none
  | some LHS =>
    let ExtL : SubregExt :=
      if is32BitCmp MI.Opc then
        EmitSubregExt HasExplicitSignExt NumVirtRegs LHS (isSignedCmp CC || !isSelectRROp MI.Opc)
      else ⟨[], LHS, NumVirtRegs⟩
    if isSelectRROp MI.Opc then
      match MI.getReg 2 with
      | none => none
      | some RHS =>
        let ExtR : SubregExt :=
          if is32BitCmp MI.Opc then
            EmitSubregExt HasExplicitSignExt ExtL.NumVirtRegs RHS (isSignedCmp CC)
          else ⟨[], RHS, ExtL.NumVirtRegs⟩
        some (ExtL.Instrs ++ ExtR.Instrs
          ++ [⟨NewCC, [useReg ExtL.Result, useReg ExtR.Result, MachineOperand.MBB Copy1MBB]⟩],
          ExtR.NumVirtRegs)
    else
      match MI.getImm 2 with
      | none => none
      | some imm32 =>
        if isInt32 imm32 then
          some (ExtL.Instrs
            ++ [⟨NewCC, [useReg ExtL.Result, MachineOperand.Imm imm32,
                  MachineOperand.MBB Copy1MBB]⟩],
            ExtL.NumVirtRegs)
        else none

/-- The fix-up of one instruction by `transferSuccessorsAndUpdatePHIs`: in a `PHI`, the
incoming block `From` becomes `To`. -/
def retargetPHI (From To : Nat) (MI : MachineInstr) : MachineInstr :=
  if MI.Opc = Opcode.PHI then
    { MI with Operands := MI.Operands.map fun O =>
        match O with
        | .MBB B => if B = From then MachineOperand.MBB To else MachineOperand.MBB B
        | O => O }
  else MI

/-- The fix-up of the blocks numbered from `i` on: the blocks among `Succs` get their
`PHI` instructions retargeted. -/
def updatePHIs (Succs : List Nat) (From To : Nat) :
    Nat → List MachineBasicBlock → List MachineBasicBlock
  | _, [] => []
  | i, B :: rest =>
    (if i ∈ Succs then { B with Instrs := B.Instrs.map (retargetPHI From To) } else B)
      :: updatePHIs Succs From To (i + 1) rest

/-- `F->insert(I, ...)` with `I` the position after block `BB`: the new blocks are placed
right after `BB` in the function. -/
def insertAfter (BB : Nat) (New : List Nat) : List Nat → List Nat
  | [] => []
  | B :: rest => if B = BB then B :: (New ++ rest) else B :: insertAfter BB New rest

/-- `SBFTargetLowering::EmitInstrWithCustomInserterMemcpy` for the instruction at index
`Idx` of block `BB`: the function afterwards and the block returned.  The scratch
register is created in the class `GPR`. -/
def EmitInstrWithCustomInserterMemcpy (F : MachineFunction) (BB Idx : Nat) :
    Except ExpandError (MachineFunction × Nat) :=
  match F.Blocks[BB]? with
  | none => .error ExpandError.AssertionFailed
  | some ThisBlock =>
    match ThisBlock.Instrs[Idx]? with
    | none => .error ExpandError.AssertionFailed
    | some MI =>
      let ScratchReg := F.NumVirtRegs
      let MI2 : MachineInstr :=
        { MI with Operands := MI.Operands ++ [MachineOperand.Reg ScratchReg ⟨true, true, true⟩] }
      .ok ({ F with
              Blocks := F.Blocks.set BB { ThisBlock with Instrs := ThisBlock.Instrs.set Idx MI2 }
              VirtRegs := F.VirtRegs ++ [RegClass.GPR] }, BB)

/-- `SBFTargetLowering::EmitInstrWithCustomInserter` for the instruction at index `Idx` of
block `BB`: the function afterwards and the block returned. -/
def EmitInstrWithCustomInserter (HasExplicitSignExt : Bool) (F : MachineFunction)
    (BB Idx : Nat) : Except ExpandError (MachineFunction × Nat) :=
  match F.Blocks[BB]? with
  | none => .error ExpandError.AssertionFailed
  | some ThisBlock =>
    match ThisBlock.Instrs[Idx]? with
    | none => .error ExpandError.AssertionFailed
    | some MI =>
      let Opc := MI.Opc
      let isMemcpyOp := decide (Opc = Opcode.MEMCPY)
      let isAtomicFence := decide (Opc = Opcode.ATOMIC_FENCE)
      if !(isSelectRROp Opc || isSelectRIOp Opc || isMemcpyOp || isAtomicFence) then
        .error ExpandError.AssertionFailed
      else if isMemcpyOp then EmitInstrWithCustomInserterMemcpy F BB Idx
      else if isAtomicFence then
        -- this is currently a nop
        .ok ({ F with
                Blocks := F.Blocks.set BB
                  { ThisBlock with Instrs := ThisBlock.Instrs.eraseIdx Idx } }, BB)
      else
        let ThisMBB := BB
        let Copy0MBB := F.Blocks.length
        let Copy1MBB := F.Blocks.length + 1
        match MI.getImm 3 with
        | none => .error ExpandError.AssertionFailed
        | some CC =>
          match selectNewCC (isSelectRROp Opc) CC with
          | .error e => .error e
          | .ok NewCC =>
            match emitSelectBranch HasExplicitSignExt F.NumVirtRegs MI CC NewCC Copy1MBB,
              MI.getReg 0, MI.getReg 4, MI.getReg 5 with
            | some (Branch, NumVirtRegs), some Dst, some TrueReg, some FalseReg =>
              let Phi : MachineInstr :=
                ⟨Opcode.PHI, [defReg Dst, useReg FalseReg, MachineOperand.MBB Copy0MBB,
                  useReg TrueReg, MachineOperand.MBB ThisMBB]⟩
              let This2 : MachineBasicBlock :=
                ⟨ThisBlock.Instrs.take Idx ++ Branch, [Copy0MBB, Copy1MBB]⟩
              let Copy0 : MachineBasicBlock := ⟨[], [Copy1MBB]⟩
              let Copy1 : MachineBasicBlock :=
                ⟨Phi :: ThisBlock.Instrs.drop (Idx + 1), ThisBlock.Successors⟩
              let Blocks := updatePHIs ThisBlock.Successors ThisMBB Copy1MBB 0
                (F.Blocks.set BB This2)
              .ok (⟨Blocks ++ [Copy0, Copy1], insertAfter BB [Copy0MBB, Copy1MBB] F.Layout,
                F.VirtRegs ++ List.replicate (NumVirtRegs - F.NumVirtRegs) RegClass.GPR⟩,
                Copy1MBB)
            | _, _, _, _ => .error ExpandError.AssertionFailed

/-- The register a `PHI` takes on the edge from block `Pred`: the register operand right
before the block operand `Pred`. -/
def phiIncoming (Pred : Nat) : List MachineOperand → Option Nat
  | .Reg R _ :: .MBB B :: rest => if B = Pred then some R else phiIncoming Pred rest
  | _ :: rest => phiIncoming Pred rest
  | [] => none

/-- The table the specification gives for the select expansion: the ten integer condition
codes and the jump condition of each. -/
def selectTable : List (CondCode × JumpCond) :=
  [(.SETGT, .JSGT), (.SETUGT, .JUGT), (.SETGE, .JSGE), (.SETUGE, .JUGE), (.SETEQ, .JEQ),
    (.SETNE, .JNE), (.SETLT, .JSLT), (.SETULT, .JULT), (.SETLE, .JSLE), (.SETULE, .JULE)]

/-- A machine function in which the result of an `XADD64` is read by a later
instruction. -/
def xaddResultUsed : MachineFunction :=
  ⟨[⟨[⟨Opcode.XADD64, [defReg 1, useReg 2, MachineOperand.Imm 0, useReg 3]⟩,
      ⟨Opcode.Other 0, [defReg 4, useReg 1]⟩], []⟩], [0],
    List.replicate 5 RegClass.GPR⟩

/-- A block that ends in a register-immediate 32-bit select: `%5 = Select_Ri_32 %1, 7,
SETGT, %2, %3`, followed by one more instruction, with one successor. -/
def selectBlock : MachineBasicBlock :=
  ⟨[⟨Opcode.Other 0, [defReg 1]⟩,
    ⟨Opcode.Select_Ri_32,
      [defReg 5, useReg 1, MachineOperand.Imm 7, MachineOperand.Imm 18, useReg 2, useReg 3]⟩,
    ⟨Opcode.Other 1, [useReg 5]⟩], [1]⟩

/-- A function of two blocks whose first block is `selectBlock`. -/
def selectFunction : MachineFunction :=
  ⟨[selectBlock, ⟨[], []⟩], [0, 1], List.replicate 6 RegClass.GPR⟩

/-- A function whose only block holds a `MEMCPY` pseudo-instruction with two register
operands and a length. -/
def memcpyFunction : MachineFunction :=
  ⟨[⟨[⟨Opcode.MEMCPY, [useReg 0, useReg 1, MachineOperand.Imm 16, MachineOperand.Imm 8]⟩],
      []⟩], [0], List.replicate 2 RegClass.GPR⟩

/-! ## The choice of the assignment function -/

/-- The four assignment functions `LowerCall` and `LowerFormalArguments` choose among, by
name. -/
inductive AssignFnId where
  | CC_SBF32
  | CC_SBF64
  | CC_SBF32_X
  | CC_SBF64_X
  deriving DecidableEq, Repr

/-- The assignment function a name stands for. -/
def AssignFnId.fn : AssignFnId → CCAssignFn
  | .CC_SBF32 => SBFLowering.CC_SBF32
  | .CC_SBF64 => SBFLowering.CC_SBF64
  | .CC_SBF32_X => SBFLowering.CC_SBF32_X
  | .CC_SBF64_X => SBFLowering.CC_SBF64_X

/-- The assignment function `LowerFormalArguments` hands to `AnalyzeFormalArguments` for
`NumIns = Ins.size()` incoming arguments. -/
def LowerFormalArguments_AssignFn (ST : Subtarget) (NumIns : Nat) : AssignFnId :=
  if !ST.HasDynamicFrames && decide (NumIns > MaxArgs) then
    (if ST.HasAlu32 then AssignFnId.CC_SBF32_X else AssignFnId.CC_SBF64_X)
  else
    (if ST.HasAlu32 then AssignFnId.CC_SBF32 else AssignFnId.CC_SBF64)

/-- The assignment function `LowerCall` hands to `AnalyzeCallOperands` for
`NumOuts = Outs.size()` outgoing arguments. -/
def LowerCall_AssignFn (ST : Subtarget) (NumOuts : Nat) : AssignFnId :=
  if NumOuts > MaxArgs then
    if ST.HasDynamicFrames then
      (if ST.HasAlu32 then AssignFnId.CC_SBF32 else AssignFnId.CC_SBF64)
    else
      (if ST.HasAlu32 then AssignFnId.CC_SBF32_X else AssignFnId.CC_SBF64_X)
  else
    (if ST.HasAlu32 then AssignFnId.CC_SBF32 else AssignFnId.CC_SBF64)

/-! ## The operation actions of the constructor and the two dispatch switches -/

/-- `ISD::NodeType`: the opcodes that the constructor and the switches of `LowerOperation`
and `ReplaceNodeResults` name; `Other` stands for every other opcode. -/
inductive NodeType where
  | BR_CC | BR_JT | BRIND | BRCOND | GlobalAddress
  | DYNAMIC_STACKALLOC | STACKSAVE | STACKRESTORE | INTRINSIC_W_CHAIN
  | ATOMIC_SWAP | ATOMIC_CMP_SWAP_WITH_SUCCESS | ATOMIC_CMP_SWAP | ATOMIC_LOAD_ADD
  | ATOMIC_LOAD_AND | ATOMIC_LOAD_MAX | ATOMIC_LOAD_MIN | ATOMIC_LOAD_NAND | ATOMIC_LOAD_OR
  | ATOMIC_LOAD_SUB | ATOMIC_LOAD_UMAX | ATOMIC_LOAD_UMIN | ATOMIC_LOAD_XOR
  | ATOMIC_LOAD | ATOMIC_STORE
  | MULHU | MULHS | SDIV | SREM | SDIVREM | UDIVREM | UMUL_LOHI | SMUL_LOHI
  | ROTR | ROTL | SHL_PARTS | SRL_PARTS | SRA_PARTS | CTPOP | SETCC | SELECT | SELECT_CC
  | BSWAP | CTTZ | CTLZ | CTTZ_ZERO_UNDEF | CTLZ_ZERO_UNDEF | SIGN_EXTEND_INREG
  | Other (N : Nat)
  deriving DecidableEq, Repr

/-- `MVT::SimpleValueType`, the value types the constructor names in
`setOperationAction`. -/
inductive SimpleValueType where
  | Other | i1 | i8 | i16 | i32 | i64
  deriving DecidableEq, Repr

/-- `TargetLoweringBase::LegalizeAction`. -/
inductive LegalizeAction where
  | Legal | Promote | Expand | LibCall | Custom
  deriving DecidableEq, Repr

/-- One call `setOperationAction(Op, VT, Action)`. -/
structure OperationAction where
  Op : NodeType
  VT : SimpleValueType
  Action : LegalizeAction
  deriving DecidableEq, Repr

/-- The body of the constructor's loop over `{MVT::i8, MVT::i16, MVT::i32, MVT::i64}`. -/
def atomicOperationActions (VT : SimpleValueType) : List OperationAction :=
  [⟨.ATOMIC_SWAP, VT, .Custom⟩, ⟨.ATOMIC_CMP_SWAP_WITH_SUCCESS, VT, .Custom⟩,
    ⟨.ATOMIC_CMP_SWAP, VT, .Custom⟩, ⟨.ATOMIC_LOAD_ADD, VT, .Custom⟩,
    ⟨.ATOMIC_LOAD_AND, VT, .Custom⟩, ⟨.ATOMIC_LOAD_MAX, VT, .Custom⟩,
    ⟨.ATOMIC_LOAD_MIN, VT, .Custom⟩, ⟨.ATOMIC_LOAD_NAND, VT, .Custom⟩,
    ⟨.ATOMIC_LOAD_OR, VT, .Custom⟩, ⟨.ATOMIC_LOAD_SUB, VT, .Custom⟩,
    ⟨.ATOMIC_LOAD_UMAX, VT, .Custom⟩, ⟨.ATOMIC_LOAD_UMIN, VT, .Custom⟩,
    ⟨.ATOMIC_LOAD_XOR, VT, .Custom⟩, ⟨.ATOMIC_LOAD, VT, .Expand⟩,
    ⟨.ATOMIC_STORE, VT, .Expand⟩]

/-- The body of the constructor's loop over `{MVT::i32, MVT::i64}`, after the `continue`
for `MVT::i32` without ALU32. -/
def arithmeticOperationActions (HasPqrClass : Bool) (VT : SimpleValueType) :
    List OperationAction :=
  (if !HasPqrClass then
      [⟨.SDIV, VT, .Expand⟩, ⟨.SREM, VT, .Expand⟩, ⟨.MULHU, VT, .Expand⟩,
        ⟨.MULHS, VT, .Expand⟩]
    else [])
  ++ [⟨.SDIVREM, VT, .Expand⟩, ⟨.UDIVREM, VT, .Expand⟩, ⟨.UMUL_LOHI, VT, .Expand⟩,
      ⟨.SMUL_LOHI, VT, .Expand⟩, ⟨.ROTR, VT, .Expand⟩, ⟨.ROTL, VT, .Expand⟩,
      ⟨.SHL_PARTS, VT, .Expand⟩, ⟨.SRL_PARTS, VT, .Expand⟩, ⟨.SRA_PARTS, VT, .Expand⟩,
      ⟨.CTPOP, VT, .Expand⟩, ⟨.SETCC, VT, .Expand⟩, ⟨.SELECT, VT, .Expand⟩,
      ⟨.SELECT_CC, VT, .Custom⟩]

/-- The calls of `setOperationAction` that the `SBFTargetLowering` constructor makes, in
the order in which it makes them, for a subtarget with the given `getHasAlu32()` and
`getHasPqrClass()`. -/
def SBFTargetLowering_setOperationActions (HasAlu32 HasPqrClass : Bool) :
    List OperationAction :=
  [⟨.BR_CC, .i64, .Custom⟩, ⟨.BR_JT, .Other, .Expand⟩, ⟨.BRIND, .Other, .Expand⟩,
    ⟨.BRCOND, .Other, .Expand⟩, ⟨.GlobalAddress, .i64, .Custom⟩,
    ⟨.DYNAMIC_STACKALLOC, .i64, .Custom⟩, ⟨.STACKSAVE, .Other, .Expand⟩,
    ⟨.STACKRESTORE, .Other, .Expand⟩, ⟨.INTRINSIC_W_CHAIN, .Other, .Custom⟩]
  ++ atomicOperationActions .i8 ++ atomicOperationActions .i16
  ++ atomicOperationActions .i32 ++ atomicOperationActions .i64
  ++ (if HasPqrClass && HasAlu32 then
        [⟨.MULHU, .i32, .Expand⟩, ⟨.MULHS, .i32, .Expand⟩]
      else [])
  ++ (if HasAlu32 then arithmeticOperationActions HasPqrClass .i32 else [])
  ++ arithmeticOperationActions HasPqrClass .i64
  ++ (if HasPqrClass && HasAlu32 then
        [⟨.MULHU, .i32, .Expand⟩, ⟨.MULHS, .i32, .Expand⟩]
      else [])
  ++ (if HasAlu32 then
        [⟨.BSWAP, .i32, .Promote⟩, ⟨.BR_CC, .i32, .Custom⟩, ⟨.CTTZ, .i32, .Expand⟩,
          ⟨.CTLZ, .i32, .Expand⟩, ⟨.CTTZ_ZERO_UNDEF, .i32, .Expand⟩,
          ⟨.CTLZ_ZERO_UNDEF, .i32, .Expand⟩]
      else [])
  ++ [⟨.CTTZ, .i64, .Expand⟩, ⟨.CTLZ, .i64, .Expand⟩, ⟨.CTTZ_ZERO_UNDEF, .i64, .Expand⟩,
      ⟨.CTLZ_ZERO_UNDEF, .i64, .Expand⟩, ⟨.SIGN_EXTEND_INREG, .i1, .Expand⟩,
      ⟨.SIGN_EXTEND_INREG, .i8, .Expand⟩, ⟨.SIGN_EXTEND_INREG, .i16, .Expand⟩,
      ⟨.SIGN_EXTEND_INREG, .i32, .Expand⟩]

/-- The action a sequence of `setOperationAction` calls leaves for `Op` on `VT`: that of
the last call for the pair, `none` when no call names it (the action is then the one the
base class starts with). -/
def getOperationAction (Calls : List OperationAction) (Op : NodeType)
    (VT : SimpleValueType) : Option LegalizeAction :=
  Calls.foldl (fun Acc C => if C.Op = Op ∧ C.VT = VT then some C.Action else Acc) none

/-- How `LowerOperation` ends for an opcode: the lowering it hands the node to, the empty
`SDValue()`, the fatal error "Unsupported dynamic stack allocation", or the
`llvm_unreachable("unimplemented operation")` of the default case. -/
inductive LowerOperationResult where
  | LowerBR_CC
  | LowerGlobalAddress
  | LowerSELECT_CC
  | LowerATOMICRMW
  | EmptySDValue
  | UnsupportedDynamicStackAllocation
  | UnreachableUnimplementedOperation
  deriving DecidableEq, Repr

/-- `SBFTargetLowering::LowerOperation`: the `switch (Op.getOpcode())`. -/
def LowerOperation (Opc : NodeType) : LowerOperationResult :=
  match Opc with
  | .BR_CC => .LowerBR_CC
  | .GlobalAddress => .LowerGlobalAddress
  | .SELECT_CC => .LowerSELECT_CC
  | .ATOMIC_SWAP | .ATOMIC_CMP_SWAP_WITH_SUCCESS | .ATOMIC_CMP_SWAP | .ATOMIC_LOAD_ADD
  | .ATOMIC_LOAD_AND | .ATOMIC_LOAD_MAX | .ATOMIC_LOAD_MIN | .ATOMIC_LOAD_NAND
  | .ATOMIC_LOAD_OR | .ATOMIC_LOAD_SUB | .ATOMIC_LOAD_UMAX | .ATOMIC_LOAD_UMIN
  | .ATOMIC_LOAD_XOR => .LowerATOMICRMW
  | .INTRINSIC_W_CHAIN => .EmptySDValue
  | .DYNAMIC_STACKALLOC => .UnsupportedDynamicStackAllocation
  | _ => .UnreachableUnimplementedOperation

/-- How `ReplaceNodeResults` ends: the fatal error "Unhandled custom legalization", the
`return` of the atomic cases, or the call `fail(DL, DAG, err_msg)` after the switch, which
reads `err_msg` without it having been set. -/
inductive ReplaceNodeResultsEnd where
  | UnhandledCustomLegalization
  | Return
  | FailUninitializedMessage
  deriving DecidableEq, Repr

/-- The `switch (Opcode)` of `ReplaceNodeResults`: how the function ends inside the
switch, `none` when control leaves the switch. -/
def ReplaceNodeResults_switch (Opc : NodeType) : Option ReplaceNodeResultsEnd :=
  match Opc with
  | .ATOMIC_SWAP | .ATOMIC_CMP_SWAP_WITH_SUCCESS | .ATOMIC_CMP_SWAP | .ATOMIC_LOAD_ADD
  | .ATOMIC_LOAD_AND | .ATOMIC_LOAD_MAX | .ATOMIC_LOAD_MIN | .ATOMIC_LOAD_NAND
  | .ATOMIC_LOAD_OR | .ATOMIC_LOAD_SUB | .ATOMIC_LOAD_UMAX | .ATOMIC_LOAD_UMIN
  | .ATOMIC_LOAD_XOR => some .Return
  | _ => some .UnhandledCustomLegalization

/-- `SBFTargetLowering::ReplaceNodeResults`: the switch, and after it the call of
`fail`. -/
def ReplaceNodeResults (Opc : NodeType) : ReplaceNodeResultsEnd :=
  match ReplaceNodeResults_switch Opc with
  | some End => End
  | none => .FailUninitializedMessage

/-- The operations the specification lists as marked `Custom`. -/
def customOperations : List NodeType :=
  [.BR_CC, .GlobalAddress, .SELECT_CC, .DYNAMIC_STACKALLOC, .INTRINSIC_W_CHAIN,
    .ATOMIC_SWAP, .ATOMIC_CMP_SWAP_WITH_SUCCESS, .ATOMIC_CMP_SWAP, .ATOMIC_LOAD_ADD,
    .ATOMIC_LOAD_AND, .ATOMIC_LOAD_MAX, .ATOMIC_LOAD_MIN, .ATOMIC_LOAD_NAND,
    .ATOMIC_LOAD_OR, .ATOMIC_LOAD_SUB, .ATOMIC_LOAD_UMAX, .ATOMIC_LOAD_UMIN,
    .ATOMIC_LOAD_XOR]

/-- Whether a chain node is a store. -/
def ChainNode.isStore : ChainNode → Bool
  | .Store _ _ _ _ => true
  | _ => false

/-! ## Concrete inputs used to evaluate the embedding -/

/-- A subtarget without dynamic frames, ALU32 or the extended jump opcodes. -/
def fixedFrameST : Subtarget := ⟨false, false, false⟩

/-- A 64-bit argument without extension flags. -/
def argI64 : ISDArg := ⟨MVT.i64, ⟨false, false⟩⟩

/-- A direct C call with `n` 64-bit arguments, the values `Leaf 0 .. Leaf (n - 1)`, and no
result. -/
def callWithArgs (n : Nat) : CallLoweringInfo :=
  ⟨List.replicate n argI64, (List.range n).map fun i => SDValue.Leaf i MVT.i64, [],
    Callee.GlobalAddress 0 0, CallingConv.C, false⟩

/-! ## Predicates and closed forms used to state the properties -/

/-- The location `CC_SBF NumRegs Alu32` gives to argument number `i` when it is reached
with `min i NumRegs` registers and `8 * (i - NumRegs)` stack bytes in use. -/
def locOf (NumRegs : Nat) (Alu32 : Bool) (i : Nat) (Arg : ISDArg) : CCValAssign :=
  let LocVT : MVT :=
    if Alu32 then (if Arg.VT = MVT.i8 ∨ Arg.VT = MVT.i16 then MVT.i32 else Arg.VT)
    else MVT.i64
  let Info : LocInfo := if LocVT = Arg.VT then LocInfo.Full else promotedLocInfo Arg.Flags
  if i < NumRegs then
    ⟨i, Arg.VT, LocVT,
      ArgLoc.Reg (if LocVT = MVT.i32 then Register.W (i + 1) else Register.R (i + 1)), Info⟩
  else ⟨i, Arg.VT, LocVT, ArgLoc.Mem (8 * (i - NumRegs)), Info⟩

/-- The locations of the arguments `Args`, numbered from `i` on. -/
def locsFrom (NumRegs : Nat) (Alu32 : Bool) : Nat → List ISDArg → List CCValAssign
  | _, [] => []
  | i, Arg :: rest => locOf NumRegs Alu32 i Arg :: locsFrom NumRegs Alu32 (i + 1) rest

/-- An assignment of `n` arguments that puts the first `Regs` of them in registers and the
others on the stack: one location per argument in declaration order, a register exactly
for the arguments numbered below `Regs`, a stack slot exactly for the others, and stack
offsets that never decrease along the list. -/
def AssignedInOrder (Regs n : Nat) (Locs : List CCValAssign) : Prop :=
  regCount Locs = Regs
    ∧ Locs.map CCValAssign.ValNo = List.range n
    ∧ (∀ VA ∈ Locs, VA.isRegLoc = true ↔ VA.ValNo < Regs)
    ∧ (∀ VA ∈ Locs, VA.isMemLoc = true ↔ Regs ≤ VA.ValNo)
    ∧ (memOffsets Locs).Pairwise (fun a b => a ≤ b)

end SBFLowering

namespace SBFLinker

/-! ## Byte-level lemmas -/

theorem toByte_val (n : Nat) : (toByte n).val = n % 256 := by
  simp [toByte, Fin.ofNat]

theorem byteAt_lt (buf : List Byte) (i : Nat) : byteAt buf i < 256 := by
  unfold byteAt
  exact (buf.getD i 0).isLt

theorem getElem?_write32le_of_outside (buf : List Byte) (p v j : Nat)
    (h : j < p ∨ p + 4 ≤ j) : (write32le buf p v)[j]? = buf[j]? := by
  unfold write32le
  rw [List.getElem?_set_ne (by omega), List.getElem?_set_ne (by omega),
    List.getElem?_set_ne (by omega), List.getElem?_set_ne (by omega)]

theorem length_write32le (buf : List Byte) (p v : Nat) :
    (write32le buf p v).length = buf.length := by
  simp [write32le]

theorem byteAt_congr (a b : List Byte) (j : Nat) (h : a[j]? = b[j]?) :
    byteAt a j = byteAt b j := by
  simp [byteAt, List.getD_eq_getElem?_getD, h]

theorem byteAt_set_self (buf : List Byte) (i : Nat) (b : Byte) (h : i < buf.length) :
    byteAt (buf.set i b) i = b.val := by
  simp [byteAt, List.getD_eq_getElem?_getD, List.getElem?_set_self h]

theorem byteAt_set_of_ne (buf : List Byte) (i j : Nat) (b : Byte) (h : i ≠ j) :
    byteAt (buf.set i b) j = byteAt buf j :=
  byteAt_congr _ _ _ (List.getElem?_set_ne h)

theorem read32le_lt (buf : List Byte) (p : Nat) : read32le buf p < 2 ^ 32 := by
  have h0 := byteAt_lt buf p
  have h1 := byteAt_lt buf (p + 1)
  have h2 := byteAt_lt buf (p + 2)
  have h3 := byteAt_lt buf (p + 3)
  unfold read32le
  omega

theorem read32le_write32le (buf : List Byte) (p v : Nat) (h : p + 4 ≤ buf.length) :
    read32le (write32le buf p v) p = v % 2 ^ 32 := by
  have e0 : byteAt (write32le buf p v) p = v % 256 := by
    unfold write32le
    rw [byteAt_set_of_ne _ _ _ _ (by omega), byteAt_set_of_ne _ _ _ _ (by omega),
      byteAt_set_of_ne _ _ _ _ (by omega), byteAt_set_self _ _ _ (by omega), toByte_val]
  have e1 : byteAt (write32le buf p v) (p + 1) = v / 2 ^ 8 % 256 := by
    unfold write32le
    rw [byteAt_set_of_ne _ _ _ _ (by omega), byteAt_set_of_ne _ _ _ _ (by omega),
      byteAt_set_self _ _ _ (by simp; omega), toByte_val]
  have e2 : byteAt (write32le buf p v) (p + 2) = v / 2 ^ 16 % 256 := by
    unfold write32le
    rw [byteAt_set_of_ne _ _ _ _ (by omega), byteAt_set_self _ _ _ (by simp; omega),
      toByte_val]
  have e3 : byteAt (write32le buf p v) (p + 3) = v / 2 ^ 24 % 256 := by
    unfold write32le
    rw [byteAt_set_self _ _ _ (by simp; omega), toByte_val]
  unfold read32le
  rw [e0, e1, e2, e3]
  omega

theorem read32le_write32le_of_disjoint (buf : List Byte) (p q v : Nat)
    (h : q + 4 ≤ p ∨ p + 4 ≤ q) : read32le (write32le buf p v) q = read32le buf q := by
  unfold read32le
  rw [byteAt_congr _ _ _ (getElem?_write32le_of_outside buf p v q (by omega)),
    byteAt_congr _ _ _ (getElem?_write32le_of_outside buf p v (q + 1) (by omega)),
    byteAt_congr _ _ _ (getElem?_write32le_of_outside buf p v (q + 2) (by omega)),
    byteAt_congr _ _ _ (getElem?_write32le_of_outside buf p v (q + 3) (by omega))]

theorem and_mask32 (x : Nat) : x &&& 0xFFFFFFFF = x % 2 ^ 32 := by
  have h := Nat.and_pow_two_sub_one_eq_mod x 32
  simpa using h

theorem shl32_or (hi lo : Nat) (h : lo < 2 ^ 32) : hi <<< 32 ||| lo = 2 ^ 32 * hi + lo := by
  rw [Nat.shiftLeft_eq, Nat.mul_comm hi, Nat.mul_add_lt_is_or h]

theorem getElem?_write64le_of_outside (buf : List Byte) (p v j : Nat)
    (h : j < p ∨ p + 8 ≤ j) : (write64le buf p v)[j]? = buf[j]? := by
  unfold write64le
  rw [getElem?_write32le_of_outside _ _ _ _ (by omega),
    getElem?_write32le_of_outside _ _ _ _ (by omega)]

theorem read64le_write64le (buf : List Byte) (p v : Nat) (h : p + 8 ≤ buf.length)
    (hv : v < 2 ^ 64) : read64le (write64le buf p v) p = v := by
  unfold read64le write64le
  rw [read32le_write32le _ _ _ (by rw [length_write32le]; omega),
    read32le_write32le_of_disjoint _ _ _ _ (by omega), read32le_write32le _ _ _ (by omega)]
  omega

/-! ## Which branch of `relocate` a type takes -/

theorem caseLabels_ne (K : RelocCodes) :
    K.R_SBF_64_ABS32 ≠ K.R_SBF_64_32 ∧ K.R_SBF_64_NODYLD32 ≠ K.R_SBF_64_32
      ∧ K.R_SBF_64_ABS64 ≠ K.R_SBF_64_32 ∧ K.R_SBF_64_64 ≠ K.R_SBF_64_32
      ∧ K.R_SBF_64_NODYLD32 ≠ K.R_SBF_64_ABS32 ∧ K.R_SBF_64_ABS64 ≠ K.R_SBF_64_ABS32
      ∧ K.R_SBF_64_64 ≠ K.R_SBF_64_ABS32 ∧ K.R_SBF_64_ABS64 ≠ K.R_SBF_64_NODYLD32
      ∧ K.R_SBF_64_64 ≠ K.R_SBF_64_NODYLD32 ∧ K.R_SBF_64_64 ≠ K.R_SBF_64_ABS64 := by
  have h := K.caseLabelsDistinct
  simp only [List.nodup_cons, List.mem_cons, List.mem_singleton, not_or, List.not_mem_nil,
    not_false_eq_true, List.nodup_nil, and_true] at h
  obtain ⟨⟨h1, h2, h3, h4⟩, ⟨h5, h6, h7⟩, ⟨h8, h9⟩, h10⟩ := h
  exact ⟨Ne.symm h1, Ne.symm h2, Ne.symm h3, Ne.symm h4, Ne.symm h5, Ne.symm h6, Ne.symm h7,
    Ne.symm h8, Ne.symm h9, Ne.symm h10⟩

theorem relocate_64_32 (K : RelocCodes) (buf : List Byte) (loc val : Nat) :
    relocate K buf loc K.R_SBF_64_32 val
      = (write32le buf (loc + 4) ((val + 2 ^ 64 - 8) % 2 ^ 64 / 8 % 2 ^ 32), []) := by
  simp [relocate, and_mask32]

theorem relocate_abs32 (K : RelocCodes) (buf : List Byte) (loc val : Nat) :
    relocate K buf loc K.R_SBF_64_ABS32 val = (write32le buf loc (val % 2 ^ 32), []) := by
  obtain ⟨h1, -⟩ := caseLabels_ne K
  simp [relocate, and_mask32, h1]

theorem relocate_nodyld32 (K : RelocCodes) (buf : List Byte) (loc val : Nat) :
    relocate K buf loc K.R_SBF_64_NODYLD32 val = (write32le buf loc (val % 2 ^ 32), []) := by
  obtain ⟨-, h2, -⟩ := caseLabels_ne K
  simp [relocate, and_mask32, h2]

theorem relocate_64_64 (K : RelocCodes) (buf : List Byte) (loc val : Nat) :
    relocate K buf loc K.R_SBF_64_64 val
      = (write32le (write32le buf (loc + 4) (val % 2 ^ 32)) (loc + 12) (val / 2 ^ 32 % 2 ^ 32),
          []) := by
  obtain ⟨-, -, -, h4, -, -, h7, -, h9, -⟩ := caseLabels_ne K
  simp [relocate, and_mask32, h4, h7, h9, Nat.shiftRight_eq_div_pow]

theorem relocate_abs64 (K : RelocCodes) (buf : List Byte) (loc val : Nat) :
    relocate K buf loc K.R_SBF_64_ABS64 val = (write64le buf loc val, []) := by
  obtain ⟨-, -, h3, -, -, h6, -, h8, -, h10⟩ := caseLabels_ne K
  simp [relocate, h3, h6, h8, h10.symm]

/-! ## Relocation patching -/

/-- C1 (as the claim states it, refuted): patching `v = 2 ^ 32` at offset 0 of a zeroed
20-byte buffer sets byte 12 and leaves bytes 16..19 zero, so decoding the high half from
the field at `offset + 16` and the low half from `offset + 4` gives `0`, not `v`. -/
theorem relocate_64_64_not_decoded_at_16 :
    (relocate sbfRelocCodes (List.replicate 20 0) 0 sbfRelocCodes.R_SBF_64_64 (2 ^ 32)).1
        = [0, 0, 0, 0, 0, 0, 0, 0, 0, 0, 0, 0, 1, 0, 0, 0, 0, 0, 0, 0]
      ∧ read32le (relocate sbfRelocCodes (List.replicate 20 0) 0
            sbfRelocCodes.R_SBF_64_64 (2 ^ 32)).1 (0 + 16) <<< 32
          ||| read32le (relocate sbfRelocCodes (List.replicate 20 0) 0
            sbfRelocCodes.R_SBF_64_64 (2 ^ 32)).1 (0 + 4) ≠ 2 ^ 32 := by
  decide

/-- C1 (amended): for every 64-bit `v` and every buffer with 16 bytes at the patch site,
after `relocate` with `R_SBF_64_64`, the little-endian field at `offset + 4` is the low
half and the one at `offset + 12` the high half: `high32 <<< 32 ||| low32 = v`. -/
theorem relocate_64_64_decode (K : RelocCodes) (buf : List Byte) (loc v : Nat)
    (hv : v < 2 ^ 64) (hlen : loc + 16 ≤ buf.length) :
    read32le (relocate K buf loc K.R_SBF_64_64 v).1 (loc + 12) <<< 32
      ||| read32le (relocate K buf loc K.R_SBF_64_64 v).1 (loc + 4) = v := by
  rw [relocate_64_64]
  simp only
  rw [read32le_write32le _ _ _ (by rw [length_write32le]; omega),
    read32le_write32le_of_disjoint _ _ _ _ (by omega), read32le_write32le _ _ _ (by omega),
    shl32_or _ _ (Nat.mod_lt _ (by norm_num))]
  omega

/-- Witness for C1 (amended): `0x1122334455667788` patched at offset 2 of a zeroed
20-byte buffer. -/
theorem relocate_64_64_decode_witness :
    (0x1122334455667788 < 2 ^ 64 ∧ 2 + 16 ≤ (List.replicate 20 (0 : Byte)).length) ∧
    read32le (relocate sbfRelocCodes (List.replicate 20 0) 2 sbfRelocCodes.R_SBF_64_64
        0x1122334455667788).1 (2 + 12) <<< 32
      ||| read32le (relocate sbfRelocCodes (List.replicate 20 0) 2 sbfRelocCodes.R_SBF_64_64
        0x1122334455667788).1 (2 + 4) = 0x1122334455667788 :=
  ⟨by decide, relocate_64_64_decode sbfRelocCodes (List.replicate 20 0) 2 0x1122334455667788
    (by decide) (by decide)⟩

/-- C5: for every `val`, `relocate` with `R_SBF_64_32` reports no error and stores, as the
little-endian 32-bit field at `offset + 4`, the number `((val - 8) mod 2 ^ 64) / 8 mod 2 ^ 32`
(the difference taken over the integers and reduced modulo `2 ^ 64`, the division
unsigned); the buffer keeps its length and every byte outside `offset + 4 .. offset + 7`. -/
theorem relocate_64_32_field (K : RelocCodes) (buf : List Byte) (loc val : Nat)
    (hlen : loc + 8 ≤ buf.length) :
    (relocate K buf loc K.R_SBF_64_32 val).2 = []
      ∧ (read32le (relocate K buf loc K.R_SBF_64_32 val).1 (loc + 4) : Int)
          = ((val : Int) - 8) % 2 ^ 64 / 8 % 2 ^ 32
      ∧ (relocate K buf loc K.R_SBF_64_32 val).1.length = buf.length
      ∧ ∀ j, j < loc + 4 ∨ loc + 8 ≤ j →
          (relocate K buf loc K.R_SBF_64_32 val).1[j]? = buf[j]? := by
  rw [relocate_64_32]
  refine ⟨rfl, ?_, length_write32le _ _ _, fun j hj => ?_⟩
  · simp only
    rw [read32le_write32le _ _ _ (by omega)]
    omega
  · exact getElem?_write32le_of_outside _ _ _ _ (by omega)

/-- Witness for C5: `val = 0` (a backward displacement that wraps) at offset 1 of a
zeroed 12-byte buffer. -/
theorem relocate_64_32_field_witness :
    1 + 8 ≤ (List.replicate 12 (0 : Byte)).length ∧
    ((relocate sbfRelocCodes (List.replicate 12 0) 1 sbfRelocCodes.R_SBF_64_32 0).2 = []
      ∧ (read32le (relocate sbfRelocCodes (List.replicate 12 0) 1
            sbfRelocCodes.R_SBF_64_32 0).1 (1 + 4) : Int)
          = (((0 : Nat) : Int) - 8) % 2 ^ 64 / 8 % 2 ^ 32
      ∧ (relocate sbfRelocCodes (List.replicate 12 0) 1
            sbfRelocCodes.R_SBF_64_32 0).1.length = (List.replicate 12 (0 : Byte)).length
      ∧ ∀ j, j < 1 + 4 ∨ 1 + 8 ≤ j →
          (relocate sbfRelocCodes (List.replicate 12 0) 1 sbfRelocCodes.R_SBF_64_32 0).1[j]?
            = (List.replicate 12 (0 : Byte))[j]?) :=
  ⟨by decide, relocate_64_32_field sbfRelocCodes (List.replicate 12 0) 1 0 (by decide)⟩

/-- C6: for every `val` and for both `R_SBF_64_ABS32` and `R_SBF_64_NODYLD32`, `relocate`
reports no error and stores `val mod 2 ^ 32` as the little-endian 32-bit field at the patch
offset itself; the buffer keeps its length and every byte outside `offset .. offset + 3`. -/
theorem relocate_abs32_field (K : RelocCodes) (buf : List Byte) (loc val : Nat)
    (type : RelType) (htype : type = K.R_SBF_64_ABS32 ∨ type = K.R_SBF_64_NODYLD32)
    (hlen : loc + 4 ≤ buf.length) :
    (relocate K buf loc type val).2 = []
      ∧ read32le (relocate K buf loc type val).1 loc = val % 2 ^ 32
      ∧ (relocate K buf loc type val).1.length = buf.length
      ∧ ∀ j, j < loc ∨ loc + 4 ≤ j → (relocate K buf loc type val).1[j]? = buf[j]? := by
  have hrel : relocate K buf loc type val = (write32le buf loc (val % 2 ^ 32), []) := by
    rcases htype with h | h
    · rw [h, relocate_abs32]
    · rw [h, relocate_nodyld32]
  rw [hrel]
  refine ⟨rfl, ?_, length_write32le _ _ _, fun j hj => ?_⟩
  · simp only
    rw [read32le_write32le _ _ _ hlen]
    omega
  · exact getElem?_write32le_of_outside _ _ _ _ hj

/-- Witness for C6: `R_SBF_64_NODYLD32` with a value wider than 32 bits, at offset 3 of a
zeroed 8-byte buffer. -/
theorem relocate_abs32_field_witness :
    ((sbfRelocCodes.R_SBF_64_NODYLD32 = sbfRelocCodes.R_SBF_64_ABS32
        ∨ sbfRelocCodes.R_SBF_64_NODYLD32 = sbfRelocCodes.R_SBF_64_NODYLD32)
      ∧ 3 + 4 ≤ (List.replicate 8 (0 : Byte)).length) ∧
    ((relocate sbfRelocCodes (List.replicate 8 0) 3 sbfRelocCodes.R_SBF_64_NODYLD32
          0x1AABBCCDD).2 = []
      ∧ read32le (relocate sbfRelocCodes (List.replicate 8 0) 3
          sbfRelocCodes.R_SBF_64_NODYLD32 0x1AABBCCDD).1 3 = 0x1AABBCCDD % 2 ^ 32
      ∧ (relocate sbfRelocCodes (List.replicate 8 0) 3 sbfRelocCodes.R_SBF_64_NODYLD32
          0x1AABBCCDD).1.length = (List.replicate 8 (0 : Byte)).length
      ∧ ∀ j, j < 3 ∨ 3 + 4 ≤ j →
          (relocate sbfRelocCodes (List.replicate 8 0) 3 sbfRelocCodes.R_SBF_64_NODYLD32
            0x1AABBCCDD).1[j]? = (List.replicate 8 (0 : Byte))[j]?) :=
  ⟨by decide, relocate_abs32_field sbfRelocCodes (List.replicate 8 0) 3 0x1AABBCCDD
    sbfRelocCodes.R_SBF_64_NODYLD32 (by decide) (by decide)⟩

/-- C7: for every 64-bit `val`, `relocate` with `R_SBF_64_ABS64` reports no error and
stores `val` as the little-endian 8-byte field at the patch offset, so that reading the
field back gives `val`; the buffer keeps its length and every byte outside
`offset .. offset + 7`. -/
theorem relocate_abs64_field (K : RelocCodes) (buf : List Byte) (loc val : Nat)
    (hval : val < 2 ^ 64) (hlen : loc + 8 ≤ buf.length) :
    (relocate K buf loc K.R_SBF_64_ABS64 val).2 = []
      ∧ read64le (relocate K buf loc K.R_SBF_64_ABS64 val).1 loc = val
      ∧ (relocate K buf loc K.R_SBF_64_ABS64 val).1.length = buf.length
      ∧ ∀ j, j < loc ∨ loc + 8 ≤ j →
          (relocate K buf loc K.R_SBF_64_ABS64 val).1[j]? = buf[j]? := by
  rw [relocate_abs64]
  refine ⟨rfl, read64le_write64le _ _ _ hlen hval, ?_, fun j hj => ?_⟩
  · simp [write64le, length_write32le]
  · exact getElem?_write64le_of_outside _ _ _ _ hj

/-- Witness for C7: `0x0102030405060708` at offset 1 of a zeroed 10-byte buffer. -/
theorem relocate_abs64_field_witness :
    (0x0102030405060708 < 2 ^ 64 ∧ 1 + 8 ≤ (List.replicate 10 (0 : Byte)).length) ∧
    ((relocate sbfRelocCodes (List.replicate 10 0) 1 sbfRelocCodes.R_SBF_64_ABS64
          0x0102030405060708).2 = []
      ∧ read64le (relocate sbfRelocCodes (List.replicate 10 0) 1
          sbfRelocCodes.R_SBF_64_ABS64 0x0102030405060708).1 1 = 0x0102030405060708
      ∧ (relocate sbfRelocCodes (List.replicate 10 0) 1 sbfRelocCodes.R_SBF_64_ABS64
          0x0102030405060708).1.length = (List.replicate 10 (0 : Byte)).length
      ∧ ∀ j, j < 1 ∨ 1 + 8 ≤ j →
          (relocate sbfRelocCodes (List.replicate 10 0) 1 sbfRelocCodes.R_SBF_64_ABS64
            0x0102030405060708).1[j]? = (List.replicate 10 (0 : Byte))[j]?) :=
  ⟨by decide, relocate_abs64_field sbfRelocCodes (List.replicate 10 0) 1 0x0102030405060708
    (by decide) (by decide)⟩

/-- C8: `getImplicitAddend` for `R_SBF_64_ABS32` is the 32-bit little-endian value stored
at the patch site read as a two's-complement number (itself when below `2 ^ 31`, minus
`2 ^ 32` otherwise), hence in `[-2 ^ 31, 2 ^ 31)`; for every other type, `R_SBF_64_NODYLD32`
included, it is `0`, although `relocate` patches `R_SBF_64_NODYLD32` exactly as it patches
`R_SBF_64_ABS32`. -/
theorem getImplicitAddend_spec (K : RelocCodes) (buf : List Byte) (loc : Nat) :
    getImplicitAddend K buf loc K.R_SBF_64_ABS32
        = (if read32le buf loc < 2 ^ 31 then (read32le buf loc : Int)
            else (read32le buf loc : Int) - 2 ^ 32)
      ∧ -2 ^ 31 ≤ getImplicitAddend K buf loc K.R_SBF_64_ABS32
      ∧ getImplicitAddend K buf loc K.R_SBF_64_ABS32 < 2 ^ 31
      ∧ (∀ type, type ≠ K.R_SBF_64_ABS32 → getImplicitAddend K buf loc type = 0)
      ∧ getImplicitAddend K buf loc K.R_SBF_64_NODYLD32 = 0
      ∧ ∀ val, relocate K buf loc K.R_SBF_64_NODYLD32 val
          = relocate K buf loc K.R_SBF_64_ABS32 val := by
  have hr := read32le_lt buf loc
  have hval : getImplicitAddend K buf loc K.R_SBF_64_ABS32
      = (if read32le buf loc < 2 ^ 31 then (read32le buf loc : Int)
          else (read32le buf loc : Int) - 2 ^ 32) := by
    simp only [getImplicitAddend, if_true, SignExtend64, toInt64]
    generalize read32le buf loc = r at hr
    have e : 64 - 32 = 32 := rfl
    rw [e]
    split_ifs <;> omega
  obtain ⟨-, -, -, -, h5, -⟩ := caseLabels_ne K
  refine ⟨hval, ?_, ?_, fun type ht => if_neg ht, if_neg h5, fun val => ?_⟩
  · rw [hval]; split_ifs <;> omega
  · rw [hval]; split_ifs <;> omega
  · rw [relocate_nodyld32, relocate_abs32]

/-- C9: `getRelExpr` and `relocate` report no error on exactly the same types, the five
case labels; on every other type `getRelExpr` reports "unrecognized reloc" and returns
`R_NONE`, and `relocate` reports the same error and leaves the buffer as it was. -/
theorem getRelExpr_relocate_recognise_same (K : RelocCodes) (buf : List Byte)
    (loc val : Nat) (type : RelType) :
    ((getRelExpr K type).2 = [] ↔ type ∈ recognisedTypes K)
      ∧ ((relocate K buf loc type val).2 = [] ↔ type ∈ recognisedTypes K)
      ∧ (type ∉ recognisedTypes K →
          getRelExpr K type = (RelExpr.R_NONE, [Diag.unrecognizedReloc type])
            ∧ relocate K buf loc type val = (buf, [Diag.unrecognizedReloc type])) := by
  unfold getRelExpr relocate recognisedTypes
  simp only [List.mem_cons, List.mem_singleton, List.not_mem_nil, or_false]
  refine ⟨?_, ?_, ?_⟩
  · split_ifs <;> first | (simp_all; done) | (simp_all; tauto)
  · split_ifs <;> first | (simp_all; done) | (simp_all; tauto)
  · intro h
    simp only [not_or] at h
    obtain ⟨h1, h2, h3, h4, h5⟩ := h
    simp [h1, h2, h3, h4, h5]

/-- C10: `getDynRel` sends `R_SBF_64_ABS64` to `R_SBF_64_64`, the value the constructor
installs as `symbolicRel` (with `relativeRel = R_SBF_64_RELATIVE`), returns every other
type unchanged, and is idempotent. -/
theorem getDynRel_spec (K : RelocCodes) :
    getDynRel K K.R_SBF_64_ABS64 = K.R_SBF_64_64
      ∧ (SBF K).symbolicRel = K.R_SBF_64_64
      ∧ (SBF K).relativeRel = K.R_SBF_64_RELATIVE
      ∧ (∀ type, type ≠ K.R_SBF_64_ABS64 → getDynRel K type = type)
      ∧ ∀ type, getDynRel K (getDynRel K type) = getDynRel K type := by
  obtain ⟨-, -, -, -, -, -, -, -, -, h10⟩ := caseLabels_ne K
  refine ⟨if_pos rfl, rfl, rfl, fun type ht => if_neg ht, fun type => ?_⟩
  unfold getDynRel
  split_ifs <;> simp_all

/-! ## ABI flags -/

theorem foldl_calcEFlagsStep_same (be : Bool) (f : Nat) (errs : List Diag) :
    ∀ files : List InputFile, (∀ x ∈ files, x.e_flags = f) →
      files.foldl (calcEFlagsStep be) (f, errs) = (f, errs) := by
  intro files
  induction files with
  | nil => intro _; rfl
  | cons x rest ih =>
    intro h
    have hx : x.e_flags = f := h x (List.mem_cons_self _ _)
    have hstep : calcEFlagsStep be (f, errs) x = (f, errs) := by
      cases be <;> by_cases h0 : f = 0 <;> simp [calcEFlagsStep, getEFlags, hx, h0]
    rw [List.foldl_cons, hstep]
    exact ih (fun y hy => h y (List.mem_cons_of_mem _ hy))

/-- C2 (the code at the failing input): with flag word `0` in the first file and `0x20`
in the second, `calcEFlags` reports no error, although the two words differ; with the
same two files in the opposite order it reports the incompatibility. -/
theorem calcEFlags_zero_first_unreported :
    (calcEFlags false [⟨0⟩, ⟨0x20⟩]).2 = []
      ∧ (calcEFlags false [⟨0x20⟩, ⟨0⟩]).2 = [Diag.incompatibleFlags] := by
  decide

/-- C3 (the code at the failing input): on two files with flag words `0` and `0x20`
`calcEFlags` returns `0x20` with no error reported, which is not the flag word of the
first file. -/
theorem calcEFlags_zero_first_baseline :
    calcEFlags false [⟨0⟩, ⟨0x20⟩] = (0x20, [])
      ∧ ([⟨0⟩, ⟨0x20⟩] : List InputFile).head?.map InputFile.e_flags = some 0 := by
  decide

/-- C4: for every flag word `f` and every non-empty list of object files that all carry
`e_flags = f`, `calcEFlags` reports no error and returns `f`. -/
theorem calcEFlags_uniform (be : Bool) (f : Nat) (files : List InputFile)
    (hne : files ≠ []) (hall : ∀ x ∈ files, x.e_flags = f) :
    calcEFlags be files = (f, []) := by
  cases files with
  | nil => exact absurd rfl hne
  | cons x rest =>
    have hx : x.e_flags = f := hall x (List.mem_cons_self _ _)
    have hstep : calcEFlagsStep be (0, []) x = (f, []) := by
      cases be <;> simp [calcEFlagsStep, getEFlags, hx]
    unfold calcEFlags
    rw [List.foldl_cons, hstep]
    exact foldl_calcEFlagsStep_same be f [] rest (fun y hy => hall y (List.mem_cons_of_mem _ hy))

/-- Witness for C4: three object files that all carry the flag word `0x20`. -/
theorem calcEFlags_uniform_witness :
    (([⟨0x20⟩, ⟨0x20⟩, ⟨0x20⟩] : List InputFile) ≠ []
      ∧ ∀ x ∈ ([⟨0x20⟩, ⟨0x20⟩, ⟨0x20⟩] : List InputFile), x.e_flags = 0x20)
    ∧ calcEFlags false [⟨0x20⟩, ⟨0x20⟩, ⟨0x20⟩] = (0x20, []) :=
  ⟨⟨by decide, by decide⟩,
    calcEFlags_uniform false 0x20 [⟨0x20⟩, ⟨0x20⟩, ⟨0x20⟩] (by decide) (by decide)⟩

end SBFLinker

namespace SBFLowering

/-! ## Calling-convention assignment -/

theorem analyzeFrom_CC_SBF (NumRegs : Nat) (Alu32 : Bool) :
    ∀ (Args : List ISDArg) (i : Nat) (State : CCState),
      State.NumRegsUsed = min i NumRegs → State.StackSize = 8 * (i - NumRegs) →
      (analyzeFrom (CC_SBF NumRegs Alu32) i Args State).Locs
          = State.Locs ++ locsFrom NumRegs Alu32 i Args
        ∧ (analyzeFrom (CC_SBF NumRegs Alu32) i Args State).StackSize
          = 8 * (i + Args.length - NumRegs) := by
  intro Args
  induction Args with
  | nil => intro i State _ h2; simp [analyzeFrom, locsFrom, h2]
  | cons Arg rest ih =>
    intro i State h1 h2
    by_cases hlt : i < NumRegs
    · have hu : State.NumRegsUsed = i := by omega
      have hs : State.StackSize = 0 := by omega
      have hstep := ih (i + 1) (CC_SBF NumRegs Alu32 i Arg.VT Arg.Flags State)
        (by simp [CC_SBF, hu, hlt]; omega) (by simp [CC_SBF, hu, hlt, hs]; omega)
      simp only [analyzeFrom, locsFrom, List.length_cons]
      rw [hstep.1, hstep.2]
      refine ⟨?_, by congr 1; omega⟩
      simp [CC_SBF, locOf, hu, hlt]
    · have hu : State.NumRegsUsed = NumRegs := by omega
      have hstep := ih (i + 1) (CC_SBF NumRegs Alu32 i Arg.VT Arg.Flags State)
        (by simp [CC_SBF, hu]; omega) (by simp [CC_SBF, hu, h2]; omega)
      simp only [analyzeFrom, locsFrom, List.length_cons]
      rw [hstep.1, hstep.2]
      refine ⟨?_, by congr 1; omega⟩
      simp [CC_SBF, locOf, hu, hlt, h2]

theorem analyze_CC_SBF (NumRegs : Nat) (Alu32 : Bool) (Args : List ISDArg) :
    (analyzeFrom (CC_SBF NumRegs Alu32) 0 Args ⟨0, 0, []⟩).Locs = locsFrom NumRegs Alu32 0 Args
      ∧ (analyzeFrom (CC_SBF NumRegs Alu32) 0 Args ⟨0, 0, []⟩).StackSize
        = 8 * (Args.length - NumRegs) := by
  have h := analyzeFrom_CC_SBF NumRegs Alu32 Args 0 ⟨0, 0, []⟩ (by simp) (by simp)
  simpa using h

theorem locOf_ValNo (NumRegs : Nat) (Alu32 : Bool) (i : Nat) (Arg : ISDArg) :
    (locOf NumRegs Alu32 i Arg).ValNo = i := by
  unfold locOf; split_ifs <;> rfl

theorem locOf_isRegLoc (NumRegs : Nat) (Alu32 : Bool) (i : Nat) (Arg : ISDArg) :
    (locOf NumRegs Alu32 i Arg).isRegLoc = decide (i < NumRegs) := by
  unfold locOf; split_ifs <;> simp_all [CCValAssign.isRegLoc]

theorem locOf_isMemLoc (NumRegs : Nat) (Alu32 : Bool) (i : Nat) (Arg : ISDArg) :
    (locOf NumRegs Alu32 i Arg).isMemLoc = decide (NumRegs ≤ i) := by
  unfold locOf; split_ifs <;> simp_all [CCValAssign.isMemLoc]

theorem locOf_Loc_of_ge (NumRegs : Nat) (Alu32 : Bool) (i : Nat) (Arg : ISDArg)
    (h : NumRegs ≤ i) : (locOf NumRegs Alu32 i Arg).Loc = ArgLoc.Mem (8 * (i - NumRegs)) := by
  have hn : ¬ i < NumRegs := by omega
  simp [locOf, hn]

theorem locOf_Loc_of_lt (NumRegs : Nat) (Alu32 : Bool) (i : Nat) (Arg : ISDArg)
    (h : i < NumRegs) :
    (locOf NumRegs Alu32 i Arg).Loc = ArgLoc.Reg (Register.R (i + 1))
      ∨ (locOf NumRegs Alu32 i Arg).Loc = ArgLoc.Reg (Register.W (i + 1)) := by
  simp only [locOf, h, if_true]
  split_ifs <;> simp

theorem mem_locsFrom (NumRegs : Nat) (Alu32 : Bool) :
    ∀ (Args : List ISDArg) (i : Nat) (VA : CCValAssign), VA ∈ locsFrom NumRegs Alu32 i Args →
      ∃ Arg ∈ Args, i ≤ VA.ValNo ∧ VA = locOf NumRegs Alu32 VA.ValNo Arg := by
  intro Args
  induction Args with
  | nil => intro i VA h; simp [locsFrom] at h
  | cons Arg rest ih =>
    intro i VA h
    simp only [locsFrom, List.mem_cons] at h
    rcases h with h | h
    · refine ⟨Arg, List.mem_cons_self _ _, ?_, ?_⟩
      · rw [h, locOf_ValNo]
      · rw [h, locOf_ValNo]
    · obtain ⟨A, hA, hle, heq⟩ := ih (i + 1) VA h
      exact ⟨A, List.mem_cons_of_mem _ hA, by omega, heq⟩

theorem locsFrom_ValNo (NumRegs : Nat) (Alu32 : Bool) :
    ∀ (Args : List ISDArg) (i : Nat),
      (locsFrom NumRegs Alu32 i Args).map CCValAssign.ValNo = List.range' i Args.length := by
  intro Args
  induction Args with
  | nil => intro i; simp [locsFrom]
  | cons Arg rest ih =>
    intro i
    simp [locsFrom, locOf_ValNo, ih, List.range'_succ]

theorem regCount_locsFrom (NumRegs : Nat) (Alu32 : Bool) :
    ∀ (Args : List ISDArg) (i : Nat),
      regCount (locsFrom NumRegs Alu32 i Args) = min Args.length (NumRegs - i) := by
  intro Args
  induction Args with
  | nil => intro i; simp [locsFrom, regCount]
  | cons Arg rest ih =>
    intro i
    have h := ih (i + 1)
    unfold regCount at h ⊢
    simp only [locsFrom, List.filter_cons, locOf_isRegLoc, List.length_cons]
    by_cases hlt : i < NumRegs
    · simp only [hlt, decide_True, if_true, List.length_cons, h]; omega
    · simp only [hlt, decide_False, Bool.false_eq_true, if_false, h]; omega

theorem memOffsets_locsFrom_ge (NumRegs : Nat) (Alu32 : Bool) :
    ∀ (Args : List ISDArg) (i : Nat), ∀ o ∈ memOffsets (locsFrom NumRegs Alu32 i Args),
      8 * (i - NumRegs) ≤ o := by
  intro Args i o ho
  simp only [memOffsets, List.mem_filterMap] at ho
  obtain ⟨VA, hVA, hmem⟩ := ho
  obtain ⟨Arg, -, hle, heq⟩ := mem_locsFrom NumRegs Alu32 Args i VA hVA
  by_cases hlt : VA.ValNo < NumRegs
  · rcases locOf_Loc_of_lt NumRegs Alu32 VA.ValNo Arg hlt with h | h <;>
      · rw [heq, h] at hmem
        simp at hmem
  · rw [heq, locOf_Loc_of_ge NumRegs Alu32 VA.ValNo Arg (by omega)] at hmem
    simp only [Option.some.injEq] at hmem
    omega

theorem memOffsets_locsFrom_pairwise (NumRegs : Nat) (Alu32 : Bool) :
    ∀ (Args : List ISDArg) (i : Nat),
      (memOffsets (locsFrom NumRegs Alu32 i Args)).Pairwise (fun a b => a ≤ b) := by
  intro Args
  induction Args with
  | nil => intro i; simp [locsFrom, memOffsets]
  | cons Arg rest ih =>
    intro i
    have hrest := ih (i + 1)
    have hge := memOffsets_locsFrom_ge NumRegs Alu32 rest (i + 1)
    by_cases hlt : i < NumRegs
    · have e : memOffsets (locsFrom NumRegs Alu32 i (Arg :: rest))
          = memOffsets (locsFrom NumRegs Alu32 (i + 1) rest) := by
        simp [locsFrom, memOffsets, locOf, hlt, List.filterMap_cons]
      rw [e]; exact hrest
    · have e : memOffsets (locsFrom NumRegs Alu32 i (Arg :: rest))
          = 8 * (i - NumRegs) :: memOffsets (locsFrom NumRegs Alu32 (i + 1) rest) := by
        simp [locsFrom, memOffsets, locOf, hlt, List.filterMap_cons]
      rw [e, List.pairwise_cons]
      exact ⟨fun o ho => le_trans (by omega) (hge o ho), hrest⟩

theorem assignedInOrder_locsFrom (NumRegs : Nat) (Alu32 : Bool) (Args : List ISDArg) :
    AssignedInOrder (min Args.length NumRegs) Args.length (locsFrom NumRegs Alu32 0 Args) := by
  refine ⟨by simpa using regCount_locsFrom NumRegs Alu32 Args 0, ?_, ?_, ?_,
    memOffsets_locsFrom_pairwise NumRegs Alu32 Args 0⟩
  · rw [locsFrom_ValNo, List.range_eq_range']
  · intro VA hVA
    obtain ⟨Arg, -, -, heq⟩ := mem_locsFrom NumRegs Alu32 Args 0 VA hVA
    have hlen : VA.ValNo < Args.length := by
      have hm : VA.ValNo ∈ (locsFrom NumRegs Alu32 0 Args).map CCValAssign.ValNo :=
        List.mem_map_of_mem _ hVA
      rw [locsFrom_ValNo] at hm
      simp at hm; omega
    rw [heq, locOf_isRegLoc, locOf_ValNo]
    simp; omega
  · intro VA hVA
    obtain ⟨Arg, -, -, heq⟩ := mem_locsFrom NumRegs Alu32 Args 0 VA hVA
    have hlen : VA.ValNo < Args.length := by
      have hm : VA.ValNo ∈ (locsFrom NumRegs Alu32 0 Args).map CCValAssign.ValNo :=
        List.mem_map_of_mem _ hVA
      rw [locsFrom_ValNo] at hm
      simp at hm; omega
    rw [heq, locOf_isMemLoc, locOf_ValNo]
    simp; omega

theorem LowerCall_CCInfo_eq (ST : Subtarget) (Outs : List ISDArg) :
    (LowerCall_CCInfo ST Outs).Locs
        = locsFrom (if ST.HasDynamicFrames = false ∧ 5 < Outs.length then 4 else 5)
            ST.HasAlu32 0 Outs
      ∧ (LowerCall_CCInfo ST Outs).StackSize
        = 8 * (Outs.length - (if ST.HasDynamicFrames = false ∧ 5 < Outs.length then 4 else 5)) := by
  unfold LowerCall_CCInfo AnalyzeCallOperands MaxArgs CC_SBF32 CC_SBF64 CC_SBF32_X CC_SBF64_X
  cases hd : ST.HasDynamicFrames <;> cases ha : ST.HasAlu32 <;>
    by_cases hn : 5 < Outs.length <;> simp [hn, analyze_CC_SBF]

theorem LowerFormalArguments_CCInfo_eq (ST : Subtarget) (Ins : List ISDArg) :
    (LowerFormalArguments_CCInfo ST Ins).Locs
      = locsFrom (if ST.HasDynamicFrames = false ∧ 5 < Ins.length then 4 else 5)
          ST.HasAlu32 0 Ins := by
  unfold LowerFormalArguments_CCInfo AnalyzeFormalArguments MaxArgs CC_SBF32 CC_SBF64
    CC_SBF32_X CC_SBF64_X
  cases hd : ST.HasDynamicFrames <;> cases ha : ST.HasAlu32 <;>
    by_cases hn : 5 < Ins.length <;> simp [hn, analyze_CC_SBF]

/-- C11 (as the claim states it, refuted): without dynamic frames, a call and a function
with six 64-bit arguments get four of them in registers, not `min 6 5 = 5`. -/
theorem regCount_fixedFrame_six_args :
    regCount (LowerCall_CCInfo ⟨false, false, false⟩
        (List.replicate 6 ⟨MVT.i64, ⟨false, false⟩⟩)).Locs = 4
      ∧ regCount (LowerFormalArguments_CCInfo ⟨false, false, false⟩
        (List.replicate 6 ⟨MVT.i64, ⟨false, false⟩⟩)).Locs = 4
      ∧ regCount (LowerCall_CCInfo ⟨false, false, false⟩
        (List.replicate 6 ⟨MVT.i64, ⟨false, false⟩⟩)).Locs ≠ min 6 5 := by
  decide

theorem argLocs_shape (ST : Subtarget) (Args : List ISDArg) :
    AssignedInOrder
        (if ST.HasDynamicFrames = false ∧ 5 < Args.length then 4 else min Args.length 5)
        Args.length (LowerCall_CCInfo ST Args).Locs
      ∧ AssignedInOrder
        (if ST.HasDynamicFrames = false ∧ 5 < Args.length then 4 else min Args.length 5)
        Args.length (LowerFormalArguments_CCInfo ST Args).Locs := by
  rw [(LowerCall_CCInfo_eq ST Args).1, LowerFormalArguments_CCInfo_eq]
  have h4 := assignedInOrder_locsFrom 4 ST.HasAlu32 Args
  have h5 := assignedInOrder_locsFrom 5 ST.HasAlu32 Args
  by_cases h : ST.HasDynamicFrames = false ∧ 5 < Args.length
  · have e : min Args.length 4 = 4 := by omega
    rw [e] at h4
    rw [if_pos h, if_pos h]
    exact ⟨h4, h4⟩
  · rw [if_neg h, if_neg h]
    exact ⟨h5, h5⟩

/-- C11 (amended): for every subtarget and every argument list of length `n`, the
assignment used by `LowerCall` and by `LowerFormalArguments` puts `min n 5` arguments
in registers, except without dynamic frames and with `n > 5`, where it puts 4 in
registers; the remaining arguments are stack-assigned in declaration order with offsets
that never decrease. -/
theorem argLocs_assignedInOrder (ST : Subtarget) (Args : List ISDArg) :
    AssignedInOrder
        (if ST.HasDynamicFrames = false ∧ 5 < Args.length then 4 else min Args.length 5)
        Args.length (LowerCall_CCInfo ST Args).Locs
      ∧ AssignedInOrder
        (if ST.HasDynamicFrames = false ∧ 5 < Args.length then 4 else min Args.length 5)
        Args.length (LowerFormalArguments_CCInfo ST Args).Locs :=
  argLocs_shape ST Args

/-! ## The chain built by `LowerCall` -/

theorem storeStackArgs_total (ST : Subtarget) :
    ∀ (Pairs : List (CCValAssign × SDValue)) (FI : Nat),
      (∀ p ∈ Pairs, p.1.isMemLoc = true) →
      ∃ Stores, storeStackArgs ST Pairs FI = some Stores
        ∧ storedValues Stores = Pairs.map Prod.snd
        ∧ (∀ N ∈ Stores, N.isStore = true) := by
  intro Pairs
  induction Pairs with
  | nil => intro FI _; exact ⟨[], rfl, rfl, by simp⟩
  | cons p rest ih =>
    intro FI h
    obtain ⟨VA, Arg⟩ := p
    have hVA : VA.isMemLoc = true := h (VA, Arg) (List.mem_cons_self _ _)
    obtain ⟨Stores, hS, hV, hAll⟩ := ih (FI + 1) (fun q hq => h q (List.mem_cons_of_mem _ hq))
    cases hLoc : VA.Loc with
    | Reg r => simp [CCValAssign.isMemLoc, hLoc] at hVA
    | Pending n => simp [CCValAssign.isMemLoc, hLoc] at hVA
    | Mem Off =>
      refine ⟨_, by simp only [storeStackArgs, hLoc, hS, Option.map_some']; rfl, ?_, ?_⟩
      · simp only [storedValues, List.filterMap_cons, List.map_cons] at hV ⊢
        rw [hV]
      · intro N hN
        simp only [List.mem_cons] at hN
        rcases hN with hN | hN
        · rw [hN]; rfl
        · exact hAll N hN

theorem walkArgs_split :
    ∀ (Regs : List CCValAssign) (RegVals : List SDValue) (Mems : List CCValAssign)
      (MemVals : List SDValue),
      Regs.length = RegVals.length → Mems.length ≤ MemVals.length →
      (∀ VA ∈ Regs, VA.isRegLoc = true ∧ VA.HTP ≠ LocInfo.BCvt) →
      (∀ VA ∈ Mems.head?, VA.isMemLoc = true ∧ VA.HTP ≠ LocInfo.BCvt) →
      ∃ W, walkArgs (Regs ++ Mems) (RegVals ++ MemVals) = some W
        ∧ W.i = Regs.length ∧ W.HasStackArgs = decide (Mems ≠ [])
        ∧ W.RegsToPass.length = Regs.length := by
  intro Regs
  induction Regs with
  | nil =>
    intro RegVals Mems MemVals hl hml _ hm
    cases RegVals with
    | cons v vs => simp at hl
    | nil =>
      cases Mems with
      | nil => exact ⟨⟨0, false, []⟩, by simp [walkArgs], rfl, by simp, rfl⟩
      | cons VA tl =>
        cases MemVals with
        | nil => simp at hml
        | cons v vs =>
          obtain ⟨hmem, hinfo⟩ := hm VA (by simp)
          have hp : ∃ Arg, promoteArg VA v = some Arg := by
            unfold promoteArg
            cases hH : VA.HTP <;> simp_all
          obtain ⟨Arg, hArg⟩ := hp
          cases hLoc : VA.Loc with
          | Reg r => simp [CCValAssign.isMemLoc, hLoc] at hmem
          | Pending n => simp [CCValAssign.isMemLoc, hLoc] at hmem
          | Mem Off =>
            exact ⟨⟨0, true, []⟩, by simp [walkArgs, hArg, hLoc], rfl, by simp, rfl⟩
  | cons VA rest ih =>
    intro RegVals Mems MemVals hl hml hr hm
    cases RegVals with
    | nil => simp at hl
    | cons v vs =>
      obtain ⟨hreg, hinfo⟩ := hr VA (List.mem_cons_self _ _)
      obtain ⟨W, hW, hi, hs, hlen⟩ := ih vs Mems MemVals (by simpa using hl) hml
        (fun x hx => hr x (List.mem_cons_of_mem _ hx)) hm
      have hp : ∃ Arg, promoteArg VA v = some Arg := by
        unfold promoteArg
        cases hH : VA.HTP <;> simp_all
      obtain ⟨Arg, hArg⟩ := hp
      cases hLoc : VA.Loc with
      | Mem Off => simp [CCValAssign.isRegLoc, hLoc] at hreg
      | Pending n => simp [CCValAssign.isRegLoc, hLoc] at hreg
      | Reg r =>
        refine ⟨⟨W.i + 1, W.HasStackArgs, (r, Arg) :: W.RegsToPass⟩, ?_, ?_, hs, ?_⟩
        · simp [walkArgs, hArg, hLoc, hW]
        · simp [hi]
        · simp [hlen]

theorem copyRegsToPass_glued :
    ∀ (Regs : List (Register × SDValue)) (InGlue : Bool),
      (copyRegsToPass Regs InGlue).length = Regs.length
        ∧ (∀ N ∈ copyRegsToPass Regs InGlue, N.isStore = false)
        ∧ ∀ N ∈ (copyRegsToPass Regs InGlue).tail, ∃ R V, N = ChainNode.CopyToReg R V true := by
  intro Regs
  induction Regs with
  | nil => intro _; simp [copyRegsToPass]
  | cons p rest ih =>
    intro InGlue
    obtain ⟨h1, h2, h3⟩ := ih true
    refine ⟨by simp [copyRegsToPass, h1], ?_, ?_⟩
    · intro N hN
      simp only [copyRegsToPass, List.mem_cons] at hN
      rcases hN with hN | hN
      · rw [hN]; rfl
      · exact h2 N hN
    · intro N hN
      simp only [copyRegsToPass, List.tail_cons] at hN
      cases rest with
      | nil => simp [copyRegsToPass] at hN
      | cons q tl =>
        simp only [copyRegsToPass, List.mem_cons] at hN
        rcases hN with hN | hN
        · exact ⟨_, _, hN⟩
        · exact h3 N (by simpa [copyRegsToPass] using hN)

/-- The chain of a call with stack arguments: `CALLSEQ_START`, the stores of the stack
arguments from the last one down, the copy of the frame pointer to `R5` when the
subtarget has no dynamic frames, the copies of the register arguments, the call and
`CALLSEQ_END`. -/
theorem LowerCall_chain_split (ST : Subtarget) (FramePtr : Register) (CLI : CallLoweringInfo)
    (ArgLocs : List CCValAssign) (NumBytes k : Nat)
    (hlen : ArgLocs.length = CLI.OutVals.length) (hk : k < ArgLocs.length)
    (hregs : ∀ VA ∈ ArgLocs.take k, VA.isRegLoc = true)
    (hmems : ∀ VA ∈ ArgLocs.drop k, VA.isMemLoc = true)
    (hinfo : ∀ VA ∈ ArgLocs.take (k + 1), VA.HTP ≠ LocInfo.BCvt) :
    ∃ Stores W, walkArgs ArgLocs CLI.OutVals = some W
      ∧ W.RegsToPass.length = k
      ∧ storedValues Stores = (CLI.OutVals.drop k).reverse
      ∧ (∀ N ∈ Stores, N.isStore = true)
      ∧ LowerCall_chain ST FramePtr CLI ArgLocs NumBytes
        = some ([ChainNode.CALLSEQ_START NumBytes] ++ Stores
            ++ (if ST.HasDynamicFrames then []
                else [ChainNode.CopyToReg (Register.R 5)
                        (SDValue.CopyFromReg FramePtr PtrVT) false])
            ++ copyRegsToPass W.RegsToPass (!ST.HasDynamicFrames)
            ++ [ChainNode.CALL (targetCallee CLI.Target)
                  (W.RegsToPass.map Prod.fst
                    ++ (if ST.HasDynamicFrames then [] else [Register.R 5]))
                  (!ST.HasDynamicFrames || decide (W.RegsToPass ≠ [])),
                ChainNode.CALLSEQ_END NumBytes]) := by
  have hsplitL : ArgLocs = ArgLocs.take k ++ ArgLocs.drop k := (List.take_append_drop k _).symm
  have hsplitV : CLI.OutVals = CLI.OutVals.take k ++ CLI.OutVals.drop k :=
    (List.take_append_drop k _).symm
  have hne : ArgLocs.drop k ≠ [] := by
    intro h
    have := congrArg List.length h
    simp at this; omega
  have hhead : ∀ VA ∈ (ArgLocs.drop k).head?, VA.isMemLoc = true ∧ VA.HTP ≠ LocInfo.BCvt := by
    intro VA hVA
    have hmemb : VA ∈ ArgLocs.drop k := List.mem_of_mem_head? hVA
    refine ⟨hmems VA hmemb, hinfo VA ?_⟩
    rw [List.head?_drop] at hVA
    rw [List.mem_iff_getElem?]
    exact ⟨k, by rw [List.getElem?_take_of_lt (by omega)]; exact hVA⟩
  obtain ⟨W, hW, hi, hs, hWlen⟩ := walkArgs_split (ArgLocs.take k) (CLI.OutVals.take k)
    (ArgLocs.drop k) (CLI.OutVals.drop k) (by simp; omega) (by simp; omega)
    (fun VA hVA => ⟨hregs VA hVA, hinfo VA (List.mem_of_mem_take (by
      have : ArgLocs.take k = (ArgLocs.take (k + 1)).take k := by
        rw [List.take_take]; congr 1; omega
      rw [this] at hVA; exact hVA))⟩) hhead
  rw [← hsplitL, ← hsplitV] at hW
  have hilen : W.i = k := by rw [hi]; simp; omega
  have hstack : W.HasStackArgs = true := by rw [hs]; simp [hne]
  have hpairs : ∀ p ∈ ((ArgLocs.zip CLI.OutVals).drop W.i).reverse, p.1.isMemLoc = true := by
    intro p hp
    rw [List.mem_reverse, hilen, List.zip_eq_zipWith, List.drop_zipWith,
      ← List.zip_eq_zipWith] at hp
    obtain ⟨a, b⟩ := p
    exact hmems a (List.of_mem_zip hp).1
  obtain ⟨Stores, hS, hV, hAll⟩ := storeStackArgs_total ST _ 0 hpairs
  refine ⟨Stores, W, hW, by rw [hWlen]; simp; omega, ?_, hAll, ?_⟩
  · rw [hV, List.map_reverse, hilen, List.zip_eq_zipWith, List.drop_zipWith,
      ← List.zip_eq_zipWith, List.map_snd_zip _ _ (by simp; omega)]
  · unfold LowerCall_chain
    simp only [hW, hstack, if_true, hlen, le_refl, hS, Bool.true_and]
    cases ST.HasDynamicFrames <;> simp

/-! ## `LowerFormalArguments` on the assigned locations -/

theorem locOf_LocVT (NumRegs : Nat) (Alu32 : Bool) (i : Nat) (Arg : ISDArg) :
    (locOf NumRegs Alu32 i Arg).LocVT = MVT.i32 ∨ (locOf NumRegs Alu32 i Arg).LocVT = MVT.i64 := by
  obtain ⟨VT, Flags⟩ := Arg
  cases Alu32 <;> cases VT <;> by_cases h : i < NumRegs <;> simp [locOf, h]

theorem lowerFormalArgLocs_step (ST : Subtarget) (NumRegs : Nat) (Alu32 : Bool) (i : Nat)
    (Arg : ISDArg) (rest : List CCValAssign) (Acc : FormalArguments) :
    ∃ Acc1, lowerFormalArgLocs ST (locOf NumRegs Alu32 i Arg :: rest) Acc
        = lowerFormalArgLocs ST rest Acc1
      ∧ ∃ V, Acc1.InVals = Acc.InVals ++ [V]
        ∧ (ST.HasDynamicFrames = false → NumRegs ≤ i →
            V = SDValue.Load (locOf NumRegs Alu32 i Arg).LocVT (locOf NumRegs Alu32 i Arg).LocVT
              (SDValue.Binary BinaryOp.SUB PtrVT (SDValue.CopyFromReg (Register.R 5) PtrVT)
                (SDValue.Constant
                  ((((FrameLength : Int) - ((8 * (i - NumRegs) : Nat) : Int)) % 2 ^ 32).toNat)
                  MVT.i64))) := by
  by_cases hlt : i < NumRegs
  · have hvt := locOf_LocVT NumRegs Alu32 i Arg
    rcases locOf_Loc_of_lt NumRegs Alu32 i Arg hlt with hL | hL
    · refine ⟨_, by simp only [lowerFormalArgLocs, hL, hvt, if_true]; rfl, _, rfl, ?_⟩
      intro _ hge; omega
    · refine ⟨_, by simp only [lowerFormalArgLocs, hL, hvt, if_true]; rfl, _, rfl, ?_⟩
      intro _ hge; omega
  · have hL := locOf_Loc_of_ge NumRegs Alu32 i Arg (by omega)
    cases hd : ST.HasDynamicFrames
    · refine ⟨_, by simp only [lowerFormalArgLocs, hL, hd]; rfl, _, rfl, ?_⟩
      intro _ _; rfl
    · refine ⟨_, by simp only [lowerFormalArgLocs, hL, hd]; rfl, _, rfl, ?_⟩
      intro h; simp at h

theorem lowerFormalArgLocs_locsFrom (ST : Subtarget) (NumRegs : Nat) (Alu32 : Bool) :
    ∀ (Args : List ISDArg) (i : Nat) (Acc : FormalArguments),
      ∃ FA, lowerFormalArgLocs ST (locsFrom NumRegs Alu32 i Args) Acc = some FA
        ∧ FA.InVals.length = Acc.InVals.length + Args.length
        ∧ (∀ j, j < Acc.InVals.length → FA.InVals[j]? = Acc.InVals[j]?)
        ∧ (ST.HasDynamicFrames = false → ∀ j, j < Args.length → NumRegs ≤ i + j →
            ∃ VT, FA.InVals[Acc.InVals.length + j]?
              = some (SDValue.Load VT VT
                  (SDValue.Binary BinaryOp.SUB PtrVT (SDValue.CopyFromReg (Register.R 5) PtrVT)
                    (SDValue.Constant
                      ((((FrameLength : Int) - ((8 * (i + j - NumRegs) : Nat) : Int))
                        % 2 ^ 32).toNat) MVT.i64)))) := by
  intro Args
  induction Args with
  | nil => intro i Acc; exact ⟨Acc, rfl, by simp, fun _ _ => rfl, fun _ j hj => by simp at hj⟩
  | cons Arg rest ih =>
    intro i Acc
    obtain ⟨Acc1, hstep, V, hV, hload⟩ :=
      lowerFormalArgLocs_step ST NumRegs Alu32 i Arg (locsFrom NumRegs Alu32 (i + 1) rest) Acc
    obtain ⟨FA, hFA, hlen, hpre, hmem⟩ := ih (i + 1) Acc1
    have hlen1 : Acc1.InVals.length = Acc.InVals.length + 1 := by rw [hV]; simp
    refine ⟨FA, by simp only [locsFrom]; rw [hstep, hFA], ?_, ?_, ?_⟩
    · rw [hlen, hlen1, List.length_cons]; omega
    · intro j hj
      rw [hpre j (by omega), hV, List.getElem?_append_left hj]
    · intro hd j hj hge
      cases j with
      | zero =>
        refine ⟨(locOf NumRegs Alu32 i Arg).LocVT, ?_⟩
        rw [Nat.add_zero, hpre _ (by omega), hV, List.getElem?_append_right (le_refl _)]
        simp only [Nat.sub_self, List.getElem?_cons_zero, Nat.add_zero]
        rw [hload hd (by omega)]
      | succ j =>
        obtain ⟨VT, hVT⟩ := hmem hd j (by simpa using hj) (by omega)
        refine ⟨VT, ?_⟩
        have e1 : Acc.InVals.length + (j + 1) = Acc1.InVals.length + j := by omega
        have e2 : i + (j + 1) - NumRegs = i + 1 + j - NumRegs := by omega
        rw [e1, e2, hVT]

theorem copyRegsToPass_true :
    ∀ (Regs : List (Register × SDValue)),
      ∀ N ∈ copyRegsToPass Regs true, ∃ R V, N = ChainNode.CopyToReg R V true := by
  intro Regs
  induction Regs with
  | nil => intro N hN; simp [copyRegsToPass] at hN
  | cons p rest ih =>
    intro N hN
    simp only [copyRegsToPass, List.mem_cons] at hN
    rcases hN with hN | hN
    · exact ⟨_, _, hN⟩
    · exact ih N hN

/-! ## The claims on calls, formal arguments and returns -/

/-- C12 (as the claim states it, refuted): without dynamic frames and with five
arguments, all five are assigned registers, the fifth one `R5`; `LowerFormalArguments`
reads it from `R5` itself and nothing is passed on the stack. -/
theorem fixedFrame_five_args_in_registers :
    (LowerCall_CCInfo fixedFrameST (List.replicate 5 argI64)).Locs.map CCValAssign.Loc
        = [ArgLoc.Reg (Register.R 1), ArgLoc.Reg (Register.R 2), ArgLoc.Reg (Register.R 3),
            ArgLoc.Reg (Register.R 4), ArgLoc.Reg (Register.R 5)]
      ∧ regCount (LowerFormalArguments_CCInfo fixedFrameST (List.replicate 5 argI64)).Locs = 5
      ∧ (LowerFormalArguments fixedFrameST CallingConv.C false
            (List.replicate 5 argI64)).Result.map FormalArguments.InVals
          = some [SDValue.CopyFromReg (Register.R 1) MVT.i64,
              SDValue.CopyFromReg (Register.R 2) MVT.i64,
              SDValue.CopyFromReg (Register.R 3) MVT.i64,
              SDValue.CopyFromReg (Register.R 4) MVT.i64,
              SDValue.CopyFromReg (Register.R 5) MVT.i64] := by
  decide

/-- C12 (amended): without dynamic frames, a call or function with at most five
arguments has all of them in registers; with more than five, exactly four are in
registers and every argument beyond the fourth is passed through the `R5` scratch
region: `LowerCall` stores it (last argument first) and then copies the frame pointer
to `R5`, and `LowerFormalArguments` loads it from an address computed from `R5`. -/
theorem fixedFrame_argument_passing (ST : Subtarget) (FramePtr : Register)
    (CLI : CallLoweringInfo) (NumBytes : Nat) (IsVarArg : Bool)
    (hfixed : ST.HasDynamicFrames = false) (hvals : CLI.OutVals.length = CLI.Outs.length) :
    (CLI.Outs.length ≤ 5 →
        AssignedInOrder CLI.Outs.length CLI.Outs.length (LowerCall_CCInfo ST CLI.Outs).Locs
          ∧ AssignedInOrder CLI.Outs.length CLI.Outs.length
              (LowerFormalArguments_CCInfo ST CLI.Outs).Locs)
      ∧ (5 < CLI.Outs.length →
        AssignedInOrder 4 CLI.Outs.length (LowerCall_CCInfo ST CLI.Outs).Locs
          ∧ AssignedInOrder 4 CLI.Outs.length (LowerFormalArguments_CCInfo ST CLI.Outs).Locs
          ∧ (∃ Stores Rest,
              LowerCall_chain ST FramePtr CLI (LowerCall_CCInfo ST CLI.Outs).Locs NumBytes
                = some (ChainNode.CALLSEQ_START NumBytes :: (Stores
                    ++ ChainNode.CopyToReg (Register.R 5)
                        (SDValue.CopyFromReg FramePtr PtrVT) false :: Rest))
              ∧ (∀ N ∈ Stores, N.isStore = true)
              ∧ storedValues Stores = (CLI.OutVals.drop 4).reverse)
          ∧ ∃ FA, (LowerFormalArguments ST CallingConv.C IsVarArg CLI.Outs).Result = some FA
              ∧ FA.InVals.length = CLI.Outs.length
              ∧ ∀ j, 4 ≤ j → j < CLI.Outs.length →
                  ∃ VT Off, FA.InVals[j]?
                    = some (SDValue.Load VT VT
                        (SDValue.Binary BinaryOp.SUB PtrVT
                          (SDValue.CopyFromReg (Register.R 5) PtrVT)
                          (SDValue.Constant Off MVT.i64)))) := by
  have hA := argLocs_shape ST CLI.Outs
  refine ⟨fun hn => ?_, fun hn => ?_⟩
  · have hc : ¬ (ST.HasDynamicFrames = false ∧ 5 < CLI.Outs.length) := by omega
    have e : min CLI.Outs.length 5 = CLI.Outs.length := by omega
    rw [if_neg hc, e] at hA
    exact hA
  · have hc : ST.HasDynamicFrames = false ∧ 5 < CLI.Outs.length := ⟨hfixed, hn⟩
    rw [if_pos hc] at hA
    refine ⟨hA.1, hA.2, ?_, ?_⟩
    · obtain ⟨hcnt, hno, hreg, hmem, -⟩ := hA.1
      have hLlen : (LowerCall_CCInfo ST CLI.Outs).Locs.length = CLI.Outs.length := by
        have := congrArg List.length hno
        simpa using this
      have hlocs := (LowerCall_CCInfo_eq ST CLI.Outs).1
      rw [if_pos hc] at hlocs
      have hValNo : ∀ j (VA : CCValAssign),
          (LowerCall_CCInfo ST CLI.Outs).Locs[j]? = some VA → VA.ValNo = j := by
        intro j VA hj
        have h1 : ((LowerCall_CCInfo ST CLI.Outs).Locs.map CCValAssign.ValNo)[j]?
            = some VA.ValNo := by
          rw [List.getElem?_map, hj]; rfl
        rw [hno] at h1
        have hjl : j < CLI.Outs.length := by
          have := (List.getElem?_eq_some_iff.mp hj).1
          omega
        rw [List.getElem?_range hjl] at h1
        exact (Option.some.inj h1).symm
      obtain ⟨Stores, W, -, -, hV, hAll, hchain⟩ := LowerCall_chain_split ST FramePtr CLI
        (LowerCall_CCInfo ST CLI.Outs).Locs NumBytes 4 (by omega) (by omega)
        (fun VA hVA => by
          obtain ⟨j, hj⟩ := List.mem_iff_getElem?.mp hVA
          have hj4 : j < 4 := by
            by_contra hcon
            rw [List.getElem?_take_eq_none (by omega)] at hj
            exact Option.noConfusion hj
          rw [List.getElem?_take_of_lt hj4] at hj
          have hv := hValNo j VA hj
          exact (hreg VA (List.mem_of_mem_take hVA)).mpr (by omega))
        (fun VA hVA => by
          obtain ⟨j, hj⟩ := List.mem_iff_getElem?.mp hVA
          rw [List.getElem?_drop] at hj
          have hv := hValNo _ VA hj
          exact (hmem VA (List.mem_of_mem_drop hVA)).mpr (by omega))
        (fun VA hVA => by
          have hVA2 := List.mem_of_mem_take hVA
          rw [hlocs] at hVA2
          obtain ⟨Arg, -, -, heq⟩ := mem_locsFrom 4 ST.HasAlu32 CLI.Outs 0 VA hVA2
          rw [heq]
          obtain ⟨VT, Flags⟩ := Arg
          unfold locOf promotedLocInfo
          simp only
          split_ifs <;> simp)
      rw [hfixed] at hchain
      refine ⟨Stores, copyRegsToPass W.RegsToPass true
        ++ [ChainNode.CALL (targetCallee CLI.Target)
              (List.map Prod.fst W.RegsToPass ++ [Register.R 5]) true,
            ChainNode.CALLSEQ_END NumBytes], ?_, hAll, hV⟩
      rw [hchain]
      simp
    · have hlocs := LowerFormalArguments_CCInfo_eq ST CLI.Outs
      rw [if_pos hc] at hlocs
      obtain ⟨FA, hFA, hlen, -, hld⟩ :=
        lowerFormalArgLocs_locsFrom ST 4 ST.HasAlu32 CLI.Outs 0 ⟨[], [], []⟩
      refine ⟨FA, ?_, by simpa using hlen, ?_⟩
      · simp only [LowerFormalArguments, hlocs, hFA]
      · intro j hj4 hjn
        obtain ⟨VT, hVT⟩ := hld hfixed j hjn (by omega)
        exact ⟨VT, _, by simpa using hVT⟩

/-- Witness for C12 (amended): a call with six 64-bit arguments on a subtarget without
dynamic frames. -/
theorem fixedFrame_argument_passing_witness :
    (fixedFrameST.HasDynamicFrames = false
        ∧ (callWithArgs 6).OutVals.length = (callWithArgs 6).Outs.length)
      ∧ AssignedInOrder 4 (callWithArgs 6).Outs.length
          (LowerCall_CCInfo fixedFrameST (callWithArgs 6).Outs).Locs :=
  ⟨by decide,
    ((fixedFrame_argument_passing fixedFrameST (Register.R 10) (callWithArgs 6) 16 false
      (by decide) (by decide)).2 (by decide)).1⟩

/-- C13: for every argument-location list whose first stack location is at index `k`
(registers before it, stack locations from it on, as `LowerCall` asserts), `LowerCall`
emits, right after `CALLSEQ_START`, one chained store per stack argument and no other
store; the values stored are, in chain order, the reverse of `OutVals` from index `k`
on, so the store of the last argument comes first. -/
theorem LowerCall_stores_reversed (ST : Subtarget) (FramePtr : Register)
    (CLI : CallLoweringInfo) (ArgLocs : List CCValAssign) (NumBytes k : Nat)
    (hlen : ArgLocs.length = CLI.OutVals.length) (hk : k < ArgLocs.length)
    (hregs : ∀ VA ∈ ArgLocs.take k, VA.isRegLoc = true)
    (hmems : ∀ VA ∈ ArgLocs.drop k, VA.isMemLoc = true)
    (hinfo : ∀ VA ∈ ArgLocs.take (k + 1), VA.HTP ≠ LocInfo.BCvt) :
    ∃ Stores Rest,
      LowerCall_chain ST FramePtr CLI ArgLocs NumBytes
          = some (ChainNode.CALLSEQ_START NumBytes :: (Stores ++ Rest))
        ∧ (∀ N ∈ Stores, N.isStore = true)
        ∧ (∀ N ∈ Rest, N.isStore = false)
        ∧ storedValues Stores = (CLI.OutVals.drop k).reverse := by
  obtain ⟨Stores, W, -, -, hV, hAll, hchain⟩ :=
    LowerCall_chain_split ST FramePtr CLI ArgLocs NumBytes k hlen hk hregs hmems hinfo
  refine ⟨Stores,
    (if ST.HasDynamicFrames = true then []
      else [ChainNode.CopyToReg (Register.R 5) (SDValue.CopyFromReg FramePtr PtrVT) false])
      ++ (copyRegsToPass W.RegsToPass (!ST.HasDynamicFrames)
      ++ [ChainNode.CALL (targetCallee CLI.Target)
            (List.map Prod.fst W.RegsToPass
              ++ if ST.HasDynamicFrames = true then [] else [Register.R 5])
            (!ST.HasDynamicFrames || decide (W.RegsToPass ≠ [])),
          ChainNode.CALLSEQ_END NumBytes]), ?_, hAll, ?_, hV⟩
  · rw [hchain]
    simp only [List.singleton_append, List.cons_append, List.append_assoc, List.nil_append]
  · intro N hN
    simp only [List.mem_append, List.mem_cons, List.mem_singleton, List.not_mem_nil,
      or_false] at hN
    rcases hN with hN | hN | hN | hN
    · cases hd : ST.HasDynamicFrames
      · rw [hd] at hN
        simp only [Bool.false_eq_true, if_false, List.mem_singleton] at hN
        rw [hN]; rfl
      · rw [hd] at hN
        simp at hN
    · exact (copyRegsToPass_glued _ _).2.1 N hN
    · rw [hN]; rfl
    · rw [hN]; rfl

/-- Witness for C13: six 64-bit arguments without dynamic frames; the first stack
location is at index 4. -/
theorem LowerCall_stores_reversed_witness :
    ((LowerCall_CCInfo fixedFrameST (callWithArgs 6).Outs).Locs.length
          = (callWithArgs 6).OutVals.length
        ∧ 4 < (LowerCall_CCInfo fixedFrameST (callWithArgs 6).Outs).Locs.length)
      ∧ ∃ Stores Rest,
        LowerCall_chain fixedFrameST (Register.R 10) (callWithArgs 6)
            (LowerCall_CCInfo fixedFrameST (callWithArgs 6).Outs).Locs 16
          = some (ChainNode.CALLSEQ_START 16 :: (Stores ++ Rest))
        ∧ (∀ N ∈ Stores, N.isStore = true)
        ∧ (∀ N ∈ Rest, N.isStore = false)
        ∧ storedValues Stores = ((callWithArgs 6).OutVals.drop 4).reverse :=
  ⟨by decide,
    LowerCall_stores_reversed fixedFrameST (Register.R 10) (callWithArgs 6)
      (LowerCall_CCInfo fixedFrameST (callWithArgs 6).Outs).Locs 16 4
      (by decide) (by decide) (by decide) (by decide) (by decide)⟩

/-- C14 (as the claim states it, refuted): in the chain of a call with six arguments
without dynamic frames, the copy of the frame pointer to `R5` is followed by the four
copies of the register arguments; they lie between it and the call node. -/
theorem LowerCall_chain_six_args :
    LowerCall_chain fixedFrameST (Register.R 10) (callWithArgs 6)
        (LowerCall_CCInfo fixedFrameST (callWithArgs 6).Outs).Locs 16
      = some [ChainNode.CALLSEQ_START 16,
          ChainNode.Store (SDValue.Leaf 5 MVT.i64) 0 8 8,
          ChainNode.Store (SDValue.Leaf 4 MVT.i64) 1 8 0,
          ChainNode.CopyToReg (Register.R 5) (SDValue.CopyFromReg (Register.R 10) MVT.i64) false,
          ChainNode.CopyToReg (Register.R 1) (SDValue.Leaf 0 MVT.i64) true,
          ChainNode.CopyToReg (Register.R 2) (SDValue.Leaf 1 MVT.i64) true,
          ChainNode.CopyToReg (Register.R 3) (SDValue.Leaf 2 MVT.i64) true,
          ChainNode.CopyToReg (Register.R 4) (SDValue.Leaf 3 MVT.i64) true,
          ChainNode.CALL (Callee.TargetGlobalAddress 0 0)
            [Register.R 1, Register.R 2, Register.R 3, Register.R 4, Register.R 5] true,
          ChainNode.CALLSEQ_END 16] := by
  decide

/-- C14 (amended): without dynamic frames, for every call whose first stack location is
at index `k`, the chain built by `LowerCall` is `CALLSEQ_START`, the stores of the stack
arguments, the copy of the caller's frame pointer to `R5`, the `k` copies of the register
arguments, each glued to the node before it, and then the call, which lists `R5` among
its register operands and takes the glue: the `R5` copy comes after the stores and
immediately before the register-argument copies, which lie between it and the call. -/
theorem LowerCall_frame_copy_position (ST : Subtarget) (FramePtr : Register)
    (CLI : CallLoweringInfo) (ArgLocs : List CCValAssign) (NumBytes k : Nat)
    (hfixed : ST.HasDynamicFrames = false)
    (hlen : ArgLocs.length = CLI.OutVals.length) (hk : k < ArgLocs.length)
    (hregs : ∀ VA ∈ ArgLocs.take k, VA.isRegLoc = true)
    (hmems : ∀ VA ∈ ArgLocs.drop k, VA.isMemLoc = true)
    (hinfo : ∀ VA ∈ ArgLocs.take (k + 1), VA.HTP ≠ LocInfo.BCvt) :
    ∃ Stores RegCopies Ops,
      LowerCall_chain ST FramePtr CLI ArgLocs NumBytes
          = some (ChainNode.CALLSEQ_START NumBytes :: (Stores
              ++ ChainNode.CopyToReg (Register.R 5) (SDValue.CopyFromReg FramePtr PtrVT) false
                :: (RegCopies
                    ++ [ChainNode.CALL (targetCallee CLI.Target) (Ops ++ [Register.R 5]) true,
                        ChainNode.CALLSEQ_END NumBytes])))
        ∧ (∀ N ∈ Stores, N.isStore = true)
        ∧ storedValues Stores = (CLI.OutVals.drop k).reverse
        ∧ RegCopies.length = k
        ∧ ∀ N ∈ RegCopies, ∃ R V, N = ChainNode.CopyToReg R V true := by
  obtain ⟨Stores, W, -, hWlen, hV, hAll, hchain⟩ :=
    LowerCall_chain_split ST FramePtr CLI ArgLocs NumBytes k hlen hk hregs hmems hinfo
  rw [hfixed] at hchain
  refine ⟨Stores, copyRegsToPass W.RegsToPass true, W.RegsToPass.map Prod.fst, ?_, hAll, hV,
    ?_, copyRegsToPass_true _⟩
  · rw [hchain]
    simp
  · rw [(copyRegsToPass_glued _ _).1, hWlen]

/-- Witness for C14 (amended): the call with six 64-bit arguments. -/
theorem LowerCall_frame_copy_position_witness :
    (fixedFrameST.HasDynamicFrames = false
        ∧ 4 < (LowerCall_CCInfo fixedFrameST (callWithArgs 6).Outs).Locs.length)
      ∧ ∃ Stores RegCopies Ops,
        LowerCall_chain fixedFrameST (Register.R 10) (callWithArgs 6)
            (LowerCall_CCInfo fixedFrameST (callWithArgs 6).Outs).Locs 16
          = some (ChainNode.CALLSEQ_START 16 :: (Stores
              ++ ChainNode.CopyToReg (Register.R 5)
                  (SDValue.CopyFromReg (Register.R 10) PtrVT) false
                :: (RegCopies
                    ++ [ChainNode.CALL (targetCallee (callWithArgs 6).Target)
                          (Ops ++ [Register.R 5]) true,
                        ChainNode.CALLSEQ_END 16])))
        ∧ (∀ N ∈ Stores, N.isStore = true)
        ∧ storedValues Stores = ((callWithArgs 6).OutVals.drop 4).reverse
        ∧ RegCopies.length = 4
        ∧ ∀ N ∈ RegCopies, ∃ R V, N = ChainNode.CopyToReg R V true :=
  ⟨by decide,
    LowerCall_frame_copy_position fixedFrameST (Register.R 10) (callWithArgs 6)
      (LowerCall_CCInfo fixedFrameST (callWithArgs 6).Outs).Locs 16 4
      (by decide) (by decide) (by decide) (by decide) (by decide) (by decide)⟩

/-- C15: for every subtarget and argument list, with calling convention `C` or `Fast`,
`LowerFormalArguments` reports "Functions with VarArgs are not supported" when the
function is variadic and reports nothing when it is not; in both cases it runs to its
end. -/
theorem LowerFormalArguments_varargs (ST : Subtarget) (IsVarArg : Bool) (Ins : List ISDArg) :
    (LowerFormalArguments ST CallingConv.C IsVarArg Ins).Diags
        = (if IsVarArg then [LoweringDiag.VarArgsNotSupported] else [])
      ∧ (LowerFormalArguments ST CallingConv.Fast IsVarArg Ins).Diags
        = (if IsVarArg then [LoweringDiag.VarArgsNotSupported] else [])
      ∧ (LowerFormalArguments ST CallingConv.C IsVarArg Ins).Result.isSome = true
      ∧ (LowerFormalArguments ST CallingConv.Fast IsVarArg Ins).Result.isSome = true := by
  have hlocs := LowerFormalArguments_CCInfo_eq ST Ins
  obtain ⟨FA, hFA, -⟩ := lowerFormalArgLocs_locsFrom ST
    (if ST.HasDynamicFrames = false ∧ 5 < Ins.length then 4 else 5) ST.HasAlu32 Ins 0
    ⟨[], [], []⟩
  simp only [LowerFormalArguments, hlocs, hFA, Option.isSome_some, and_self]

/-- C16: `LowerReturn` reports "Only a single return supported" exactly when it is given
more than one return value, and `LowerCallResult` exactly when the call yields more than
one result value. -/
theorem single_return_diag (T : RetTables) (ST : Subtarget) (Outs Ins : List ISDArg)
    (OutVals : List SDValue) :
    (LoweringDiag.OnlySingleReturn ∈ (LowerReturn T ST Outs OutVals).Diags ↔ 1 < Outs.length)
      ∧ (LoweringDiag.OnlySingleReturn ∈ (LowerCallResult T ST Ins).Diags ↔ 1 < Ins.length)
      ∧ (Outs.length ≤ 1 → (LowerReturn T ST Outs OutVals).Diags = [])
      ∧ (Ins.length ≤ 1 → (LowerCallResult T ST Ins).Diags = []) := by
  refine ⟨?_, ?_, ?_, ?_⟩
  · unfold LowerReturn
    by_cases h : Outs.length > 1
    · simp [h]
    · rw [if_neg h]
      cases (if ST.HasAlu32 then T.RetCC_SBF32 else T.RetCC_SBF64) Outs <;> simp <;> omega
  · unfold LowerCallResult
    by_cases h : Ins.length > 1
    · simp [h]
    · rw [if_neg h]
      cases (if ST.HasAlu32 then T.RetCC_SBF32 else T.RetCC_SBF64) Ins <;> simp <;> omega
  · intro h
    unfold LowerReturn
    rw [if_neg (by omega)]
    cases (if ST.HasAlu32 then T.RetCC_SBF32 else T.RetCC_SBF64) Outs <;> rfl
  · intro h
    unfold LowerCallResult
    rw [if_neg (by omega)]
    cases (if ST.HasAlu32 then T.RetCC_SBF32 else T.RetCC_SBF64) Ins <;> rfl

/-! ## Atomic read-modify-write -/

theorem two_pow_bits_pos (VT : MVT) : 0 < 2 ^ VT.getFixedSizeInBits := by
  positivity

theorem toNat_emod_lt (x : Int) (w : Nat) : (x % 2 ^ w).toNat < 2 ^ w := by
  have hp : (0 : Int) < 2 ^ w := by positivity
  have h1 := Int.emod_lt_of_pos x hp
  have h2 := Int.emod_nonneg x (ne_of_gt hp)
  have h3 : ((2 ^ w : Nat) : Int) = 2 ^ w := by push_cast; rfl
  omega

theorem eval_lt (atom : SDValue → Nat) (V : SDValue) :
    V.eval atom < 2 ^ V.getValueType.getFixedSizeInBits := by
  cases V with
  | Leaf Id VT => exact Nat.mod_lt _ (two_pow_bits_pos VT)
  | Constant Val VT => exact Nat.mod_lt _ (two_pow_bits_pos VT)
  | CopyFromReg Reg VT => exact Nat.mod_lt _ (two_pow_bits_pos VT)
  | FrameIndex FI VT => exact Nat.mod_lt _ (two_pow_bits_pos VT)
  | Load VT MemVT Ptr => exact Nat.mod_lt _ (two_pow_bits_pos VT)
  | Unary Opc VT Op =>
    have h := two_pow_bits_pos VT
    show _ < 2 ^ VT.getFixedSizeInBits
    cases Opc <;> simp only [SDValue.eval] <;>
      first
        | exact Nat.mod_lt _ h
        | exact toNat_emod_lt _ _
  | Binary Opc VT A B =>
    have h := two_pow_bits_pos VT
    show _ < 2 ^ VT.getFixedSizeInBits
    cases Opc <;> simp only [SDValue.eval] <;>
      first
        | exact Nat.mod_lt _ h
        | exact toNat_emod_lt _ _
        | (split_ifs <;> exact Nat.mod_lt _ h)
  | SELECT_CC VT LHS RHS T F CC =>
    show _ < 2 ^ VT.getFixedSizeInBits
    simp only [SDValue.eval]
    split_ifs <;> exact Nat.mod_lt _ (two_pow_bits_pos VT)

theorem matchRetVT_getValueType (RetVT : MVT) (V : SDValue) :
    (matchRetVT RetVT V).getValueType = RetVT := by
  unfold matchRetVT
  split_ifs with h1 h2
  · rfl
  · rfl
  · exact not_not.mp h1

theorem xor_allOnes (w x : Nat) (h : x < 2 ^ w) : x ^^^ (2 ^ w - 1) = 2 ^ w - 1 - x := by
  apply Nat.eq_of_testBit_eq
  intro i
  have e : 2 ^ w - 1 - x = 2 ^ w - (x + 1) := by omega
  rw [e, Nat.testBit_two_pow_sub_succ h, Nat.testBit_xor, Nat.testBit_two_pow_sub_one]
  by_cases hi : i < w
  · simp [hi]
  · have hx : x.testBit i = false :=
      Nat.testBit_lt_two_pow (lt_of_lt_of_le h (Nat.pow_le_pow_right (by decide) (by omega)))
    simp [hi, hx]

/-! ## Atomic read-modify-write: the claims -/

theorem getValueType_Load (VT MemVT : MVT) (P : SDValue) :
    (SDValue.Load VT MemVT P).getValueType = VT := rfl

theorem getValueType_Constant (c : Nat) (VT : MVT) :
    (SDValue.Constant c VT).getValueType = VT := rfl

theorem getValueType_Binary (Opc : BinaryOp) (VT : MVT) (A B : SDValue) :
    (SDValue.Binary Opc VT A B).getValueType = VT := rfl

theorem getValueType_Unary (Opc : UnaryOp) (VT : MVT) (A : SDValue) :
    (SDValue.Unary Opc VT A).getValueType = VT := rfl

theorem one_lt_two_pow_bits (VT : MVT) : 1 < 2 ^ VT.getFixedSizeInBits := by
  cases VT <;> simp [MVT.getFixedSizeInBits]

/-- C18: for every atomic node, `LowerATOMICRMW` lowers exactly the thirteen handled
opcodes; it returns the loaded value and stores back, through a truncating store to the
same pointer and memory type, a term whose value is the one the specification gives:
swap `V`, add `L + V`, sub `L - V`, and `L & V`, nand `~(L & V)`, or `L | V`, xor
`L ^ V`, the signed or unsigned minimum or maximum, and for the compare-and-swap forms
`V` when `L` equals the expected value and `L` otherwise, all modulo `2 ^ width`. -/
theorem LowerATOMICRMW_new_value (AN : AtomicSDNode) (atom : SDValue → Nat) :
    (LowerATOMICRMW AN).map (fun r => (r.Ret, r.NewVal.eval atom, r.Ptr, r.MemVT))
      = (rmwNewValue AN.Opcode AN.ValueType0.getFixedSizeInBits
          ((SDValue.Load AN.ValueType0 AN.MemoryVT AN.BasePtr).eval atom)
          ((matchRetVT AN.ValueType0
            (if AN.isCompareAndSwap then AN.Operand3 else AN.Operand2)).eval atom)
          ((matchRetVT AN.ValueType0 AN.Operand2).eval atom)).map
        (fun v => (SDValue.Load AN.ValueType0 AN.MemoryVT AN.BasePtr, v, AN.BasePtr,
          AN.MemoryVT)) := by
  obtain ⟨Opc, Ptr, MemVT, RetVT, FlagVT, O2, O3⟩ := AN
  have hT := matchRetVT_getValueType RetVT
  have hV : ∀ X, (matchRetVT RetVT X).eval atom < 2 ^ RetVT.getFixedSizeInBits := by
    intro X
    have h := eval_lt atom (matchRetVT RetVT X)
    rwa [hT] at h
  have hV2 := hV O2
  have hV3 := hV O3
  have hL : atom (SDValue.Load RetVT MemVT Ptr) % 2 ^ RetVT.getFixedSizeInBits
      < 2 ^ RetVT.getFixedSizeInBits := Nat.mod_lt _ (two_pow_bits_pos RetVT)
  cases Opc
  all_goals simp only [LowerATOMICRMW, rmwNewValue, AtomicSDNode.isCompareAndSwap, hT,
    Option.map_some', Option.map_none', getSelectCC, getNOT]
  all_goals try simp only [SDValue.eval, evalCC, getValueType_Load, getValueType_Constant,
    getValueType_Binary, hT]
  all_goals try simp only [reduceCtorEq, decide_False, decide_True, Bool.or_false,
    Bool.or_true, Bool.or_self, Bool.false_eq_true, if_false, if_true, decide_eq_true_eq]
  all_goals generalize atom (SDValue.Load RetVT MemVT Ptr) % 2 ^ RetVT.getFixedSizeInBits = L
    at hL ⊢
  all_goals generalize (matchRetVT RetVT O2).eval atom = V2 at hV2 ⊢
  all_goals generalize (matchRetVT RetVT O3).eval atom = V3 at hV3 ⊢
  all_goals try rw [Nat.mod_eq_of_lt hL]
  all_goals try rw [Nat.mod_eq_of_lt hV2]
  all_goals try rw [Nat.mod_eq_of_lt hV3]
  -- and, nand, or, xor, min, max
  case ATOMIC_LOAD_AND => rw [Nat.mod_eq_of_lt (Nat.and_lt_two_pow L hV2)]
  case ATOMIC_LOAD_NAND =>
    have h1 := Nat.and_lt_two_pow L hV2
    have h2 : 2 ^ RetVT.getFixedSizeInBits - 1 < 2 ^ RetVT.getFixedSizeInBits := by omega
    rw [Nat.mod_eq_of_lt h1, Nat.mod_eq_of_lt h2, xor_allOnes _ _ h1,
      Nat.mod_eq_of_lt (by omega)]
  case ATOMIC_LOAD_OR => rw [Nat.mod_eq_of_lt (Nat.or_lt_two_pow hL hV2)]
  case ATOMIC_LOAD_XOR => rw [Nat.mod_eq_of_lt (Nat.xor_lt_two_pow hL hV2)]
  case ATOMIC_LOAD_UMIN => rw [Nat.min_def]
  case ATOMIC_LOAD_UMAX => rw [Nat.max_def]
  case ATOMIC_LOAD_MAX =>
    have hinj : toSigned RetVT.getFixedSizeInBits L = toSigned RetVT.getFixedSizeInBits V2 →
        L = V2 := by
      cases RetVT <;> simp only [MVT.getFixedSizeInBits, toSigned] at hL hV2 ⊢ <;>
        intro h <;> split_ifs at h <;> omega
    by_cases h1 : toSigned RetVT.getFixedSizeInBits L ≤ toSigned RetVT.getFixedSizeInBits V2
    · by_cases h2 : toSigned RetVT.getFixedSizeInBits V2 ≤ toSigned RetVT.getFixedSizeInBits L
      · rw [if_pos h1, if_pos h2, hinj (le_antisymm h1 h2)]
      · rw [if_pos h1, if_neg h2]
    · rw [if_neg h1, if_pos (by omega)]

/-- C17: for `ATOMIC_CMP_SWAP_WITH_SUCCESS`, with `L` the value of the load, `C` the
(width-adjusted) expected value and `V` the (width-adjusted) new value: the lowering
returns the load, and when `L = C` the value stored back is `V` and the success flag is
1 (true), otherwise the value stored back is `L` and the success flag is 0 (false). -/
theorem LowerATOMICRMW_cmp_swap_with_success (Ptr Cmp Val : SDValue)
    (MemVT RetVT FlagVT : MVT) (atom : SDValue → Nat) :
    ∃ r Flag,
      LowerATOMICRMW ⟨AtomicOpcode.ATOMIC_CMP_SWAP_WITH_SUCCESS, Ptr, MemVT, RetVT, FlagVT,
          Cmp, Val⟩ = some r
        ∧ r.RetFlag = some Flag
        ∧ r.Ret = SDValue.Load RetVT MemVT Ptr
        ∧ r.Ptr = Ptr ∧ r.MemVT = MemVT
        ∧ ((SDValue.Load RetVT MemVT Ptr).eval atom = (matchRetVT RetVT Cmp).eval atom →
            r.NewVal.eval atom = (matchRetVT RetVT Val).eval atom ∧ Flag.eval atom = 1)
        ∧ ((SDValue.Load RetVT MemVT Ptr).eval atom ≠ (matchRetVT RetVT Cmp).eval atom →
            r.NewVal.eval atom = (SDValue.Load RetVT MemVT Ptr).eval atom
              ∧ Flag.eval atom = 0) := by
  have hT := matchRetVT_getValueType RetVT
  have hV : (matchRetVT RetVT Val).eval atom < 2 ^ RetVT.getFixedSizeInBits := by
    have h := eval_lt atom (matchRetVT RetVT Val)
    rwa [hT] at h
  have hL : (SDValue.Load RetVT MemVT Ptr).eval atom < 2 ^ RetVT.getFixedSizeInBits :=
    eval_lt atom (SDValue.Load RetVT MemVT Ptr)
  have h1 := one_lt_two_pow_bits FlagVT
  refine ⟨_, _, rfl, rfl, rfl, rfl, rfl, ?_, ?_⟩
  · intro h
    simp only [AtomicSDNode.isCompareAndSwap, getSelectCC, getBoolConstant, hT]
    simp only [SDValue.eval, evalCC, getValueType_Load, getValueType_Constant] at h ⊢
    simp only [h, decide_True, if_true, reduceCtorEq, decide_False, Bool.or_true,
      Bool.false_or]
    exact ⟨Nat.mod_eq_of_lt hV, by rw [Nat.mod_eq_of_lt h1, Nat.mod_eq_of_lt h1]⟩
  · intro h
    simp only [AtomicSDNode.isCompareAndSwap, getSelectCC, getBoolConstant, hT]
    simp only [SDValue.eval, evalCC, getValueType_Load, getValueType_Constant] at h hL ⊢
    simp only [h, decide_False, Bool.false_eq_true, if_false, reduceCtorEq, Bool.or_true,
      Bool.false_or, decide_True]
    exact ⟨Nat.mod_eq_of_lt hL, by simp⟩

/-! ## Conditional branch and select -/

theorem NegateCC_eq (LHS RHS : SDValue) (CC : CondCode) :
    NegateCC LHS RHS CC
      = if isLessThanCode CC then (RHS, LHS, mirroredCode CC) else (LHS, RHS, CC) := by
  cases CC <;> rfl

theorem isSignedCode_mirroredCode (CC : CondCode) :
    isSignedCode (mirroredCode CC) = isSignedCode CC := by
  cases CC <;> rfl

theorem isLessThanCode_mirroredCode (CC : CondCode) :
    isLessThanCode (mirroredCode CC) = false := by
  cases CC <;> rfl

theorem mirroredCode_of_not_lessThan (CC : CondCode) (h : isLessThanCode CC = false) :
    mirroredCode CC = CC := by
  cases CC <;> first | rfl | simp [isLessThanCode] at h

theorem LowerBR_CC_of (ST : Subtarget) (CC : CondCode) (LHS RHS : SDValue) (Dest : Nat)
    (Op : BR_CC_Node)
    (hN : (if !ST.HasJmpExt then NegateCC Op.LHS Op.RHS Op.CC else (Op.LHS, Op.RHS, Op.CC))
      = (LHS, RHS, CC)) (hD : Op.Dest = Dest) :
    LowerBR_CC ST Op
      = ⟨CC, widen (specWidening ST.HasAlu32 CC LHS RHS) LHS,
          widen (specWidening ST.HasAlu32 CC LHS RHS) RHS, Dest⟩ := by
  unfold LowerBR_CC
  rw [hN, hD]
  simp only
  unfold specWidening isSignedCode
  cases ST.HasAlu32
  · simp [widen]
  · by_cases h32 : LHS.getValueType = MVT.i32 ∨ RHS.getValueType = MVT.i32
    · have hb : (decide (LHS.getValueType = MVT.i32) || decide (RHS.getValueType = MVT.i32))
          = true := by simpa using h32
      simp only [Bool.true_and, hb, if_true, true_and, h32]
      by_cases hc : isIntOrFPConstant RHS = true ∨ isIntOrFPConstant LHS = true
      · have hb2 : (isIntOrFPConstant RHS || isIntOrFPConstant LHS) = true := by simpa using hc
        have hc2 : isIntOrFPConstant LHS = true ∨ isIntOrFPConstant RHS = true ∨
            (decide (CC = CondCode.SETGT) || decide (CC = CondCode.SETGE)
              || decide (CC = CondCode.SETLT) || decide (CC = CondCode.SETLE)) = true := by
          tauto
        rw [if_pos hb2, if_pos hc2]
        rfl
      · have hb2 : (isIntOrFPConstant RHS || isIntOrFPConstant LHS) = false := by
          simpa using hc
        rw [hb2]
        simp only [Bool.false_eq_true, if_false]
        by_cases hs : (decide (CC = CondCode.SETGT) || decide (CC = CondCode.SETGE)
              || decide (CC = CondCode.SETLT) || decide (CC = CondCode.SETLE)) = true
        · rw [if_pos hs, if_pos (Or.inr (Or.inr hs))]
          rfl
        · have hn : ¬ (isIntOrFPConstant LHS = true ∨ isIntOrFPConstant RHS = true ∨
            (decide (CC = CondCode.SETGT) || decide (CC = CondCode.SETGE)
              || decide (CC = CondCode.SETLT) || decide (CC = CondCode.SETLE)) = true) := by
            tauto
          rw [if_neg hs, if_neg hn]
          rfl
    · have hb : (decide (LHS.getValueType = MVT.i32) || decide (RHS.getValueType = MVT.i32))
          = false := by simpa using h32
      simp only [Bool.true_and, hb, Bool.false_eq_true, if_false, h32, and_false]
      rfl

theorem specWidening_swap (Alu32 : Bool) (CC : CondCode) (LHS RHS : SDValue) :
    specWidening Alu32 (mirroredCode CC) RHS LHS = specWidening Alu32 CC LHS RHS := by
  unfold specWidening
  rw [isSignedCode_mirroredCode]
  by_cases h1 : Alu32 = true ∧ (LHS.getValueType = MVT.i32 ∨ RHS.getValueType = MVT.i32)
  · have h2 : Alu32 = true ∧ (RHS.getValueType = MVT.i32 ∨ LHS.getValueType = MVT.i32) := by
      tauto
    rw [if_pos h1, if_pos h2]
    by_cases h3 : isIntOrFPConstant LHS = true ∨ isIntOrFPConstant RHS = true
        ∨ isSignedCode CC = true
    · rw [if_pos h3, if_pos (by tauto)]
    · rw [if_neg h3, if_neg (by tauto)]
  · have h2 : ¬ (Alu32 = true ∧ (RHS.getValueType = MVT.i32 ∨ LHS.getValueType = MVT.i32)) := by
      tauto
    rw [if_neg h1, if_neg h2]

theorem LowerBR_CC_eq (ST : Subtarget) (Op : BR_CC_Node) :
    LowerBR_CC ST Op
      = if (!ST.HasJmpExt && isLessThanCode Op.CC) = true then
          ⟨mirroredCode Op.CC, widen (specWidening ST.HasAlu32 Op.CC Op.LHS Op.RHS) Op.RHS,
            widen (specWidening ST.HasAlu32 Op.CC Op.LHS Op.RHS) Op.LHS, Op.Dest⟩
        else
          ⟨Op.CC, widen (specWidening ST.HasAlu32 Op.CC Op.LHS Op.RHS) Op.LHS,
            widen (specWidening ST.HasAlu32 Op.CC Op.LHS Op.RHS) Op.RHS, Op.Dest⟩ := by
  cases hJ : ST.HasJmpExt
  · cases hlt : isLessThanCode Op.CC
    · simp only [Bool.not_false, Bool.true_and, Bool.false_eq_true, if_false]
      exact LowerBR_CC_of ST Op.CC Op.LHS Op.RHS Op.Dest Op
        (by rw [hJ, NegateCC_eq, hlt]; rfl) rfl
    · simp only [Bool.not_false, Bool.true_and, if_true]
      rw [LowerBR_CC_of ST (mirroredCode Op.CC) Op.RHS Op.LHS Op.Dest Op
        (by rw [hJ, NegateCC_eq, hlt]; rfl) rfl, specWidening_swap]
  · simp only [Bool.not_true, Bool.false_and, Bool.false_eq_true, if_false]
    exact LowerBR_CC_of ST Op.CC Op.LHS Op.RHS Op.Dest Op (by rw [hJ]; rfl) rfl

theorem LowerSELECT_CC_eq (ST : Subtarget) (Op : SELECT_CC_Node) :
    LowerSELECT_CC ST Op
      = if (!ST.HasJmpExt && isLessThanCode Op.CC) = true then
          ⟨Op.RHS, Op.LHS, Op.TrueV, Op.FalseV, mirroredCode Op.CC, Op.RHS.getValueType⟩
        else ⟨Op.LHS, Op.RHS, Op.TrueV, Op.FalseV, Op.CC, Op.LHS.getValueType⟩ := by
  unfold LowerSELECT_CC
  cases hJ : ST.HasJmpExt
  · cases hlt : isLessThanCode Op.CC <;> simp [NegateCC_eq, hlt]
  · simp

/-- C19: when the subtarget lacks the extended jump opcodes, `LowerBR_CC` and
`LowerSELECT_CC` emit the mirrored condition code (`SETLT` to `SETGT`, `SETLE` to
`SETGE`, `SETULT` to `SETUGT`, `SETULE` to `SETUGE`, every other code kept), with the two
compared operands swapped exactly for the four less-than codes, so the emitted node never
carries a less-than code; with the extended jump opcodes the code and the operand order
are kept.  In `LowerBR_CC` both operands pass through one common widening. -/
theorem NegateCC_in_lowering (ST : Subtarget) (Op : BR_CC_Node) (SOp : SELECT_CC_Node) :
    (ST.HasJmpExt = false →
        (LowerBR_CC ST Op).CC = mirroredCode Op.CC
          ∧ (LowerSELECT_CC ST SOp).CC = mirroredCode SOp.CC
          ∧ isLessThanCode (LowerBR_CC ST Op).CC = false
          ∧ isLessThanCode (LowerSELECT_CC ST SOp).CC = false
          ∧ (∃ w, (LowerBR_CC ST Op).LHS
                = widen w (if isLessThanCode Op.CC = true then Op.RHS else Op.LHS)
              ∧ (LowerBR_CC ST Op).RHS
                = widen w (if isLessThanCode Op.CC = true then Op.LHS else Op.RHS))
          ∧ (LowerSELECT_CC ST SOp).LHS
              = (if isLessThanCode SOp.CC = true then SOp.RHS else SOp.LHS)
          ∧ (LowerSELECT_CC ST SOp).RHS
              = (if isLessThanCode SOp.CC = true then SOp.LHS else SOp.RHS))
      ∧ (ST.HasJmpExt = true →
        (LowerBR_CC ST Op).CC = Op.CC
          ∧ (LowerSELECT_CC ST SOp).CC = SOp.CC
          ∧ (∃ w, (LowerBR_CC ST Op).LHS = widen w Op.LHS
              ∧ (LowerBR_CC ST Op).RHS = widen w Op.RHS)
          ∧ (LowerSELECT_CC ST SOp).LHS = SOp.LHS
          ∧ (LowerSELECT_CC ST SOp).RHS = SOp.RHS)
      ∧ (LowerBR_CC ST Op).Dest = Op.Dest
      ∧ (LowerSELECT_CC ST SOp).TrueV = SOp.TrueV
      ∧ (LowerSELECT_CC ST SOp).FalseV = SOp.FalseV := by
  rw [LowerBR_CC_eq, LowerSELECT_CC_eq]
  refine ⟨fun hJ => ?_, fun hJ => ?_, ?_, ?_, ?_⟩
  · rw [hJ]
    simp only [Bool.not_false, Bool.true_and]
    refine ⟨?_, ?_, ?_, ?_, ⟨specWidening ST.HasAlu32 Op.CC Op.LHS Op.RHS, ?_, ?_⟩, ?_, ?_⟩
    · cases h : isLessThanCode Op.CC <;> simp [mirroredCode_of_not_lessThan, h]
    · cases h : isLessThanCode SOp.CC <;> simp [mirroredCode_of_not_lessThan, h]
    · cases h : isLessThanCode Op.CC <;> simp [isLessThanCode_mirroredCode, h]
    · cases h : isLessThanCode SOp.CC <;> simp [isLessThanCode_mirroredCode, h]
    · cases h : isLessThanCode Op.CC <;> simp
    · cases h : isLessThanCode Op.CC <;> simp
    · cases h : isLessThanCode SOp.CC <;> simp
    · cases h : isLessThanCode SOp.CC <;> simp
  · rw [hJ]
    rw [if_neg (by simp), if_neg (by simp)]
    exact ⟨rfl, rfl, ⟨_, rfl, rfl⟩, rfl, rfl⟩
  · split_ifs <;> rfl
  · split_ifs <;> rfl
  · split_ifs <;> rfl

/-- C20: in `LowerBR_CC` both compared operands receive the same widening, the one the
specification prescribes from the original operands and condition code: none when ALU32 is
disabled or neither operand is 32-bit; otherwise sign extension to 64 bits when either
operand is a constant or the comparison is signed (`SETGT`, `SETGE`, `SETLT`, `SETLE`),
and zero extension to 64 bits in the remaining cases. -/
theorem LowerBR_CC_widening (ST : Subtarget) (Op : BR_CC_Node) :
    (LowerBR_CC ST Op).LHS
        = widen (specWidening ST.HasAlu32 Op.CC Op.LHS Op.RHS)
            (if (!ST.HasJmpExt && isLessThanCode Op.CC) = true then Op.RHS else Op.LHS)
      ∧ (LowerBR_CC ST Op).RHS
        = widen (specWidening ST.HasAlu32 Op.CC Op.LHS Op.RHS)
            (if (!ST.HasJmpExt && isLessThanCode Op.CC) = true then Op.LHS else Op.RHS) := by
  rw [LowerBR_CC_eq]
  split_ifs <;> exact ⟨rfl, rfl⟩

/-! ## Constructor settings, constraints, the checking pass -/

/-- C23 (as the claim states it, refuted): with the option at its default and 128 common
stores, the constructor leaves the generic store limits at 128, not 0. -/
theorem memLimits_default_not_zero :
    SBFExpandMemcpyInOrder_default = false
      ∧ SBFTargetLowering_memLimits SBFExpandMemcpyInOrder_default 128 ⟨8, 4, 8, 4, 8, 4, 8, 4⟩
        = ⟨128, 128, 128, 128, 128, 128, 128, 128⟩
      ∧ (SBFTargetLowering_memLimits SBFExpandMemcpyInOrder_default 128
          ⟨8, 4, 8, 4, 8, 4, 8, 4⟩).MaxStoresPerMemcpy ≠ 0 := by
  decide

/-- C23 (amended): with the option at its default (false) the constructor sets the six
generic store limits and the two compare-load limits to the common store count, so the
generic load/store expansion stays enabled; only with the option set are the six store
limits and `MaxLoadsPerMemcmp` set to 0 (and `MaxLoadsPerMemcmpOptSize` left as it
was). -/
theorem memLimits_by_option (CommonMaxStores : Nat) (Base : MemOpLimits) :
    SBFTargetLowering_memLimits SBFExpandMemcpyInOrder_default CommonMaxStores Base
        = ⟨CommonMaxStores, CommonMaxStores, CommonMaxStores, CommonMaxStores,
            CommonMaxStores, CommonMaxStores, CommonMaxStores, CommonMaxStores⟩
      ∧ SBFTargetLowering_memLimits true CommonMaxStores Base
        = ⟨0, 0, 0, 0, 0, 0, 0, Base.MaxLoadsPerMemcmpOptSize⟩ := by
  exact ⟨rfl, rfl⟩

/-- C24 (the code at the failing input): in `xaddResultUsed` the register defined by an
`XADD64` is read by the next instruction, yet the pass signals no error; for every
function it returns `false`, signals nothing and leaves the function as it is. -/
theorem runOnMachineFunction_signals_nothing :
    hasUsedXaddResult xaddResultUsed = true
      ∧ (runOnMachineFunction false xaddResultUsed).Errors = []
      ∧ ∀ (Skip : Bool) (MF : MachineFunction), runOnMachineFunction Skip MF = ⟨false, [], MF⟩ := by
  refine ⟨by decide, rfl, fun Skip MF => ?_⟩
  cases Skip <;> rfl

/-- C25: `getRegForInlineAsmConstraint` maps `r` to the class `GPR` for every ALU32
setting and `w` to `GPR32` when ALU32 is enabled; with ALU32 disabled it hands `w` to the
generic handler and returns `GPR32` for no constraint at all; `getConstraintType`
classifies `w` as a register class. -/
theorem getRegForInlineAsmConstraint_spec (HasAlu32 : Bool) :
    getRegForInlineAsmConstraint HasAlu32 ['r'] = ConstraintResult.Pair 0 RegClass.GPR
      ∧ getRegForInlineAsmConstraint true ['w'] = ConstraintResult.Pair 0 RegClass.GPR32
      ∧ getRegForInlineAsmConstraint false ['w'] = ConstraintResult.Generic
      ∧ (∀ (Constraint : List Char) (Reg : Nat),
          getRegForInlineAsmConstraint false Constraint ≠ ConstraintResult.Pair Reg RegClass.GPR32)
      ∧ getConstraintType ['w'] = ConstraintTypeResult.C_RegisterClass := by
  refine ⟨by cases HasAlu32 <;> rfl, rfl, rfl, fun Constraint Reg => ?_, rfl⟩
  unfold getRegForInlineAsmConstraint
  split
  · split_ifs <;> simp_all
  · simp

/-- C27: `EmitSubregExt` builds, for an unsigned request, one move (`MOV_32_64_no_sext`
with explicit sign extension, `MOV_32_64` without); for a signed request one `MOV_32_64`
with explicit sign extension, and otherwise `MOV_32_64`, a shift left by 32 and an
arithmetic shift right by 32, whose result is returned; and shifting a 64-bit pattern
left by 32 and arithmetically right by 32 gives the sign extension of its low 32 bits. -/
theorem EmitSubregExt_spec (n R : Nat) (x : Nat) :
    EmitSubregExt true n R false
        = ⟨[⟨Opcode.MOV_32_64_no_sext, [defReg n, useReg R]⟩], n, n + 1⟩
      ∧ EmitSubregExt false n R false = ⟨[⟨Opcode.MOV_32_64, [defReg n, useReg R]⟩], n, n + 1⟩
      ∧ EmitSubregExt true n R true = ⟨[⟨Opcode.MOV_32_64, [defReg n, useReg R]⟩], n, n + 1⟩
      ∧ EmitSubregExt false n R true
        = ⟨[⟨Opcode.MOV_32_64, [defReg n, useReg R]⟩,
            ⟨Opcode.SLL_ri, [defReg (n + 1), useReg n, MachineOperand.Imm 32]⟩,
            ⟨Opcode.SRA_ri, [defReg (n + 2), useReg (n + 1), MachineOperand.Imm 32]⟩],
            n + 2, n + 3⟩
      ∧ SRA64 (SLL64 x 32) 32 = (toSigned 32 (x % 2 ^ 32) % 2 ^ 64).toNat := by
  refine ⟨rfl, rfl, rfl, rfl, ?_⟩
  unfold SRA64 SLL64 toSigned
  have e1 : (64 : Nat) - 1 = 63 := rfl
  have e2 : (32 : Nat) - 1 = 31 := rfl
  rw [e1, e2]
  split_ifs <;> omega

/-- C28: for a `MEMCPY` pseudo-instruction whose register operands exist already,
`EmitInstrWithCustomInserter` returns the same block and changes only that instruction:
it appends one operand, a new virtual register of class `GPR` that is none of the
existing operands, flagged `Define`, `Dead` and `EarlyClobber`; the other operands, the
other instructions and blocks, and the layout stay as they were. -/
theorem EmitInstrWithCustomInserter_memcpy (HasExplicitSignExt : Bool) (F : MachineFunction)
    (BB Idx : Nat) (B : MachineBasicBlock) (MI : MachineInstr)
    (hB : F.Blocks[BB]? = some B) (hMI : B.Instrs[Idx]? = some MI)
    (hOpc : MI.Opc = Opcode.MEMCPY)
    (hwf : ∀ R Flags, MachineOperand.Reg R Flags ∈ MI.Operands → R < F.NumVirtRegs) :
    ∃ F2, EmitInstrWithCustomInserter HasExplicitSignExt F BB Idx = .ok (F2, BB)
      ∧ F2.Blocks[BB]?
        = some ⟨B.Instrs.set Idx
            ⟨Opcode.MEMCPY,
              MI.Operands ++ [MachineOperand.Reg F.NumVirtRegs ⟨true, true, true⟩]⟩,
            B.Successors⟩
      ∧ (∀ j, j ≠ BB → F2.Blocks[j]? = F.Blocks[j]?)
      ∧ F2.Blocks.length = F.Blocks.length
      ∧ F2.Layout = F.Layout
      ∧ F2.VirtRegs = F.VirtRegs ++ [RegClass.GPR]
      ∧ ∀ Flags, MachineOperand.Reg F.NumVirtRegs Flags ∉ MI.Operands := by
  have hlt : BB < F.Blocks.length := (List.getElem?_eq_some_iff.mp hB).1
  refine ⟨⟨F.Blocks.set BB
      ⟨B.Instrs.set Idx
        ⟨MI.Opc, MI.Operands ++ [MachineOperand.Reg F.NumVirtRegs ⟨true, true, true⟩]⟩,
        B.Successors⟩, F.Layout, F.VirtRegs ++ [RegClass.GPR]⟩, ?_, ?_, ?_, ?_, ?_, ?_, ?_⟩
  · simp only [EmitInstrWithCustomInserter, hB, hMI, hOpc, EmitInstrWithCustomInserterMemcpy]
    simp [isSelectRROp, isSelectRIOp]
  · simp [List.getElem?_set_self hlt, hOpc]
  · intro j hj
    simp [List.getElem?_set_ne (Ne.symm hj)]
  · simp
  · rfl
  · rfl
  · intro Flags hmem
    exact absurd (hwf _ _ hmem) (lt_irrefl _)

/-- Witness for C28: the `MEMCPY` of `memcpyFunction`. -/
theorem EmitInstrWithCustomInserter_memcpy_witness :
    (memcpyFunction.Blocks[0]? = some ⟨[⟨Opcode.MEMCPY,
          [useReg 0, useReg 1, MachineOperand.Imm 16, MachineOperand.Imm 8]⟩], []⟩)
      ∧ ∃ F2, EmitInstrWithCustomInserter false memcpyFunction 0 0 = .ok (F2, 0)
        ∧ F2.Blocks[0]?
          = some ⟨[⟨Opcode.MEMCPY,
              [useReg 0, useReg 1, MachineOperand.Imm 16, MachineOperand.Imm 8,
                MachineOperand.Reg 2 ⟨true, true, true⟩]⟩], []⟩ := by
  refine ⟨by decide, ?_⟩
  obtain ⟨F2, h1, h2, -⟩ := EmitInstrWithCustomInserter_memcpy false memcpyFunction 0 0
    ⟨[⟨Opcode.MEMCPY, [useReg 0, useReg 1, MachineOperand.Imm 16, MachineOperand.Imm 8]⟩], []⟩
    ⟨Opcode.MEMCPY, [useReg 0, useReg 1, MachineOperand.Imm 16, MachineOperand.Imm 8]⟩
    (by decide) (by decide) rfl
    (by
      intro R Flags h
      simp only [useReg, List.mem_cons, MachineOperand.Reg.injEq, List.mem_singleton,
        List.not_mem_nil, or_false, reduceCtorEq] at h
      rcases h with ⟨rfl, -⟩ | ⟨rfl, -⟩ <;> decide)
  exact ⟨F2, h1, h2⟩

/-! ## The select expansion -/

/-- C26: the `switch` of the select expansion maps each of the ten integer condition
codes to the jump of the table, in the `_rr` form when asked for the register-register
form and in the `_ri` form otherwise; the table is injective; the register-register form
is asked for exactly by the four register-register select pseudos; and for every other
value of the condition-code operand the expansion of a select ends in the fatal error
"unimplemented select CondCode". -/
theorem selectNewCC_table :
    (∀ (RR : Bool), ∀ p ∈ selectTable,
        selectNewCC RR p.1.toImm = .ok (if RR then Opcode.J_rr p.2 else Opcode.J_ri p.2))
      ∧ (selectTable.map Prod.fst).Nodup ∧ (selectTable.map Prod.snd).Nodup
      ∧ (∀ (RR : Bool) (CC : Int), (∀ p ∈ selectTable, CC ≠ p.1.toImm) →
          selectNewCC RR CC = .error (ExpandError.UnimplementedSelectCondCode CC))
      ∧ (∀ Opc, isSelectRROp Opc = true ↔
          Opc ∈ [Opcode.Select, Opcode.Select_64_32, Opcode.Select_32, Opcode.Select_32_64])
      ∧ ∀ (E : Bool) (F : MachineFunction) (BB Idx : Nat) (B : MachineBasicBlock)
          (MI : MachineInstr) (CC : Int),
          F.Blocks[BB]? = some B → B.Instrs[Idx]? = some MI →
          (isSelectRROp MI.Opc || isSelectRIOp MI.Opc) = true → MI.getImm 3 = some CC →
          (∀ p ∈ selectTable, CC ≠ p.1.toImm) →
          EmitInstrWithCustomInserter E F BB Idx
            = .error (ExpandError.UnimplementedSelectCondCode CC) := by
  have hErr : ∀ (RR : Bool) (CC : Int), (∀ p ∈ selectTable, CC ≠ p.1.toImm) →
      selectNewCC RR CC = .error (ExpandError.UnimplementedSelectCondCode CC) := by
    intro RR CC h
    simp only [selectTable, List.mem_cons, List.mem_singleton, List.not_mem_nil, or_false,
      forall_eq_or_imp, forall_eq] at h
    obtain ⟨h1, h2, h3, h4, h5, h6, h7, h8, h9, h10⟩ := h
    simp only [selectNewCC, h1, h2, h3, h4, h5, h6, h7, h8, h9, h10, if_false]
  refine ⟨?_, by decide, by decide, hErr, ?_, ?_⟩
  · intro RR p hp
    simp only [selectTable, List.mem_cons, List.mem_singleton, List.not_mem_nil,
      or_false] at hp
    rcases hp with h | h | h | h | h | h | h | h | h | h <;> subst h <;> cases RR <;> rfl
  · intro Opc
    cases Opc <;> simp [isSelectRROp]
  · intro E F BB Idx B MI CC hB hMI hSel hCC hNot
    have hnm : MI.Opc ≠ Opcode.MEMCPY := by
      intro h; rw [h] at hSel; simp [isSelectRROp, isSelectRIOp] at hSel
    have hnf : MI.Opc ≠ Opcode.ATOMIC_FENCE := by
      intro h; rw [h] at hSel; simp [isSelectRROp, isSelectRIOp] at hSel
    simp only [EmitInstrWithCustomInserter, hB, hMI, hSel, hnm, hnf, hCC, hErr _ CC hNot,
      decide_False, Bool.or_false, Bool.not_true, Bool.false_eq_true, if_false]

theorem retargetPHI_of_ne (From To : Nat) (MI : MachineInstr) (h : MI.Opc ≠ Opcode.PHI) :
    retargetPHI From To MI = MI := by
  simp only [retargetPHI, h, if_false]

theorem map_retargetPHI_of_ne (From To : Nat) (L : List MachineInstr)
    (h : ∀ I ∈ L, I.Opc ≠ Opcode.PHI) : L.map (retargetPHI From To) = L := by
  induction L with
  | nil => rfl
  | cons I rest ih =>
    rw [List.map_cons, retargetPHI_of_ne From To I (h I (List.mem_cons_self _ _)),
      ih (fun J hJ => h J (List.mem_cons_of_mem _ hJ))]

theorem updatePHIs_length (Succs : List Nat) (From To : Nat) (L : List MachineBasicBlock) :
    ∀ i, (updatePHIs Succs From To i L).length = L.length := by
  induction L with
  | nil => intro i; rfl
  | cons B rest ih => intro i; simp only [updatePHIs, List.length_cons, ih]

theorem updatePHIs_getElem? (Succs : List Nat) (From To : Nat) (L : List MachineBasicBlock) :
    ∀ i j, (updatePHIs Succs From To i L)[j]?
      = (L[j]?).map (fun B =>
          if i + j ∈ Succs then ⟨B.Instrs.map (retargetPHI From To), B.Successors⟩ else B) := by
  induction L with
  | nil => intro i j; simp [updatePHIs]
  | cons B rest ih =>
    intro i j
    cases j with
    | zero => simp [updatePHIs]
    | succ j =>
      simp only [updatePHIs, List.getElem?_cons_succ, ih]
      have e : i + 1 + j = i + (j + 1) := by omega
      rw [e]

theorem EmitSubregExt_shape (E : Bool) (n R : Nat) (s : Bool) :
    (∀ I ∈ (EmitSubregExt E n R s).Instrs,
        I.Opc ≠ Opcode.PHI ∧ isSelectRROp I.Opc = false ∧ isSelectRIOp I.Opc = false)
      ∧ n ≤ (EmitSubregExt E n R s).NumVirtRegs := by
  cases E <;> cases s <;> simp [EmitSubregExt, isSelectRROp, isSelectRIOp]

theorem jumpOpcode_shape (RR : Bool) (c : JumpCond) :
    jumpOpcode RR c ≠ Opcode.PHI ∧ isSelectRROp (jumpOpcode RR c) = false
      ∧ isSelectRIOp (jumpOpcode RR c) = false := by
  cases RR <;> simp [jumpOpcode, isSelectRROp, isSelectRIOp]

theorem selectNewCC_shape (RR : Bool) (CC : Int) (NewCC : Opcode)
    (h : selectNewCC RR CC = .ok NewCC) :
    NewCC ≠ Opcode.PHI ∧ isSelectRROp NewCC = false ∧ isSelectRIOp NewCC = false := by
  have key : ∃ c, NewCC = jumpOpcode RR c := by
    unfold selectNewCC at h
    repeat
      first
      | (split at h
         · exact ⟨_, (Except.ok.inj h).symm⟩)
      | exact Except.noConfusion h
  obtain ⟨c, rfl⟩ := key
  exact jumpOpcode_shape _ _

theorem emitSelectBranch_shape (E : Bool) (n : Nat) (MI : MachineInstr) (CC : Int)
    (NewCC : Opcode) (C1 : Nat) (Branch : List MachineInstr) (NVR : Nat)
    (h : emitSelectBranch E n MI CC NewCC C1 = some (Branch, NVR)) :
    ∃ Exts L R, Branch = Exts ++ [⟨NewCC, [useReg L, R, MachineOperand.MBB C1]⟩]
      ∧ (∀ I ∈ Exts,
          I.Opc ≠ Opcode.PHI ∧ isSelectRROp I.Opc = false ∧ isSelectRIOp I.Opc = false)
      ∧ n ≤ NVR := by
  unfold emitSelectBranch at h
  cases h1 : MI.getReg 1 with
  | none => simp [h1] at h
  | some LHS =>
    simp only [h1] at h
    cases h32 : is32BitCmp MI.Opc <;> cases hRR : isSelectRROp MI.Opc <;>
      simp only [h32, hRR, if_true, if_false, Bool.false_eq_true] at h
    · cases h2 : MI.getImm 2 with
      | none => simp [h2] at h
      | some imm =>
        simp only [h2] at h
        cases hi : isInt32 imm <;>
          simp only [hi, if_true, Bool.false_eq_true, if_false, Option.some.injEq,
            Prod.mk.injEq, List.nil_append, reduceCtorEq] at h
        obtain ⟨hb, hn⟩ := h
        exact ⟨[], _, _, hb.symm, by simp, by omega⟩
    · cases h2 : MI.getReg 2 with
      | none => simp [h2] at h
      | some RHS =>
        simp only [h2, Option.some.injEq, Prod.mk.injEq, List.append_nil,
          List.nil_append] at h
        obtain ⟨hb, hn⟩ := h
        exact ⟨[], _, _, hb.symm, by simp, by omega⟩
    · cases h2 : MI.getImm 2 with
      | none => simp [h2] at h
      | some imm =>
        simp only [h2] at h
        cases hi : isInt32 imm <;>
          simp only [hi, if_true, Bool.false_eq_true, if_false, Option.some.injEq,
            Prod.mk.injEq, reduceCtorEq] at h
        obtain ⟨hb, hn⟩ := h
        have sL := EmitSubregExt_shape E n LHS (isSignedCmp CC || !false)
        exact ⟨_, _, _, hb.symm, sL.1, by rw [← hn]; exact sL.2⟩
    · cases h2 : MI.getReg 2 with
      | none => simp [h2] at h
      | some RHS =>
        simp only [h2, Option.some.injEq, Prod.mk.injEq] at h
        obtain ⟨hb, hn⟩ := h
        have sL := EmitSubregExt_shape E n LHS (isSignedCmp CC || !true)
        have sR := EmitSubregExt_shape E
          (EmitSubregExt E n LHS (isSignedCmp CC || !true)).NumVirtRegs RHS (isSignedCmp CC)
        refine ⟨_, _, _, hb.symm, ?_, ?_⟩
        · intro I hI
          rcases List.mem_append.mp hI with hI | hI
          · exact sL.1 I hI
          · exact sR.1 I hI
        · rw [← hn]; exact le_trans sL.2 sR.2

/-- The select expansion in closed form. -/
theorem EmitInstrWithCustomInserter_select (E : Bool) (F : MachineFunction) (BB Idx : Nat)
    (B : MachineBasicBlock) (MI : MachineInstr) (CC : Int) (NewCC : Opcode)
    (Branch : List MachineInstr) (NVR Dst TrueReg FalseReg : Nat)
    (hB : F.Blocks[BB]? = some B) (hMI : B.Instrs[Idx]? = some MI)
    (hSel : (isSelectRROp MI.Opc || isSelectRIOp MI.Opc) = true)
    (hCC : MI.getImm 3 = some CC)
    (hNew : selectNewCC (isSelectRROp MI.Opc) CC = .ok NewCC)
    (hBr : emitSelectBranch E F.NumVirtRegs MI CC NewCC (F.Blocks.length + 1)
      = some (Branch, NVR))
    (hDst : MI.getReg 0 = some Dst) (hT : MI.getReg 4 = some TrueReg)
    (hF : MI.getReg 5 = some FalseReg) :
    EmitInstrWithCustomInserter E F BB Idx
      = .ok (⟨updatePHIs B.Successors BB (F.Blocks.length + 1) 0
              (F.Blocks.set BB ⟨B.Instrs.take Idx ++ Branch,
                [F.Blocks.length, F.Blocks.length + 1]⟩)
            ++ [⟨[], [F.Blocks.length + 1]⟩,
                ⟨⟨Opcode.PHI, [defReg Dst, useReg FalseReg,
                    MachineOperand.MBB F.Blocks.length, useReg TrueReg,
                    MachineOperand.MBB BB]⟩ :: B.Instrs.drop (Idx + 1), B.Successors⟩],
          insertAfter BB [F.Blocks.length, F.Blocks.length + 1] F.Layout,
          F.VirtRegs ++ List.replicate (NVR - F.NumVirtRegs) RegClass.GPR⟩,
          F.Blocks.length + 1) := by
  have hnm : MI.Opc ≠ Opcode.MEMCPY := by
    intro h; rw [h] at hSel; simp [isSelectRROp, isSelectRIOp] at hSel
  have hnf : MI.Opc ≠ Opcode.ATOMIC_FENCE := by
    intro h; rw [h] at hSel; simp [isSelectRROp, isSelectRIOp] at hSel
  simp only [EmitInstrWithCustomInserter, hB, hMI, hSel, hnm, hnf, hCC, hNew, hBr, hDst, hT,
    hF, decide_False, Bool.or_false, Bool.not_true, Bool.false_eq_true, if_false]

/-- C21: in the part of the select expansion that promotes the compared registers, a
32-bit select against an immediate (`Select_Ri_32`, `Select_Ri_32_64`) extends its
register operand with `EmitSubregExt` asked for a signed extension, whatever the
condition code; a 32-bit register-register select (`Select_32`, `Select_32_64`) extends
both operands with `EmitSubregExt` asked for the same kind of extension, signed exactly
when the condition code is `SETGT`, `SETGE`, `SETLT` or `SETLE`; the jump that follows
compares the two promoted values. -/
theorem emitSelectBranch_32bit_extension (E : Bool) (n : Nat) (MI : MachineInstr) (CC : Int)
    (NewCC : Opcode) (Copy1MBB LHS : Nat) (h1 : MI.getReg 1 = some LHS) :
    ((MI.Opc = Opcode.Select_Ri_32 ∨ MI.Opc = Opcode.Select_Ri_32_64) →
        ∀ imm, MI.getImm 2 = some imm → isInt32 imm = true →
          emitSelectBranch E n MI CC NewCC Copy1MBB
            = some ((EmitSubregExt E n LHS true).Instrs
                ++ [⟨NewCC, [useReg (EmitSubregExt E n LHS true).Result,
                      MachineOperand.Imm imm, MachineOperand.MBB Copy1MBB]⟩],
              (EmitSubregExt E n LHS true).NumVirtRegs))
      ∧ ((MI.Opc = Opcode.Select_32 ∨ MI.Opc = Opcode.Select_32_64) →
        ∀ RHS, MI.getReg 2 = some RHS →
          emitSelectBranch E n MI CC NewCC Copy1MBB
            = some ((EmitSubregExt E n LHS (isSignedCmp CC)).Instrs
                ++ (EmitSubregExt E (EmitSubregExt E n LHS (isSignedCmp CC)).NumVirtRegs RHS
                      (isSignedCmp CC)).Instrs
                ++ [⟨NewCC, [useReg (EmitSubregExt E n LHS (isSignedCmp CC)).Result,
                      useReg (EmitSubregExt E
                        (EmitSubregExt E n LHS (isSignedCmp CC)).NumVirtRegs RHS
                        (isSignedCmp CC)).Result,
                      MachineOperand.MBB Copy1MBB]⟩],
              (EmitSubregExt E (EmitSubregExt E n LHS (isSignedCmp CC)).NumVirtRegs RHS
                (isSignedCmp CC)).NumVirtRegs))
      ∧ (isSignedCmp CC = true ↔
          CC ∈ [CondCode.SETGT.toImm, CondCode.SETGE.toImm, CondCode.SETLT.toImm,
            CondCode.SETLE.toImm]) := by
  refine ⟨?_, ?_, ?_⟩
  · intro hOpc imm h2 hi
    have h32 : is32BitCmp MI.Opc = true := by
      rcases hOpc with h | h <;> rw [h] <;> rfl
    have hRR : isSelectRROp MI.Opc = false := by
      rcases hOpc with h | h <;> rw [h] <;> rfl
    simp only [emitSelectBranch, h1, h2, hi, h32, hRR, if_true, Bool.false_eq_true, if_false,
      Bool.not_false, Bool.or_true]
  · intro hOpc RHS h2
    have h32 : is32BitCmp MI.Opc = true := by
      rcases hOpc with h | h <;> rw [h] <;> rfl
    have hRR : isSelectRROp MI.Opc = true := by
      rcases hOpc with h | h <;> rw [h] <;> rfl
    simp only [emitSelectBranch, h1, h2, h32, hRR, if_true, Bool.not_true, Bool.or_false]
  · simp only [isSignedCmp, Bool.or_eq_true, decide_eq_true_eq, List.mem_cons,
      List.mem_singleton, List.not_mem_nil, or_false, or_assoc]

/-- Witness for C21: `Select_Ri_32 %1, 7, SETGT` without explicit sign extension, and
with six virtual registers before. -/
theorem emitSelectBranch_32bit_extension_witness :
    emitSelectBranch false 6
        ⟨Opcode.Select_Ri_32,
          [defReg 5, useReg 1, MachineOperand.Imm 7, MachineOperand.Imm 18, useReg 2,
            useReg 3]⟩
        18 (Opcode.J_ri JumpCond.JSGT) 3
      = some ([⟨Opcode.MOV_32_64, [defReg 6, useReg 1]⟩,
          ⟨Opcode.SLL_ri, [defReg 7, useReg 6, MachineOperand.Imm 32]⟩,
          ⟨Opcode.SRA_ri, [defReg 8, useReg 7, MachineOperand.Imm 32]⟩,
          ⟨Opcode.J_ri JumpCond.JSGT,
            [useReg 8, MachineOperand.Imm 7, MachineOperand.MBB 3]⟩], 9) :=
  (emitSelectBranch_32bit_extension false 6
    ⟨Opcode.Select_Ri_32,
      [defReg 5, useReg 1, MachineOperand.Imm 7, MachineOperand.Imm 18, useReg 2, useReg 3]⟩
    18 (Opcode.J_ri JumpCond.JSGT) 3 1 rfl).1 (Or.inl rfl) 7 rfl (by decide)

/-- C22: for a select pseudo-instruction at index `Idx` of block `BB` whose operands are
of the expected kinds and whose condition code has a jump, `EmitInstrWithCustomInserter`
returns the new block `Copy1` and leaves a diamond: `BB` keeps the instructions before
the pseudo, followed by the promoted operands and the conditional jump to `Copy1`, and has
exactly `Copy0` and `Copy1` as successors; `Copy0` is empty and has `Copy1` as its only
successor; `Copy1` starts with a `PHI` that defines the destination of the pseudo, and
then holds, in order, the instructions that followed the pseudo, with the former
successors of `BB`; the `PHI` takes operand 4 on the edge from `BB` and operand 5 on the
edge from `Copy0`; no select is among the instructions built; the other blocks change
only in that the `PHI`s of the former successors name `Copy1` in place of `BB`; and the
two new blocks are laid out right after `BB`. -/
theorem EmitInstrWithCustomInserter_diamond (E : Bool) (F : MachineFunction) (BB Idx : Nat)
    (B : MachineBasicBlock) (MI : MachineInstr) (CC : Int) (NewCC : Opcode)
    (Branch : List MachineInstr) (NVR Dst TrueReg FalseReg : Nat)
    (hB : F.Blocks[BB]? = some B) (hMI : B.Instrs[Idx]? = some MI)
    (hSel : (isSelectRROp MI.Opc || isSelectRIOp MI.Opc) = true)
    (hCC : MI.getImm 3 = some CC)
    (hNew : selectNewCC (isSelectRROp MI.Opc) CC = .ok NewCC)
    (hBr : emitSelectBranch E F.NumVirtRegs MI CC NewCC (F.Blocks.length + 1)
      = some (Branch, NVR))
    (hDst : MI.getReg 0 = some Dst) (hT : MI.getReg 4 = some TrueReg)
    (hF : MI.getReg 5 = some FalseReg) :
    ∃ F2 Exts Jump,
      EmitInstrWithCustomInserter E F BB Idx = .ok (F2, F.Blocks.length + 1)
      ∧ F2.Blocks.length = F.Blocks.length + 2
      ∧ Branch = Exts ++ [Jump] ∧ Jump.Opc = NewCC
      ∧ Jump.Operands.getLast? = some (MachineOperand.MBB (F.Blocks.length + 1))
      ∧ F2.Blocks[BB]?
        = some ⟨(if BB ∈ B.Successors
              then (B.Instrs.take Idx).map (retargetPHI BB (F.Blocks.length + 1))
              else B.Instrs.take Idx) ++ Exts ++ [Jump],
            [F.Blocks.length, F.Blocks.length + 1]⟩
      ∧ F2.Blocks[F.Blocks.length]? = some ⟨[], [F.Blocks.length + 1]⟩
      ∧ F2.Blocks[F.Blocks.length + 1]?
        = some ⟨⟨Opcode.PHI, [defReg Dst, useReg FalseReg,
              MachineOperand.MBB F.Blocks.length, useReg TrueReg,
              MachineOperand.MBB BB]⟩ :: B.Instrs.drop (Idx + 1), B.Successors⟩
      ∧ phiIncoming BB [defReg Dst, useReg FalseReg, MachineOperand.MBB F.Blocks.length,
          useReg TrueReg, MachineOperand.MBB BB] = some TrueReg
      ∧ phiIncoming F.Blocks.length [defReg Dst, useReg FalseReg,
          MachineOperand.MBB F.Blocks.length, useReg TrueReg, MachineOperand.MBB BB]
        = some FalseReg
      ∧ (∀ I ∈ Exts ++ [Jump], isSelectRROp I.Opc = false ∧ isSelectRIOp I.Opc = false)
      ∧ (∀ j, j ≠ BB → j < F.Blocks.length →
          F2.Blocks[j]? = (F.Blocks[j]?).map (fun X =>
            if j ∈ B.Successors
            then ⟨X.Instrs.map (retargetPHI BB (F.Blocks.length + 1)), X.Successors⟩
            else X))
      ∧ F2.Layout = insertAfter BB [F.Blocks.length, F.Blocks.length + 1] F.Layout := by
  have hlt : BB < F.Blocks.length := (List.getElem?_eq_some_iff.mp hB).1
  obtain ⟨Exts, L, R, hBranch, hExts, -⟩ :=
    emitSelectBranch_shape E F.NumVirtRegs MI CC NewCC (F.Blocks.length + 1) Branch NVR hBr
  have hJ := selectNewCC_shape _ CC NewCC hNew
  have hNoPhi : ∀ I ∈ Branch, I.Opc ≠ Opcode.PHI := by
    intro I hI
    rw [hBranch] at hI
    rcases List.mem_append.mp hI with hI | hI
    · exact (hExts I hI).1
    · rw [List.mem_singleton.mp hI]; exact hJ.1
  have hlen : (updatePHIs B.Successors BB (F.Blocks.length + 1) 0
      (F.Blocks.set BB ⟨B.Instrs.take Idx ++ Branch,
        [F.Blocks.length, F.Blocks.length + 1]⟩)).length = F.Blocks.length := by
    rw [updatePHIs_length, List.length_set]
  refine ⟨_, Exts, ⟨NewCC, [useReg L, R, MachineOperand.MBB (F.Blocks.length + 1)]⟩,
    EmitInstrWithCustomInserter_select E F BB Idx B MI CC NewCC Branch NVR Dst TrueReg
      FalseReg hB hMI hSel hCC hNew hBr hDst hT hF,
    ?_, hBranch, rfl, rfl, ?_, ?_, ?_, ?_, ?_, ?_, ?_, rfl⟩
  · simp only [List.length_append, hlen, List.length_cons, List.length_nil]
  · rw [List.getElem?_append_left (by rw [hlen]; exact hlt), updatePHIs_getElem?,
      List.getElem?_set_self hlt, Option.map_some', Nat.zero_add]
    by_cases hs : BB ∈ B.Successors
    · rw [if_pos hs, if_pos hs, List.map_append, map_retargetPHI_of_ne _ _ Branch hNoPhi,
        hBranch, List.append_assoc]
    · simp only [hs, if_false, hBranch, List.append_assoc]
  · rw [List.getElem?_append_right (by rw [hlen]), hlen, Nat.sub_self]
    rfl
  · rw [List.getElem?_append_right (by rw [hlen]; omega), hlen, Nat.add_sub_cancel_left]
    rfl
  · have hne : F.Blocks.length ≠ BB := by omega
    simp only [phiIncoming, defReg, useReg, hne, if_false, if_true]
  · simp only [phiIncoming, defReg, useReg, if_true]
  · intro I hI
    rcases List.mem_append.mp hI with hI | hI
    · exact (hExts I hI).2
    · rw [List.mem_singleton.mp hI]; exact hJ.2
  · intro j hj hjlt
    rw [List.getElem?_append_left (by rw [hlen]; exact hjlt), updatePHIs_getElem?,
      List.getElem?_set_ne (Ne.symm hj), Nat.zero_add]

/-- Witness for C22: the select of `selectFunction`. -/
theorem EmitInstrWithCustomInserter_diamond_witness :
    ∃ F2, EmitInstrWithCustomInserter false selectFunction 0 1 = .ok (F2, 3)
      ∧ F2.Blocks[3]?
        = some ⟨[⟨Opcode.PHI, [defReg 5, useReg 3, MachineOperand.MBB 2, useReg 2,
              MachineOperand.MBB 0]⟩, ⟨Opcode.Other 1, [useReg 5]⟩], [1]⟩
      ∧ F2.Layout = [0, 2, 3, 1] := by
  obtain ⟨F2, Exts, Jump, h1, -, -, -, -, -, -, h3, -, -, -, -, hL⟩ :=
    EmitInstrWithCustomInserter_diamond false selectFunction 0 1 selectBlock
      ⟨Opcode.Select_Ri_32,
        [defReg 5, useReg 1, MachineOperand.Imm 7, MachineOperand.Imm 18, useReg 2,
          useReg 3]⟩
      18 (Opcode.J_ri JumpCond.JSGT)
      [⟨Opcode.MOV_32_64, [defReg 6, useReg 1]⟩,
        ⟨Opcode.SLL_ri, [defReg 7, useReg 6, MachineOperand.Imm 32]⟩,
        ⟨Opcode.SRA_ri, [defReg 8, useReg 7, MachineOperand.Imm 32]⟩,
        ⟨Opcode.J_ri JumpCond.JSGT, [useReg 8, MachineOperand.Imm 7, MachineOperand.MBB 3]⟩]
      9 5 2 3 rfl rfl rfl rfl rfl rfl rfl rfl rfl
  exact ⟨F2, h1, h3, hL⟩

/-! ## The meaning of the comparison is kept -/

theorem evalCC_mirroredCode (CC : CondCode) (w x y : Nat) (h : isLessThanCode CC = true) :
    evalCC (mirroredCode CC) w y x = evalCC CC w x y := by
  cases CC <;> first | rfl | simp [isLessThanCode] at h

theorem sext32_eq (a : Nat) (ha : a < 2 ^ 32) :
    (toSigned 32 a % 2 ^ 64).toNat = if a < 2 ^ 31 then a else a + (2 ^ 64 - 2 ^ 32) := by
  unfold toSigned
  have e2 : (32 : Nat) - 1 = 31 := rfl
  rw [e2]
  split_ifs <;> omega

theorem toSigned_sext32 (a : Nat) (ha : a < 2 ^ 32) :
    toSigned 64 (toSigned 32 a % 2 ^ 64).toNat = toSigned 32 a := by
  rw [sext32_eq a ha]
  unfold toSigned
  have e1 : (64 : Nat) - 1 = 63 := rfl
  have e2 : (32 : Nat) - 1 = 31 := rfl
  rw [e1, e2]
  split_ifs <;> omega

theorem evalCC_sext32 (CC : CondCode) (a b : Nat) (ha : a < 2 ^ 32) (hb : b < 2 ^ 32) :
    evalCC CC 64 (toSigned 32 a % 2 ^ 64).toNat (toSigned 32 b % 2 ^ 64).toNat
      = evalCC CC 32 a b := by
  have hu : ∀ x y : Nat, x < 2 ^ 32 → y < 2 ^ 32 →
      (((toSigned 32 x % 2 ^ 64).toNat < (toSigned 32 y % 2 ^ 64).toNat ↔ x < y)
        ∧ ((toSigned 32 x % 2 ^ 64).toNat ≤ (toSigned 32 y % 2 ^ 64).toNat ↔ x ≤ y)
        ∧ ((toSigned 32 x % 2 ^ 64).toNat = (toSigned 32 y % 2 ^ 64).toNat ↔ x = y)) := by
    intro x y hx hy
    rw [sext32_eq x hx, sext32_eq y hy]
    refine ⟨?_, ?_, ?_⟩ <;> split_ifs <;> omega
  obtain ⟨h1, h2, h3⟩ := hu a b ha hb
  obtain ⟨h4, h5, -⟩ := hu b a hb ha
  cases CC <;> simp only [evalCC, toSigned_sext32 a ha, toSigned_sext32 b hb, h1, h2, h3, h4,
    h5, ne_eq]

theorem evalCC_zext32 (CC : CondCode) (a b : Nat) (h : isSignedCode CC = false) :
    evalCC CC 64 a b = evalCC CC 32 a b := by
  cases CC <;> first | rfl | simp [isSignedCode] at h

theorem specWidening_zero (Alu32 : Bool) (CC : CondCode) (LHS RHS : SDValue)
    (h : specWidening Alu32 CC LHS RHS = Widening.ZeroExtension) : isSignedCode CC = false := by
  unfold specWidening at h
  split_ifs at h with h1 h2
  cases hs : isSignedCode CC
  · rfl
  · exact absurd (Or.inr (Or.inr hs)) h2

theorem specWidening_of_alu32 (CC : CondCode) (LHS RHS : SDValue)
    (hL : LHS.getValueType = MVT.i32) :
    specWidening true CC LHS RHS ≠ Widening.NoExtension := by
  unfold specWidening
  rw [if_pos ⟨rfl, Or.inl hL⟩]
  split_ifs <;> simp

theorem evalCC_widen (W : Widening) (X Y : SDValue) (CC : CondCode) (atom : SDValue → Nat)
    (hX : X.getValueType = MVT.i32) (hY : Y.getValueType = MVT.i32)
    (hW : W = Widening.ZeroExtension → isSignedCode CC = false) :
    evalCC CC (widen W X).getValueType.getFixedSizeInBits ((widen W X).eval atom)
        ((widen W Y).eval atom)
      = evalCC CC 32 (X.eval atom) (Y.eval atom) := by
  have hx : X.eval atom < 2 ^ 32 := by
    have := eval_lt atom X
    rw [hX] at this
    exact this
  have hy : Y.eval atom < 2 ^ 32 := by
    have := eval_lt atom Y
    rw [hY] at this
    exact this
  cases W with
  | NoExtension =>
    simp only [widen, hX, MVT.getFixedSizeInBits]
  | SignExtension =>
    simp only [widen, SDValue.eval, getValueType_Unary, hX, hY, MVT.getFixedSizeInBits]
    exact evalCC_sext32 CC _ _ hx hy
  | ZeroExtension =>
    simp only [widen, SDValue.eval, getValueType_Unary, MVT.getFixedSizeInBits]
    rw [Nat.mod_eq_of_lt (by omega), Nat.mod_eq_of_lt (by omega)]
    exact evalCC_zext32 CC _ _ (hW rfl)

theorem getValueType_widen (W : Widening) (X Y : SDValue)
    (h : X.getValueType = Y.getValueType) :
    (widen W X).getValueType = (widen W Y).getValueType := by
  cases W <;> first | exact h | rfl

/-- C31: for every pair of 32-bit patterns and every condition code, the code evaluated
in 64 bits on the two sign extensions has the truth value of the code evaluated in 32 bits
on the patterns, and so it has on the two zero extensions when the code is not a signed
one; and whatever `LowerBR_CC` does to a comparison of two 32-bit operands (mirroring,
sign or zero extension of both, or nothing), the condition code it emits, evaluated at the
width of the operands it emits, has the truth value of the original code evaluated in 32
bits on the original operands; with ALU32 the emitted operands are 64-bit. -/
theorem LowerBR_CC_preserves_comparison (ST : Subtarget) (Op : BR_CC_Node)
    (atom : SDValue → Nat) (hL : Op.LHS.getValueType = MVT.i32)
    (hR : Op.RHS.getValueType = MVT.i32) :
    (∀ (CC : CondCode) (a b : Nat), a < 2 ^ 32 → b < 2 ^ 32 →
        evalCC CC 64 (toSigned 32 a % 2 ^ 64).toNat (toSigned 32 b % 2 ^ 64).toNat
            = evalCC CC 32 a b
          ∧ (isSignedCode CC = false → evalCC CC 64 (a % 2 ^ 64) (b % 2 ^ 64) = evalCC CC 32 a b))
      ∧ evalCC (LowerBR_CC ST Op).CC (LowerBR_CC ST Op).LHS.getValueType.getFixedSizeInBits
          ((LowerBR_CC ST Op).LHS.eval atom) ((LowerBR_CC ST Op).RHS.eval atom)
        = evalCC Op.CC 32 (Op.LHS.eval atom) (Op.RHS.eval atom)
      ∧ (ST.HasAlu32 = true →
          (LowerBR_CC ST Op).LHS.getValueType = MVT.i64
            ∧ (LowerBR_CC ST Op).RHS.getValueType = MVT.i64) := by
  refine ⟨fun CC a b ha hb => ⟨evalCC_sext32 CC a b ha hb, fun hs => ?_⟩, ?_, ?_⟩
  · rw [Nat.mod_eq_of_lt (by omega), Nat.mod_eq_of_lt (by omega)]
    exact evalCC_zext32 CC a b hs
  · have key := evalCC_widen (specWidening ST.HasAlu32 Op.CC Op.LHS Op.RHS) Op.LHS Op.RHS
      Op.CC atom hL hR (specWidening_zero _ _ _ _)
    rw [LowerBR_CC_eq]
    split_ifs with h
    · have hlt : isLessThanCode Op.CC = true := by
        cases hJ : ST.HasJmpExt <;> simp_all
      show evalCC (mirroredCode Op.CC)
        (widen (specWidening ST.HasAlu32 Op.CC Op.LHS Op.RHS) Op.RHS).getValueType.getFixedSizeInBits
        _ _ = _
      rw [evalCC_mirroredCode _ _ _ _ hlt,
        getValueType_widen _ Op.RHS Op.LHS (by rw [hL, hR])]
      exact key
    · exact key
  · intro hA
    have hne := specWidening_of_alu32 Op.CC Op.LHS Op.RHS hL
    rw [LowerBR_CC_eq, hA]
    cases hW : specWidening true Op.CC Op.LHS Op.RHS
    · exact absurd hW hne
    · split_ifs <;> exact ⟨rfl, rfl⟩
    · split_ifs <;> exact ⟨rfl, rfl⟩

/-- Witness for C31: `-1 <u 1` on 32-bit leaves, lowered with ALU32 and without the
extended jumps. -/
theorem LowerBR_CC_preserves_comparison_witness :
    evalCC (LowerBR_CC ⟨false, true, false⟩
          ⟨CondCode.SETULT, SDValue.Leaf 0 MVT.i32, SDValue.Leaf 1 MVT.i32, 7⟩).CC
        (LowerBR_CC ⟨false, true, false⟩
          ⟨CondCode.SETULT, SDValue.Leaf 0 MVT.i32, SDValue.Leaf 1 MVT.i32, 7⟩).LHS.getValueType.getFixedSizeInBits
        ((LowerBR_CC ⟨false, true, false⟩
          ⟨CondCode.SETULT, SDValue.Leaf 0 MVT.i32, SDValue.Leaf 1 MVT.i32, 7⟩).LHS.eval
            (fun V => if V = SDValue.Leaf 0 MVT.i32 then 0xFFFFFFFF else 1))
        ((LowerBR_CC ⟨false, true, false⟩
          ⟨CondCode.SETULT, SDValue.Leaf 0 MVT.i32, SDValue.Leaf 1 MVT.i32, 7⟩).RHS.eval
            (fun V => if V = SDValue.Leaf 0 MVT.i32 then 0xFFFFFFFF else 1))
      = evalCC CondCode.SETULT 32
          ((SDValue.Leaf 0 MVT.i32).eval
            (fun V => if V = SDValue.Leaf 0 MVT.i32 then 0xFFFFFFFF else 1))
          ((SDValue.Leaf 1 MVT.i32).eval
            (fun V => if V = SDValue.Leaf 0 MVT.i32 then 0xFFFFFFFF else 1)) :=
  (LowerBR_CC_preserves_comparison ⟨false, true, false⟩
    ⟨CondCode.SETULT, SDValue.Leaf 0 MVT.i32, SDValue.Leaf 1 MVT.i32, 7⟩
    (fun V => if V = SDValue.Leaf 0 MVT.i32 then 0xFFFFFFFF else 1) rfl rfl).2.1

/-- C32: `NegateCC` keeps the meaning of the comparison: the condition code it leaves,
evaluated on the values of the operands it leaves, has the truth value of the original
code on the values of the original operands, at every width and for all operand values;
and applying `NegateCC` to its own result changes nothing. -/
theorem NegateCC_preserves_comparison (LHS RHS : SDValue) (CC : CondCode)
    (atom : SDValue → Nat) (w : Nat) :
    evalCC (NegateCC LHS RHS CC).2.2 w ((NegateCC LHS RHS CC).1.eval atom)
        ((NegateCC LHS RHS CC).2.1.eval atom)
      = evalCC CC w (LHS.eval atom) (RHS.eval atom)
      ∧ NegateCC (NegateCC LHS RHS CC).1 (NegateCC LHS RHS CC).2.1 (NegateCC LHS RHS CC).2.2
        = NegateCC LHS RHS CC
      ∧ ∀ a b : Nat,
          evalCC (NegateCC (SDValue.Constant a MVT.i64) (SDValue.Constant b MVT.i64) CC).2.2 64
              ((NegateCC (SDValue.Constant a MVT.i64) (SDValue.Constant b MVT.i64) CC).1.eval
                atom)
              ((NegateCC (SDValue.Constant a MVT.i64) (SDValue.Constant b MVT.i64) CC).2.1.eval
                atom)
            = evalCC CC 64 (a % 2 ^ 64) (b % 2 ^ 64) := by
  have h1 : ∀ (L R : SDValue),
      evalCC (NegateCC L R CC).2.2 w ((NegateCC L R CC).1.eval atom)
        ((NegateCC L R CC).2.1.eval atom) = evalCC CC w (L.eval atom) (R.eval atom) := by
    intro L R
    cases CC <;> rfl
  have h2 : ∀ (L R : SDValue),
      evalCC (NegateCC L R CC).2.2 64 ((NegateCC L R CC).1.eval atom)
        ((NegateCC L R CC).2.1.eval atom) = evalCC CC 64 (L.eval atom) (R.eval atom) := by
    intro L R
    cases CC <;> rfl
  refine ⟨h1 LHS RHS, ?_, fun a b => ?_⟩
  · cases CC <;> rfl
  · exact h2 _ _

/-! ## Caller and callee -/

/-- C33: for every subtarget and every argument count `n`, `LowerCall` with `n` outgoing
arguments and `LowerFormalArguments` with `n` incoming arguments choose the same
assignment function; it is one of the `_X` functions exactly when `n > 5` and the
subtarget has no dynamic frames, and one of the 32-bit functions exactly when ALU32 is
enabled; the analyses at the head of the two hooks run the chosen function, and on the
same argument list they assign the same locations. -/
theorem LowerCall_LowerFormalArguments_same_AssignFn (ST : Subtarget) (n : Nat) :
    LowerCall_AssignFn ST n = LowerFormalArguments_AssignFn ST n
      ∧ ((LowerCall_AssignFn ST n = AssignFnId.CC_SBF32_X
            ∨ LowerCall_AssignFn ST n = AssignFnId.CC_SBF64_X)
          ↔ (5 < n ∧ ST.HasDynamicFrames = false))
      ∧ ((LowerCall_AssignFn ST n = AssignFnId.CC_SBF32
            ∨ LowerCall_AssignFn ST n = AssignFnId.CC_SBF32_X)
          ↔ ST.HasAlu32 = true)
      ∧ (∀ Args : List ISDArg, Args.length = n →
          LowerCall_CCInfo ST Args = AnalyzeCallOperands Args (LowerCall_AssignFn ST n).fn
            ∧ LowerFormalArguments_CCInfo ST Args
              = AnalyzeFormalArguments Args (LowerFormalArguments_AssignFn ST n).fn)
      ∧ ∀ Args : List ISDArg, LowerCall_CCInfo ST Args = LowerFormalArguments_CCInfo ST Args := by
  obtain ⟨D, A, J⟩ := ST
  have hM : MaxArgs = 5 := rfl
  refine ⟨?_, ?_, ?_, ?_, ?_⟩
  · unfold LowerCall_AssignFn LowerFormalArguments_AssignFn
    rw [hM]
    by_cases hn : n > 5 <;> cases D <;> cases A <;> simp [hn]
  · unfold LowerCall_AssignFn
    rw [hM]
    by_cases hn : n > 5 <;> cases D <;> cases A <;> simp [hn]
  · unfold LowerCall_AssignFn
    rw [hM]
    by_cases hn : n > 5 <;> cases D <;> cases A <;> simp [hn]
  · intro Args hlen
    subst hlen
    unfold LowerCall_AssignFn LowerFormalArguments_AssignFn LowerCall_CCInfo
      LowerFormalArguments_CCInfo
    rw [hM]
    by_cases hn : Args.length > 5 <;> cases D <;> cases A <;> simp [hn, AssignFnId.fn]
  · intro Args
    unfold LowerCall_CCInfo LowerFormalArguments_CCInfo AnalyzeCallOperands
      AnalyzeFormalArguments
    rw [hM]
    by_cases hn : Args.length > 5 <;> cases D <;> cases A <;> simp [hn]

/-! ## Every outgoing argument is handled once -/

theorem walkArgs_regsToPass :
    ∀ (Regs : List CCValAssign) (RegVals : List SDValue) (Mems : List CCValAssign)
      (MemVals : List SDValue) (W : RegWalk),
      Regs.length = RegVals.length →
      walkArgs (Regs ++ Mems) (RegVals ++ MemVals) = some W →
      (∀ VA ∈ Regs, VA.isRegLoc = true) →
      ∀ j, j < Regs.length →
        ∃ VA V R Arg, Regs[j]? = some VA ∧ RegVals[j]? = some V ∧ VA.Loc = ArgLoc.Reg R
          ∧ promoteArg VA V = some Arg ∧ W.RegsToPass[j]? = some (R, Arg) := by
  intro Regs
  induction Regs with
  | nil => intro _ _ _ _ _ _ _ j hj; simp at hj
  | cons VA rest ih =>
    intro RegVals Mems MemVals W hl hW hr j hj
    cases RegVals with
    | nil => simp at hl
    | cons v vs =>
      have hreg := hr VA (List.mem_cons_self _ _)
      simp only [List.cons_append, walkArgs] at hW
      cases hp : promoteArg VA v with
      | none => simp [hp] at hW
      | some Arg =>
        cases hLoc : VA.Loc with
        | Mem Off => simp [CCValAssign.isRegLoc, hLoc] at hreg
        | Pending n => simp [CCValAssign.isRegLoc, hLoc] at hreg
        | Reg r =>
          simp only [hp, hLoc] at hW
          cases hW2 : walkArgs (rest ++ Mems) (vs ++ MemVals) with
          | none =>
            change Option.map _ (walkArgs (rest ++ Mems) (vs ++ MemVals)) = some W at hW
            rw [hW2] at hW
            exact absurd hW (by simp)
          | some W2 =>
            change Option.map _ (walkArgs (rest ++ Mems) (vs ++ MemVals)) = some W at hW
            rw [hW2] at hW
            simp only [Option.map_some', Option.some.injEq] at hW
            subst hW
            cases j with
            | zero => exact ⟨VA, v, r, Arg, by simp, by simp, hLoc, hp, by simp⟩
            | succ j =>
              obtain ⟨VA2, V2, R2, Arg2, h1, h2, h3, h4, h5⟩ :=
                ih vs Mems MemVals W2 (by simpa using hl) hW2
                  (fun x hx => hr x (List.mem_cons_of_mem _ hx)) j (by simpa using hj)
              exact ⟨VA2, V2, R2, Arg2, by simpa using h1, by simpa using h2, h3, h4,
                by simpa using h5⟩

theorem length_storedValues (Stores : List ChainNode) (h : ∀ N ∈ Stores, N.isStore = true) :
    (storedValues Stores).length = Stores.length := by
  induction Stores with
  | nil => rfl
  | cons N rest ih =>
    have hN := h N (List.mem_cons_self _ _)
    have hrest := ih (fun M hM => h M (List.mem_cons_of_mem _ hM))
    cases N <;> simp_all [storedValues, ChainNode.isStore]

/-- C34: for argument locations whose first `k` entries are register locations and whose
other entries are stack locations, `LowerCall` handles every outgoing argument exactly
once: `RegsToPass` holds, in order, the register and the promoted value of each of the
first `k` arguments and nothing else; the chained stores are one per remaining argument
and store the values of the arguments from `k` on (from the last one down); the `R5` copy
of the frame pointer and the `R5` operand of the call are present exactly when there is a
stack argument and the subtarget has no dynamic frames. -/
theorem LowerCall_each_argument_once (ST : Subtarget) (FramePtr : Register)
    (CLI : CallLoweringInfo) (ArgLocs : List CCValAssign) (NumBytes k : Nat)
    (hlen : ArgLocs.length = CLI.OutVals.length) (hk : k ≤ ArgLocs.length)
    (hregs : ∀ VA ∈ ArgLocs.take k, VA.isRegLoc = true)
    (hmems : ∀ VA ∈ ArgLocs.drop k, VA.isMemLoc = true)
    (hinfo : ∀ VA ∈ ArgLocs.take (k + 1), VA.HTP ≠ LocInfo.BCvt) :
    ∃ W Stores,
      walkArgs ArgLocs CLI.OutVals = some W
        ∧ W.RegsToPass.length = k
        ∧ (∀ j, j < k →
            ∃ VA V R Arg, ArgLocs[j]? = some VA ∧ CLI.OutVals[j]? = some V
              ∧ VA.Loc = ArgLoc.Reg R ∧ promoteArg VA V = some Arg
              ∧ W.RegsToPass[j]? = some (R, Arg))
        ∧ (∀ N ∈ Stores, N.isStore = true)
        ∧ storedValues Stores = (CLI.OutVals.drop k).reverse
        ∧ Stores.length = ArgLocs.length - k
        ∧ LowerCall_chain ST FramePtr CLI ArgLocs NumBytes
          = some ([ChainNode.CALLSEQ_START NumBytes] ++ Stores
              ++ (if (decide (k < ArgLocs.length) && !ST.HasDynamicFrames) = true then
                    [ChainNode.CopyToReg (Register.R 5)
                      (SDValue.CopyFromReg FramePtr PtrVT) false]
                  else [])
              ++ copyRegsToPass W.RegsToPass
                  (decide (k < ArgLocs.length) && !ST.HasDynamicFrames)
              ++ [ChainNode.CALL (targetCallee CLI.Target)
                    (W.RegsToPass.map Prod.fst
                      ++ (if (decide (k < ArgLocs.length) && !ST.HasDynamicFrames) = true
                          then [Register.R 5] else []))
                    ((decide (k < ArgLocs.length) && !ST.HasDynamicFrames)
                      || decide (W.RegsToPass ≠ [])),
                  ChainNode.CALLSEQ_END NumBytes]) := by
  have hsplitL : ArgLocs.take k ++ ArgLocs.drop k = ArgLocs := List.take_append_drop k _
  have hsplitV : CLI.OutVals.take k ++ CLI.OutVals.drop k = CLI.OutVals :=
    List.take_append_drop k _
  have hcontent : ∀ W, walkArgs ArgLocs CLI.OutVals = some W → ∀ j, j < k →
      ∃ VA V R Arg, ArgLocs[j]? = some VA ∧ CLI.OutVals[j]? = some V
        ∧ VA.Loc = ArgLoc.Reg R ∧ promoteArg VA V = some Arg
        ∧ W.RegsToPass[j]? = some (R, Arg) := by
    intro W hW j hj
    rw [← hsplitL, ← hsplitV] at hW
    obtain ⟨VA, V, R, Arg, h1, h2, h3, h4, h5⟩ :=
      walkArgs_regsToPass (ArgLocs.take k) (CLI.OutVals.take k) (ArgLocs.drop k)
        (CLI.OutVals.drop k) W (by simp; omega) hW hregs j (by simp; omega)
    rw [List.getElem?_take_of_lt hj] at h1 h2
    exact ⟨VA, V, R, Arg, h1, h2, h3, h4, h5⟩
  rcases Nat.lt_or_ge k ArgLocs.length with hlt | hge
  · obtain ⟨Stores, W, hW, hWlen, hV, hAll, hchain⟩ :=
      LowerCall_chain_split ST FramePtr CLI ArgLocs NumBytes k hlen hlt hregs hmems hinfo
    refine ⟨W, Stores, hW, hWlen, hcontent W hW, hAll, hV, ?_, ?_⟩
    · rw [← length_storedValues Stores hAll, hV, List.length_reverse, List.length_drop, hlen]
    · rw [hchain]
      cases ST.HasDynamicFrames <;> simp [hlt]
  · have hkeq : k = ArgLocs.length := by omega
    have hregs2 : ∀ VA ∈ ArgLocs, VA.isRegLoc = true ∧ VA.HTP ≠ LocInfo.BCvt := by
      intro VA hVA
      have h1 : ArgLocs.take k = ArgLocs := by rw [hkeq]; exact List.take_length _
      have h2 : ArgLocs.take (k + 1) = ArgLocs := List.take_of_length_le (by omega)
      exact ⟨hregs VA (by rw [h1]; exact hVA), hinfo VA (by rw [h2]; exact hVA)⟩
    obtain ⟨W, hW, hi, hs, hWlen⟩ := walkArgs_split ArgLocs CLI.OutVals [] [] hlen
      (by simp) hregs2 (by simp)
    simp only [List.append_nil] at hW
    have hstack : W.HasStackArgs = false := by rw [hs]; simp
    refine ⟨W, [], hW, by rw [hWlen, hkeq], hcontent W hW, by simp, ?_, by simp [hkeq], ?_⟩
    · rw [List.drop_of_length_le (by omega)]
      rfl
    · have hnlt : ¬ k < ArgLocs.length := by omega
      unfold LowerCall_chain
      simp [hW, hstack, hnlt]

/-- Witness for C34: the call with six 64-bit arguments without dynamic frames; the first
four locations are registers. -/
theorem LowerCall_each_argument_once_witness :
    (4 ≤ (LowerCall_CCInfo fixedFrameST (callWithArgs 6).Outs).Locs.length)
      ∧ ∃ W Stores,
        walkArgs (LowerCall_CCInfo fixedFrameST (callWithArgs 6).Outs).Locs
            (callWithArgs 6).OutVals = some W
          ∧ W.RegsToPass.length = 4
          ∧ storedValues Stores = ((callWithArgs 6).OutVals.drop 4).reverse
          ∧ Stores.length = (LowerCall_CCInfo fixedFrameST (callWithArgs 6).Outs).Locs.length - 4 := by
  refine ⟨by decide, ?_⟩
  obtain ⟨W, Stores, h1, h2, -, -, h5, h6, -⟩ :=
    LowerCall_each_argument_once fixedFrameST (Register.R 10) (callWithArgs 6)
      (LowerCall_CCInfo fixedFrameST (callWithArgs 6).Outs).Locs 16 4
      (by decide) (by decide) (by decide) (by decide) (by decide)
  exact ⟨W, Stores, h1, h2, h5, h6⟩

/-! ## The dispatch of `LowerOperation` on the custom operations -/

theorem foldl_setOperationAction (Op : NodeType) (VT : SimpleValueType) (A : LegalizeAction) :
    ∀ (Calls : List OperationAction) (Acc : Option LegalizeAction),
      Calls.foldl (fun Acc C => if C.Op = Op ∧ C.VT = VT then some C.Action else Acc) Acc
          = some A →
        Acc = some A ∨ (⟨Op, VT, A⟩ : OperationAction) ∈ Calls := by
  intro Calls
  induction Calls with
  | nil => intro Acc h; exact Or.inl h
  | cons C rest ih =>
    intro Acc h
    rw [List.foldl_cons] at h
    rcases ih _ h with h1 | h1
    · by_cases hc : C.Op = Op ∧ C.VT = VT
      · rw [if_pos hc] at h1
        right
        obtain ⟨O, V, Act⟩ := C
        obtain ⟨hO, hV⟩ := hc
        simp only at hO hV
        simp only [Option.some.injEq] at h1
        subst hO; subst hV; subst h1
        exact List.mem_cons_self _ _
      · rw [if_neg hc] at h1
        exact Or.inl h1
    · exact Or.inr (List.mem_cons_of_mem _ h1)

theorem getOperationAction_mem (Calls : List OperationAction) (Op : NodeType)
    (VT : SimpleValueType) (A : LegalizeAction)
    (h : getOperationAction Calls Op VT = some A) : (⟨Op, VT, A⟩ : OperationAction) ∈ Calls := by
  rcases foldl_setOperationAction Op VT A Calls none h with h1 | h1
  · exact absurd h1 (by simp)
  · exact h1

theorem custom_calls_listed (HasAlu32 HasPqrClass : Bool) :
    ∀ C ∈ SBFTargetLowering_setOperationActions HasAlu32 HasPqrClass,
      C.Action = LegalizeAction.Custom → C.Op ∈ customOperations := by
  cases HasAlu32 <;> cases HasPqrClass <;> decide

/-- C35: for every setting of ALU32 and of the PQR class, an operation is left `Custom`
on some value type by the constructor exactly when it is one of `BR_CC`, `GlobalAddress`,
`SELECT_CC`, `DYNAMIC_STACKALLOC`, `INTRINSIC_W_CHAIN` and the thirteen atomic
read-modify-write opcodes; for each of them `LowerOperation` reaches an explicit case and
not its unreachable default; `DYNAMIC_STACKALLOC` ends in the fatal error "Unsupported
dynamic stack allocation"; and `ReplaceNodeResults` never leaves its switch, so the call
of `fail` that would read the unset `err_msg` is reached for no opcode. -/
theorem LowerOperation_total_on_custom (HasAlu32 HasPqrClass : Bool) :
    (∀ (Op : NodeType) (VT : SimpleValueType),
        getOperationAction (SBFTargetLowering_setOperationActions HasAlu32 HasPqrClass) Op VT
            = some LegalizeAction.Custom →
          Op ∈ customOperations
            ∧ LowerOperation Op ≠ LowerOperationResult.UnreachableUnimplementedOperation)
      ∧ (∀ Op ∈ customOperations,
          getOperationAction (SBFTargetLowering_setOperationActions HasAlu32 HasPqrClass) Op
              (if Op = NodeType.INTRINSIC_W_CHAIN then SimpleValueType.Other
                else SimpleValueType.i64)
            = some LegalizeAction.Custom)
      ∧ (∀ Op ∈ customOperations,
          LowerOperation Op ≠ LowerOperationResult.UnreachableUnimplementedOperation)
      ∧ LowerOperation NodeType.DYNAMIC_STACKALLOC
          = LowerOperationResult.UnsupportedDynamicStackAllocation
      ∧ (∀ Op : NodeType, ReplaceNodeResults_switch Op ≠ none)
      ∧ ∀ Op : NodeType, ReplaceNodeResults Op ≠ ReplaceNodeResultsEnd.FailUninitializedMessage := by
  have hDispatch : ∀ Op ∈ customOperations,
      LowerOperation Op ≠ LowerOperationResult.UnreachableUnimplementedOperation := by
    decide
  refine ⟨fun Op VT h => ?_, ?_, hDispatch, rfl, fun Op => ?_, fun Op => ?_⟩
  · have hmem := custom_calls_listed HasAlu32 HasPqrClass _
      (getOperationAction_mem _ Op VT _ h) rfl
    exact ⟨hmem, hDispatch Op hmem⟩
  · cases HasAlu32 <;> cases HasPqrClass <;> decide
  · cases Op <;> simp [ReplaceNodeResults_switch]
  · cases Op <;> simp [ReplaceNodeResults, ReplaceNodeResults_switch]

end SBFLowering

namespace SBFLinker

/-! ## The load-wide-immediate and call relocations, as implemented -/

/-- C29: as implemented, `relocate` for `R_SBF_64_64` reports no error and changes only
the bytes `loc + 4 .. loc + 7` and `loc + 12 .. loc + 15`; for every 64-bit `val` the
little-endian field at `loc + 4` then holds the low half of `val` and the field at
`loc + 12` the high half, and recombining them gives `val`. -/
theorem relocate_64_64_fields (K : RelocCodes) (buf : List Byte) (loc val : Nat)
    (hval : val < 2 ^ 64) (hlen : loc + 16 ≤ buf.length) :
    (relocate K buf loc K.R_SBF_64_64 val).2 = []
      ∧ read32le (relocate K buf loc K.R_SBF_64_64 val).1 (loc + 4) = val % 2 ^ 32
      ∧ read32le (relocate K buf loc K.R_SBF_64_64 val).1 (loc + 12) = val / 2 ^ 32
      ∧ 2 ^ 32 * read32le (relocate K buf loc K.R_SBF_64_64 val).1 (loc + 12)
          + read32le (relocate K buf loc K.R_SBF_64_64 val).1 (loc + 4) = val
      ∧ (relocate K buf loc K.R_SBF_64_64 val).1.length = buf.length
      ∧ ∀ j, j < loc + 4 ∨ (loc + 8 ≤ j ∧ j < loc + 12) ∨ loc + 16 ≤ j →
          (relocate K buf loc K.R_SBF_64_64 val).1[j]? = buf[j]? := by
  rw [relocate_64_64]
  simp only
  have hlo : read32le (write32le (write32le buf (loc + 4) (val % 2 ^ 32)) (loc + 12)
      (val / 2 ^ 32 % 2 ^ 32)) (loc + 4) = val % 2 ^ 32 := by
    rw [read32le_write32le_of_disjoint _ _ _ _ (by omega), read32le_write32le _ _ _ (by omega)]
    omega
  have hhi : read32le (write32le (write32le buf (loc + 4) (val % 2 ^ 32)) (loc + 12)
      (val / 2 ^ 32 % 2 ^ 32)) (loc + 12) = val / 2 ^ 32 := by
    rw [read32le_write32le _ _ _ (by rw [length_write32le]; omega)]
    omega
  refine ⟨trivial, hlo, hhi, ?_, ?_, fun j hj => ?_⟩
  · rw [hlo, hhi]; omega
  · rw [length_write32le, length_write32le]
  · rw [getElem?_write32le_of_outside _ _ _ _ (by omega),
      getElem?_write32le_of_outside _ _ _ _ (by omega)]

/-- Witness for C29: `0xFFFFFFFF00000001` patched at offset 1 of a zeroed 20-byte
buffer. -/
theorem relocate_64_64_fields_witness :
    (0xFFFFFFFF00000001 < 2 ^ 64 ∧ 1 + 16 ≤ (List.replicate 20 (0 : Byte)).length)
      ∧ read32le (relocate sbfRelocCodes (List.replicate 20 0) 1 sbfRelocCodes.R_SBF_64_64
          0xFFFFFFFF00000001).1 (1 + 12) = 0xFFFFFFFF00000001 / 2 ^ 32 :=
  ⟨by decide,
    (relocate_64_64_fields sbfRelocCodes (List.replicate 20 0) 1 0xFFFFFFFF00000001
      (by decide) (by decide)).2.2.1⟩

/-- C30: for every 64-bit `val`, the 32-bit field written by `relocate` for `R_SBF_64_32`
is `floor((v - 8) / 8) mod 2 ^ 32` over the integers, both for `v` the signed reading of
`val` and for `v` the unsigned reading; for `val = 0` the field is `0xFFFFFFFF`. -/
theorem relocate_64_32_signed (K : RelocCodes) (buf : List Byte) (loc val : Nat)
    (hval : val < 2 ^ 64) (hlen : loc + 8 ≤ buf.length) :
    (read32le (relocate K buf loc K.R_SBF_64_32 val).1 (loc + 4) : Int)
        = (toInt64 val - 8) / 8 % 2 ^ 32
      ∧ (read32le (relocate K buf loc K.R_SBF_64_32 val).1 (loc + 4) : Int)
        = ((val : Int) - 8) / 8 % 2 ^ 32
      ∧ read32le (relocate K buf loc K.R_SBF_64_32 0).1 (loc + 4) = 0xFFFFFFFF := by
  rw [relocate_64_32, relocate_64_32]
  simp only
  rw [read32le_write32le _ _ _ (by omega), read32le_write32le _ _ _ (by omega)]
  refine ⟨?_, by omega, by norm_num⟩
  unfold toInt64
  split_ifs <;> omega

/-- Witness for C30: `val = 0x10` (a forward displacement of one instruction) at offset 0
of a zeroed 8-byte buffer. -/
theorem relocate_64_32_signed_witness :
    (0x10 < 2 ^ 64 ∧ 0 + 8 ≤ (List.replicate 8 (0 : Byte)).length)
      ∧ (read32le (relocate sbfRelocCodes (List.replicate 8 0) 0 sbfRelocCodes.R_SBF_64_32
          0x10).1 (0 + 4) : Int) = (toInt64 0x10 - 8) / 8 % 2 ^ 32 :=
  ⟨by decide,
    (relocate_64_32_signed sbfRelocCodes (List.replicate 8 0) 0 0x10 (by decide)
      (by decide)).1⟩

end SBFLinker
